import Mathlib

/-!
# Planar cell extraction (PCGExTopology): embedding and verified properties

Shallow embedding of `Source/PCGExtendedToolkit/Private/Topology/PCGExTopology.cpp`
(`FCellConstraints`, `FCell::GetCellHash`, `FCell::BuildFromCluster`) and of the triangulation
in `Source/PCGExtendedToolkit/Public/Topology/PCGExTopology.h` (`FCell::Triangulate`,
`TriangulateFan`, `TriangulateEarClipping`, `MarkTriangle`).

Conventions of the embedding
* `double` values are idealised as rationals; the transcendental / irrational
  primitives of the engine (`Sqrt`, the radians between two directions, `PI`, the
  point-in-polygon test) are the fields of `FMathKernel`, so general theorems hold
  for every implementation of them.  `RefMath` is a reference instance used to
  evaluate concrete scenarios.
* `int32` indices are `Int` (the sentinel `-1` is used by the source), `uint32` and
  `uint64` hashes are `Nat` reduced modulo `2^32` / `2^64`.
* `TSet` is `Finset`, `TArray` is `List`.
* Reading an array outside its range is undefined in C++; the accessors of the
  embedding return a default element there.
-/

set_option autoImplicit false

namespace PCGExTopology

/-! ## Engine numerics -/

/-- Largest finite double, `MAX_dbl`. -/
def MAX_dbl : ℚ := (2 ^ 53 - 1) * 2 ^ 971

/-- Smallest positive normal double, `MIN_dbl`. -/
def MIN_dbl : ℚ := 1 / 2 ^ 1022

/-- Largest `int32`. -/
def MAX_int32 : Int := 2 ^ 31 - 1

/-- Smallest `int32`. -/
def MIN_int32 : Int := -(2 ^ 31)

/-- Engine `FVector` (three doubles). -/
structure FVector where
  X : ℚ
  Y : ℚ
  Z : ℚ
deriving DecidableEq

/-- Engine `FVector2D` (two doubles). -/
structure FVector2D where
  X : ℚ
  Y : ℚ
deriving DecidableEq

instance : Inhabited FVector := ⟨⟨0, 0, 0⟩⟩

instance : Inhabited FVector2D := ⟨⟨0, 0⟩⟩

instance : Add FVector := ⟨fun a b => ⟨a.X + b.X, a.Y + b.Y, a.Z + b.Z⟩⟩

instance : Sub FVector := ⟨fun a b => ⟨a.X - b.X, a.Y - b.Y, a.Z - b.Z⟩⟩

instance : Sub FVector2D := ⟨fun a b => ⟨a.X - b.X, a.Y - b.Y⟩⟩

/-- The numeric primitives of the engine that have no exact rational value. -/
structure FMathKernel where
  /-- Square root, `FMath::Sqrt`. -/
  Sqrt : ℚ → ℚ
  /-- The constant `PI`. -/
  PI : ℚ
  /-- Radians between two (normalised) 2D directions, `PCGExMath::GetRadiansBetweenVectors`. -/
  GetRadiansBetweenVectors : FVector2D → FVector2D → ℚ
  /-- Engine test `FGeomTools2D::IsPointInPolygon`. -/
  IsPointInPolygon : FVector2D → List FVector2D → Bool

/-- `FVector::DotProduct`. -/
def FVector.Dot (a b : FVector) : ℚ := a.X * b.X + a.Y * b.Y + a.Z * b.Z

/-- `FVector::CrossProduct`. -/
def FVector.Cross (a b : FVector) : FVector :=
  ⟨a.Y * b.Z - a.Z * b.Y, a.Z * b.X - a.X * b.Z, a.X * b.Y - a.Y * b.X⟩

/-- `FVector::Length`. -/
def FVector.Length (M : FMathKernel) (a : FVector) : ℚ := M.Sqrt (a.X * a.X + a.Y * a.Y + a.Z * a.Z)

/-- `FVector::Dist`. -/
def FVector.Dist (M : FMathKernel) (a b : FVector) : ℚ := FVector.Length M (b - a)

/-- Scalar division `FVector /= s`. -/
def FVector.DivScalar (a : FVector) (s : ℚ) : FVector := ⟨a.X / s, a.Y / s, a.Z / s⟩

/-- `FVector2D::GetSafeNormal` with the engine tolerance `UE_SMALL_NUMBER = 1e-8`. -/
def FVector2D.GetSafeNormal (M : FMathKernel) (a : FVector2D) : FVector2D :=
  let SquareSum := a.X * a.X + a.Y * a.Y
  if SquareSum > 1 / 100000000 then
    let Scale := 1 / M.Sqrt SquareSum
    ⟨a.X * Scale, a.Y * Scale⟩
  else ⟨0, 0⟩

/-- `FMath::IsNearlyEqual(A, B, Tolerance)`. -/
def IsNearlyEqual (A B Tolerance : ℚ) : Bool := decide (|A - B| ≤ Tolerance)

/-- Engine `FBox`: an axis-aligned box with a validity flag. -/
structure FBox where
  Min : FVector
  Max : FVector
  IsValid : Bool
deriving DecidableEq

/-- `FBox(ForceInit)`. -/
def FBox.ForceInit : FBox := ⟨⟨0, 0, 0⟩, ⟨0, 0, 0⟩, false⟩

/-- `FBox::operator+=(const FVector&)`. -/
def FBox.AddPoint (b : FBox) (p : FVector) : FBox :=
  if b.IsValid then
    ⟨⟨min b.Min.X p.X, min b.Min.Y p.Y, min b.Min.Z p.Z⟩,
     ⟨max b.Max.X p.X, max b.Max.Y p.Y, max b.Max.Z p.Z⟩, true⟩
  else ⟨p, p, true⟩

/-- `FBox::GetSize`. -/
def FBox.GetSize (b : FBox) : FVector := b.Max - b.Min

/-! ## Hashing -/

/-- Engine `HashCombineFast(uint32 A, uint32 B)`:
`A ^ (B + 0x9e3779b9 + (A << 6) + (A >> 2))` on 32-bit words. -/
def HashCombineFast (A B : ℕ) : ℕ :=
  Nat.xor (A % 2 ^ 32) ((B % 2 ^ 32 + 0x9e3779b9 + (A % 2 ^ 32) * 64 % 2 ^ 32 + (A % 2 ^ 32) / 4) % 2 ^ 32)

/-- Conversion of an `int32` to `uint32`. -/
def ToUInt32 (i : Int) : ℕ := (i % 2 ^ 32).toNat

/-- Modelled from the spec: `PCGEx::H64`, the signed half-edge key `H(From.Node, To.Node)`
(its definition is not part of the excerpt); the two 32-bit indices are packed into one
64-bit word, first index in the high half. -/
def H64 (A B : Int) : ℕ := ToUInt32 A * 2 ^ 32 + ToUInt32 B

/-- Modelled from the spec: `PCGEx::ShiftArrayToSmallest` (its definition is not part of the
excerpt): rotate the array so that it starts at its minimum-value entry (the first one). -/
def ShiftArrayToSmallest (InArray : List Int) : List Int :=
  match InArray.min? with
  | none => InArray
  | some m => InArray.rotate (InArray.indexOf m)

/-! ## Cluster (external collaborator) -/

/-- Read of a `TArray` at an `int32` index; outside the range the default element. -/
def Get {α : Type} [Inhabited α] (l : List α) (i : Int) : α :=
  if 0 ≤ i then l.getD i.toNat default else default

/-- `TArray::Last(IndexFromTheEnd)`. -/
def LastN {α : Type} [Inhabited α] (l : List α) (k : Nat) : α :=
  Get l ((l.length : Int) - 1 - (k : Int))

/-- Modelled from the spec: `PCGExGraph::FLink`, the pair `(NodeIndex, EdgeIndex)`. -/
structure FLink where
  Node : Int
  Edge : Int
deriving DecidableEq

instance : Inhabited FLink := ⟨⟨-1, -1⟩⟩

/-- Modelled from the spec: `PCGExCluster::FNode`: index, index of its point, incident links and
the `bValid` flag written by `MarkTriangle`. -/
structure FNode where
  Index : Int
  PointIndex : Int
  Links : List FLink
  bValid : Int
deriving DecidableEq

instance : Inhabited FNode := ⟨⟨-1, -1, [], 0⟩⟩

/-- `FNode::Num`: number of links. -/
def FNode.Num (n : FNode) : Int := n.Links.length

/-- `FNode::IsLeaf`: exactly one incident edge. -/
def FNode.IsLeaf (n : FNode) : Bool := decide (n.Links.length = 1)

/-- Modelled from the spec: `PCGExGraph::FEdge`; `Start` and `End` are point indices. -/
structure FEdge where
  Start : Int
  End : Int
deriving DecidableEq

instance : Inhabited FEdge := ⟨⟨-1, -1⟩⟩

/-- Modelled from the spec: `PCGExCluster::FCluster`, the already-built graph: nodes, edges, the
table from point index to node index, the 3D positions of the points and the projected centroid. -/
structure FCluster where
  Nodes : List FNode
  Edges : List FEdge
  NodeIndexLookup : List Int
  VtxPositions : List FVector
  ProjectedCentroid : FVector2D
deriving DecidableEq

/-- `FCluster::GetNode(int32)`. -/
def FCluster.GetNode (cl : FCluster) (i : Int) : FNode := Get cl.Nodes i

/-- `FCluster::GetEdge(int32)`. -/
def FCluster.GetEdge (cl : FCluster) (i : Int) : FEdge := Get cl.Edges i

/-- `FCluster::GetPos(const FNode*)`: position of the point of a node. -/
def FCluster.GetPos (cl : FCluster) (n : FNode) : FVector := Get cl.VtxPositions n.PointIndex

/-- `FEdge::Other`: the endpoint that is not the given point. -/
def FEdge.Other (e : FEdge) (InIndex : Int) : Int := if InIndex = e.Start then e.End else e.Start

/-- Modelled from the spec: `FCluster::GetEdgeOtherNode(FLink)`, the node at the other endpoint of
the link's edge. -/
def FCluster.GetEdgeOtherNode (cl : FCluster) (Lk : FLink) : FNode :=
  cl.GetNode (Get cl.NodeIndexLookup ((cl.GetEdge Lk.Edge).Other (cl.GetNode Lk.Node).PointIndex))

/-! ## Geometry helpers of the toolkit -/

/-- Modelled from the spec: `PCGExPaths::FPathMetrics`, the running perimeter accumulator. -/
structure FPathMetrics where
  Start : FVector
  Last : FVector
  Length : ℚ
deriving DecidableEq

/-- `FPathMetrics(const FVector&)`. -/
def FPathMetrics.Init (p : FVector) : FPathMetrics := ⟨p, p, 0⟩

/-- `FPathMetrics::Add(Location, OutDistToLast)`: the segment length and the updated metrics,
whose `Length` is the returned new length. -/
def FPathMetrics.Add (M : FMathKernel) (m : FPathMetrics) (p : FVector) : ℚ × FPathMetrics :=
  let d := FVector.Dist M m.Last p
  (d, ⟨m.Start, p, m.Length + d⟩)

/-- Modelled from the spec: `PCGExMath::CheckConvex`, the turn test "for convexity / sign
consistency": the sign of the turn `A, B, C` about the up axis is compared with the first
non-zero sign seen; a disagreement clears `bIsConvex`. -/
def CheckConvex (A B C : FVector) (bIsConvex : Bool) (Sign : Int) : Bool × Int :=
  if !bIsConvex then (bIsConvex, Sign)
  else
    let DP := (FVector.Cross (A - B) (A - C)).Z
    let CurrentSign : Int := if DP > 0 then 1 else if DP < 0 then -1 else 0
    if CurrentSign = 0 then (bIsConvex, Sign)
    else if Sign = 0 then (bIsConvex, CurrentSign)
    else if Sign ≠ CurrentSign then (false, Sign)
    else (bIsConvex, Sign)

/-- Winding preference `EPCGExWinding`. -/
inductive EPCGExWinding
  | Clockwise
  | CounterClockwise
deriving DecidableEq

/-- Twice the signed area of a polygon (shoelace sum over the closed vertex list). -/
def SignedAreaSum (Vertices : List FVector2D) : ℚ :=
  ((Vertices.zip (Vertices.rotate 1)).map (fun p => p.1.X * p.2.Y - p.1.Y * p.2.X)).sum

/-- Length of the closed polyline through the vertices. -/
def ArcLengthClosed (M : FMathKernel) (Vertices : List FVector2D) : ℚ :=
  ((Vertices.zip (Vertices.rotate 1)).map
    (fun p => M.Sqrt ((p.2.X - p.1.X) * (p.2.X - p.1.X) + (p.2.Y - p.1.Y) * (p.2.Y - p.1.Y)))).sum

/-- Modelled from the spec: `PCGExGeo::FPolygonInfos`, "polygon area / winding / compactness":
unsigned area, clockwise flag (negative signed area), perimeter and the isoperimetric ratio
`4 * PI * Area / Perimeter^2`. -/
structure FPolygonInfos where
  Area : ℚ
  bIsClockwise : Bool
  Perimeter : ℚ
  Compactness : ℚ
deriving DecidableEq

/-- Constructor `FPolygonInfos(const TArray<FVector2D>&)`. -/
def FPolygonInfos.Make (M : FMathKernel) (Vertices : List FVector2D) : FPolygonInfos :=
  let Signed := SignedAreaSum Vertices / 2
  let Perimeter := ArcLengthClosed M Vertices
  let Area := |Signed|
  ⟨Area, decide (Signed < 0), Perimeter,
    if Perimeter = 0 then 0 else 4 * M.PI * Area / (Perimeter * Perimeter)⟩

/-- `FPolygonInfos::IsWinded` (as `PCGExGeo::IsWinded(Winding, bIsInputClockwise)`). -/
def FPolygonInfos.IsWinded (P : FPolygonInfos) (Winding : EPCGExWinding) : Bool :=
  match Winding with
  | .Clockwise => P.bIsClockwise
  | .CounterClockwise => !P.bIsClockwise

/-! ## Cells and constraints -/

/-- Result of a cell trace, `ECellResult`. -/
inductive ECellResult
  | Unknown
  | Success
  | Duplicate
  | Leaf
  | Hole
  | WrongAspect
  | OutsidePointsLimit
  | OutsideBoundsLimit
  | OutsideAreaLimit
  | OutsidePerimeterLimit
  | OutsideCompactnessLimit
  | OutsideSegmentsLimit
  | OpenCell
  | WrapperCell
  | MalformedCluster
deriving DecidableEq

/-- Derived geometry of a cell, `FCellData`. -/
structure FCellData where
  bIsConvex : Bool := true
  bIsClockwise : Bool := false
  bIsClosedLoop : Bool := false
  Area : ℚ := 0
  Perimeter : ℚ := 0
  Compactness : ℚ := 0
  Centroid : FVector := ⟨0, 0, 0⟩
  Bounds : FBox := FBox.ForceInit
deriving DecidableEq

/-- The cell `FCell` (without its reference to the constraints, which is passed along). -/
structure FCell where
  Sign : Int := 0
  Nodes : List Int := []
  Seed : FLink := ⟨-1, -1⟩
  Data : FCellData := {}
  CellHash : ℕ := 0
  Polygon : List FVector2D := []
  bBuiltSuccessfully : Bool := false
deriving DecidableEq

/-- `FCell::GetCellHash`: the cached hash if it is non-zero, else the fold of `HashCombineFast`
over `Nodes` in array order, stored in `CellHash`. -/
def FCell.GetCellHash (c : FCell) : ℕ × FCell :=
  if c.CellHash ≠ 0 then (c.CellHash, c)
  else
    let h := c.Nodes.foldl (fun acc n => HashCombineFast acc (ToUInt32 n)) c.CellHash
    (h, { c with CellHash := h })

/-- `IsAnyPointInPolygon`. -/
def IsAnyPointInPolygon (M : FMathKernel) (Points : List FVector2D) (Polygon : List FVector2D) : Bool :=
  if Points.isEmpty then false else Points.any (fun P => M.IsPointInPolygon P Polygon)

/-- `FHoles`: the cached projected hole points and the points that `ProjectFlat` yields. -/
structure FHoles where
  ProjectedPoints : List FVector2D
  FlatProjection : List FVector2D
deriving DecidableEq

/-- `FHoles::Overlaps`. -/
def FHoles.Overlaps (M : FMathKernel) (h : FHoles) (Polygon : List FVector2D) : Bool × FHoles :=
  if !h.ProjectedPoints.isEmpty then (IsAnyPointInPolygon M h.ProjectedPoints Polygon, h)
  else (IsAnyPointInPolygon M h.FlatProjection Polygon, { h with ProjectedPoints := h.FlatProjection })

/-- `FCellConstraints`: limits, policy flags, the two deduplication sets, the optional wrapper
cell and holes.  Limits not given a value by the caller are permissive (`MAX_*` / `MIN_*`). -/
structure FCellConstraints where
  bConcaveOnly : Bool := false
  bConvexOnly : Bool := false
  bKeepCellsWithLeaves : Bool := true
  bDuplicateLeafPoints : Bool := false
  Winding : EPCGExWinding := .CounterClockwise
  MaxPointCount : Int := MAX_int32
  MinPointCount : Int := MIN_int32
  MaxBoundsSize : ℚ := MAX_dbl
  MinBoundsSize : ℚ := MIN_dbl
  MaxArea : ℚ := MAX_dbl
  MinArea : ℚ := MIN_dbl
  MaxPerimeter : ℚ := MAX_dbl
  MinPerimeter : ℚ := MIN_dbl
  MaxSegmentLength : ℚ := MAX_dbl
  MinSegmentLength : ℚ := MIN_dbl
  MaxCompactness : ℚ := MAX_dbl
  MinCompactness : ℚ := MIN_dbl
  WrapperClassificationTolerance : ℚ := 0
  WrapperCell : Option FCell := none
  Holes : Option FHoles := none
  UniqueStartHalfEdgesHash : Finset ℕ := ∅
  UniquePathsHashSet : Finset ℕ := ∅
deriving DecidableEq

/-- `FCellConstraints::ContainsSignedEdgeHash`. -/
def FCellConstraints.ContainsSignedEdgeHash (con : FCellConstraints) (Hash : ℕ) : Bool :=
  decide (Hash ∈ con.UniqueStartHalfEdgesHash)

/-- `FCellConstraints::IsUniqueStartHalfEdge` (one thread: the read-locked check followed by the
write-locked insert). -/
def FCellConstraints.IsUniqueStartHalfEdge (con : FCellConstraints) (Hash : ℕ) : Bool × FCellConstraints :=
  if Hash ∈ con.UniqueStartHalfEdgesHash then (false, con)
  else
    let bAlreadyExists := decide (Hash ∈ con.UniqueStartHalfEdgesHash)
    (!bAlreadyExists, { con with UniqueStartHalfEdgesHash := insert Hash con.UniqueStartHalfEdgesHash })

/-- `FCellConstraints::IsUniqueCellHash` (one thread); the cell caches its hash. -/
def FCellConstraints.IsUniqueCellHash (con : FCellConstraints) (InCell : FCell) :
    Bool × FCell × FCellConstraints :=
  let r := InCell.GetCellHash
  if r.1 ∈ con.UniquePathsHashSet then (false, r.2, con)
  else
    let bAlreadyExists := decide (r.1 ∈ con.UniquePathsHashSet)
    (!bAlreadyExists, r.2, { con with UniquePathsHashSet := insert r.1 con.UniquePathsHashSet })

/-! ## The face tracer `FCell::BuildFromCluster` -/

/-- Local variables of `BuildFromCluster` that live across the iterations of its walk loop
(the cell is the object the method mutates). -/
structure FWalk where
  Cell : FCell
  From : FLink
  To : FLink
  Metrics : FPathMetrics
  NumUniqueNodes : Int
  SignedEdges : Finset ℕ
deriving DecidableEq

/-- Control flow out of one iteration of the walk loop. -/
inductive FFlow
  | Continue (w : FWalk)
  | Exit (w : FWalk)
  | Return (r : ECellResult) (c : FCell)
deriving DecidableEq

/-- The closing pops (source lines 268-269): remove the last added point, and the one before it
when it is the same index. -/
def PopClosing (Nodes : List Int) : List Int :=
  let RemovedIndex := Nodes.getLast?
  let Nodes1 := Nodes.dropLast
  match Nodes1.getLast? with
  | none => Nodes1
  | some l => if RemovedIndex = some l then Nodes1.dropLast else Nodes1

/-- The candidate loop (source lines 311-325): the first link, in link order, of smallest angle
to the guide direction among the links whose edge is not the locked edge. -/
def SeekNext (M : FMathKernel) (InCluster : FCluster) (ProjectedPositions : List FVector2D)
    (Current : FNode) (PP GuideDir : FVector2D) (LockedEdge : Int) : FLink :=
  (Current.Links.foldl
    (fun (acc : ℚ × FLink) (Lk : FLink) =>
      let NeighborIndex := Lk.Node
      if Lk.Edge = LockedEdge then acc
      else
        let OtherDir := FVector2D.GetSafeNormal M
          (PP - Get ProjectedPositions (InCluster.GetNode NeighborIndex).PointIndex)
        let Angle := M.GetRadiansBetweenVectors OtherDir GuideDir
        if Angle < acc.1 then (Angle, Lk) else acc)
    (MAX_dbl, (⟨-1, -1⟩ : FLink))).2

/-- The closing branch (source lines 267-269): `bIsClosedLoop = true` and the closing pops. -/
def FCell.Close (c : FCell) : FCell :=
  { c with Data := { c.Data with bIsClosedLoop := true }, Nodes := PopClosing c.Nodes }

/-- Source lines 280-284: `Nodes.Add(Current->Index)` and `Data.Centroid += RP`. -/
def FCell.AddNode (c : FCell) (Index : Int) (RP : FVector) : FCell :=
  { c with Nodes := c.Nodes ++ [Index], Data := { c.Data with Centroid := c.Data.Centroid + RP } }

/-- Source line 293: `Data.Bounds += RP`. -/
def FCell.AddBounds (c : FCell) (RP : FVector) : FCell :=
  { c with Data := { c.Data with Bounds := c.Data.Bounds.AddPoint RP } }

/-- Source lines 298-302, the node part: a leaf is added a second time when
`bDuplicateLeafPoints` is set. -/
def FCell.DuplicateLeaf (c : FCell) (Constraints : FCellConstraints) (Current : FNode) : FCell :=
  if Current.IsLeaf ∧ Constraints.bDuplicateLeafPoints then { c with Nodes := c.Nodes ++ [Current.Index] }
  else c

/-- Source lines 296-300, the edge part: the arrival edge is locked unless the node is a leaf. -/
def LockedEdgeOf (Current : FNode) (To : FLink) : Int := if Current.IsLeaf then -1 else To.Edge

/-- Source lines 304-325: the next link chosen at the node `To.Node`, arrived at from `From.Node`. -/
def NextLink (M : FMathKernel) (InCluster : FCluster) (ProjectedPositions : List FVector2D)
    (From To : FLink) : FLink :=
  let Current := InCluster.GetNode To.Node
  let PP := Get ProjectedPositions Current.PointIndex
  let GuideDir := FVector2D.GetSafeNormal M
    (PP - Get ProjectedPositions (InCluster.GetNode From.Node).PointIndex)
  SeekNext M InCluster ProjectedPositions Current PP GuideDir (LockedEdgeOf Current To)

/-- Source lines 334-338: `CheckConvex` on the positions of the last three entries of `Nodes`. -/
def FCell.CheckConvexLast (c : FCell) (InCluster : FCluster) : FCell :=
  let Checked := CheckConvex
    (InCluster.GetPos (InCluster.GetNode (LastN c.Nodes 2)))
    (InCluster.GetPos (InCluster.GetNode (LastN c.Nodes 1)))
    (InCluster.GetPos (InCluster.GetNode (LastN c.Nodes 0)))
    c.Data.bIsConvex c.Sign
  { c with Sign := Checked.2, Data := { c.Data with bIsConvex := Checked.1 } }

/-- One iteration of the walk loop (source lines 255-341), entered with `To.Node != -1`. -/
def LoopBody (M : FMathKernel) (Constraints : FCellConstraints) (Seed : FLink) (InCluster : FCluster)
    (ProjectedPositions : List FVector2D) (w : FWalk) : FFlow :=
  let FailSafe : Int := (InCluster.Edges.length : Int) * 2
  if (w.SignedEdges.card : Int) > FailSafe then .Return .MalformedCluster w.Cell
  else if H64 w.From.Node w.To.Node ∈ w.SignedEdges then
    if w.To.Edge = Seed.Edge ∨ w.To.Node = Seed.Node then .Exit { w with Cell := w.Cell.Close }
    else .Return .OpenCell w.Cell
  else
    let Current := InCluster.GetNode w.To.Node
    let RP := InCluster.GetPos Current
    let Cell1 := w.Cell.AddNode Current.Index RP
    let Added := w.Metrics.Add M RP
    if Added.2.Length > Constraints.MaxPerimeter then .Return .OutsidePerimeterLimit Cell1
    else if Added.1 < Constraints.MinSegmentLength ∨ Added.1 > Constraints.MaxSegmentLength then
      .Return .OutsideSegmentsLimit Cell1
    else if w.NumUniqueNodes + 1 > Constraints.MaxPointCount then .Return .OutsidePointsLimit Cell1
    else if FVector.Length M (Cell1.AddBounds RP).Data.Bounds.GetSize > Constraints.MaxBoundsSize then
      .Return .OutsideBoundsLimit (Cell1.AddBounds RP)
    else
      let Cell3 := (Cell1.AddBounds RP).DuplicateLeaf Constraints Current
      let To := NextLink M InCluster ProjectedPositions w.From w.To
      if To.Node = -1 then .Return .OpenCell Cell3
      else if (InCluster.GetNode To.Node).Num = 1 ∧ ¬ Constraints.bKeepCellsWithLeaves then
        .Return .Leaf Cell3
      else if w.NumUniqueNodes + 1 > Constraints.MaxPointCount then .Return .OutsideBoundsLimit Cell3
      else if w.NumUniqueNodes + 1 > 2 then
        if Constraints.bConvexOnly ∧ ¬ (Cell3.CheckConvexLast InCluster).Data.bIsConvex then
          .Return .WrongAspect (Cell3.CheckConvexLast InCluster)
        else
          .Continue ⟨Cell3.CheckConvexLast InCluster, w.To, To, Added.2, w.NumUniqueNodes + 1,
            insert (H64 w.From.Node w.To.Node) w.SignedEdges⟩
      else
        .Continue ⟨Cell3, w.To, To, Added.2, w.NumUniqueNodes + 1,
          insert (H64 w.From.Node w.To.Node) w.SignedEdges⟩

/-- The walk loop `while (To.Node != -1)` run for at most `fuel` iterations; `none` when the fuel
is used up before the loop is left. -/
def WalkLoop (M : FMathKernel) (Constraints : FCellConstraints) (Seed : FLink) (InCluster : FCluster)
    (ProjectedPositions : List FVector2D) : Nat → FWalk → Option FFlow
  | 0, _ => none
  | fuel + 1, w =>
    if w.To.Node = -1 then some (.Exit w)
    else
      match LoopBody M Constraints Seed InCluster ProjectedPositions w with
      | .Continue w1 => WalkLoop M Constraints Seed InCluster ProjectedPositions fuel w1
      | f => some f

/-- Source lines 354-356: the centroid is divided by `NumUniqueNodes` and the perimeter stored. -/
def FCell.Finalize (c : FCell) (NumUniqueNodes : Int) (Metrics : FPathMetrics) : FCell :=
  { c with Data := { c.Data with
      Centroid := c.Data.Centroid.DivScalar (NumUniqueNodes : ℚ)
      Perimeter := Metrics.Length } }

/-- Source lines 366-369: the projected vertices of the nodes. -/
def FCell.Vertices (c : FCell) (InCluster : FCluster) (ProjectedPositions : List FVector2D) :
    List FVector2D :=
  c.Nodes.map (fun n => Get ProjectedPositions (InCluster.GetNode n).PointIndex)

/-- Source lines 371-381: area, clockwise flag and compactness are stored, and `Nodes` and the
polygon vertices are reversed together when the polygon is not wound as the constraints ask. -/
def FCell.Orient (c : FCell) (Winding : EPCGExWinding) (Vertices : List FVector2D)
    (PolyInfos : FPolygonInfos) : FCell :=
  { c with
    Nodes := if !PolyInfos.IsWinded Winding then c.Nodes.reverse else c.Nodes
    Polygon := if !PolyInfos.IsWinded Winding then Vertices.reverse else Vertices
    Data := { c.Data with
      Area := PolyInfos.Area
      bIsClockwise := PolyInfos.bIsClockwise
      Compactness := PolyInfos.Compactness } }

/-- Source line 386: `Data.Area *= 0.01`. -/
def FCell.ScaleArea (c : FCell) : FCell :=
  { c with Data := { c.Data with Area := c.Data.Area * (1 / 100) } }

/-- Source line 383: the holes test, with the holes object after it. -/
def CheckHoles (M : FMathKernel) (Holes : Option FHoles) (Polygon : List FVector2D) :
    Bool × Option FHoles :=
  match Holes with
  | none => (false, none)
  | some h => ((h.Overlaps M Polygon).1, some (h.Overlaps M Polygon).2)

/-- The checks that follow `bBuiltSuccessfully = true` (source lines 354-396): the result, the cell
and the holes object (whose projection cache `Overlaps` may fill). -/
def FinishCell (M : FMathKernel) (Constraints : FCellConstraints) (InCluster : FCluster)
    (ProjectedPositions : List FVector2D) (NumUniqueNodes : Int) (Metrics : FPathMetrics) (Cell1 : FCell) :
    ECellResult × FCell × Option FHoles :=
  let Cell2 := Cell1.Finalize NumUniqueNodes Metrics
  let LastSegmentLength := FVector.Dist M
    (InCluster.GetPos (InCluster.GetNode (Get Cell2.Nodes 0)))
    (InCluster.GetPos (InCluster.GetNode (LastN Cell2.Nodes 0)))
  if Constraints.MinSegmentLength > LastSegmentLength ∨ LastSegmentLength > Constraints.MaxSegmentLength then
    (.OutsideSegmentsLimit, Cell2, Constraints.Holes)
  else if Cell2.Data.Perimeter < Constraints.MinPerimeter ∨ Cell2.Data.Perimeter > Constraints.MaxPerimeter then
    (.OutsidePerimeterLimit, Cell2, Constraints.Holes)
  else if Constraints.bConcaveOnly ∧ Cell2.Data.bIsConvex then (.WrongAspect, Cell2, Constraints.Holes)
  else if NumUniqueNodes < Constraints.MinPointCount then (.OutsidePointsLimit, Cell2, Constraints.Holes)
  else if FVector.Length M Cell2.Data.Bounds.GetSize < Constraints.MinBoundsSize then
    (.OutsideBoundsLimit, Cell2, Constraints.Holes)
  else
    let Vertices := Cell2.Vertices InCluster ProjectedPositions
    let Cell3 := Cell2.Orient Constraints.Winding Vertices (FPolygonInfos.Make M Vertices)
    let HolesChecked := CheckHoles M Constraints.Holes Cell3.Polygon
    if HolesChecked.1 then (.Hole, Cell3, HolesChecked.2)
    else if Constraints.MinCompactness > Cell3.Data.Compactness ∨ Cell3.Data.Compactness > Constraints.MaxCompactness then
      (.OutsideCompactnessLimit, Cell3, HolesChecked.2)
    else if Constraints.MinArea > Cell3.ScaleArea.Data.Area ∨ Cell3.ScaleArea.Data.Area > Constraints.MaxArea then
      (.OutsideAreaLimit, Cell3.ScaleArea, HolesChecked.2)
    else
      match Constraints.WrapperCell with
      | some Wrapper =>
        if Constraints.WrapperClassificationTolerance > 0 ∧
            IsNearlyEqual Cell3.ScaleArea.Data.Area Wrapper.Data.Area Constraints.WrapperClassificationTolerance then
          (.WrapperCell, Cell3.ScaleArea, HolesChecked.2)
        else (.Success, Cell3.ScaleArea, HolesChecked.2)
      | none => (.Success, Cell3.ScaleArea, HolesChecked.2)

/-- The completion after the walk loop (source lines 344-396): the two structural checks, the
canonical rotation, the uniqueness check, then `bBuiltSuccessfully = true` and `FinishCell`. -/
def CompleteCell (M : FMathKernel) (Constraints : FCellConstraints) (InCluster : FCluster)
    (ProjectedPositions : List FVector2D) (w : FWalk) : ECellResult × FCell × FCellConstraints :=
  if w.NumUniqueNodes ≤ 2 then (.Leaf, w.Cell, Constraints)
  else if ¬ w.Cell.Data.bIsClosedLoop then (.OpenCell, w.Cell, Constraints)
  else
    let Cell0 : FCell := { w.Cell with Nodes := ShiftArrayToSmallest w.Cell.Nodes }
    let Unique := Constraints.IsUniqueCellHash Cell0
    if ¬ Unique.1 then (.Duplicate, Unique.2.1, Unique.2.2)
    else
      let Finished := FinishCell M Unique.2.2 InCluster ProjectedPositions w.NumUniqueNodes w.Metrics
        { Unique.2.1 with bBuiltSuccessfully := true }
      (Finished.1, Finished.2.1, { Unique.2.2 with Holes := Finished.2.2 })

/-- The cell after the first statements of `BuildFromCluster` (source lines 230-233). -/
def ResetCell (Cell : FCell) (InSeedLink : FLink) : FCell :=
  { Cell with
    bBuiltSuccessfully := false
    Data := { Cell.Data with Bounds := FBox.ForceInit }
    Seed := InSeedLink }

/-- The first `To` link (source line 235): the other endpoint of the seed edge, through it. -/
def SeedTo (InCluster : FCluster) (InSeedLink : FLink) : FLink :=
  ⟨(InCluster.GetEdgeOtherNode InSeedLink).Index, InSeedLink.Edge⟩

/-- The locals when the walk loop is entered (source lines 234-252, after the seed half-edge was
found unique). -/
def BeginWalk (Constraints : FCellConstraints) (Cell0 : FCell) (InSeedLink : FLink)
    (InCluster : FCluster) : FWalk :=
  let From := InSeedLink
  let To := SeedTo InCluster InSeedLink
  let SeedRP := InCluster.GetPos (InCluster.GetNode From.Node)
  let Metrics := FPathMetrics.Init SeedRP
  let Cell1 : FCell := { Cell0 with
    Data := { Cell0.Data with Centroid := SeedRP, Bounds := Cell0.Data.Bounds.AddPoint SeedRP }
    Nodes := if (InCluster.GetNode From.Node).IsLeaf ∧ Constraints.bDuplicateLeafPoints
      then Cell0.Nodes ++ [From.Node, From.Node] else Cell0.Nodes ++ [From.Node] }
  ⟨Cell1, From, To, Metrics, 1, ∅⟩

/-- `FCell::BuildFromCluster(InSeedLink, InCluster, ProjectedPositions)`: the result code, the cell
and the constraints after the call.  The walk loop gets `2 * Edges.Num() + 2` iterations of fuel;
`none` stands for a loop that is still running when the fuel is used up. -/
def BuildFromCluster (M : FMathKernel) (Constraints : FCellConstraints) (Cell : FCell) (InSeedLink : FLink)
    (InCluster : FCluster) (ProjectedPositions : List FVector2D) :
    Option (ECellResult × FCell × FCellConstraints) :=
  let Cell0 := ResetCell Cell InSeedLink
  let SeedHalfEdge := H64 InSeedLink.Node (SeedTo InCluster InSeedLink).Node
  let Unique := Constraints.IsUniqueStartHalfEdge SeedHalfEdge
  if ¬ Unique.1 then some (.Duplicate, Cell0, Unique.2)
  else
    match WalkLoop M Unique.2 InSeedLink InCluster ProjectedPositions
        (2 * InCluster.Edges.length + 2) (BeginWalk Unique.2 Cell0 InSeedLink InCluster) with
    | none => none
    | some (.Return r c) => some (r, c, Unique.2)
    | some (.Continue w) => some (CompleteCell M Unique.2 InCluster ProjectedPositions w)
    | some (.Exit w) => some (CompleteCell M Unique.2 InCluster ProjectedPositions w)

/-! ## Reference numerics and concrete clusters -/

/-- Integer square root by binary digits: the largest `r < 2^bits` with `r * r ≤ n`, built from
the top bit down on top of the accumulator. -/
def IntSqrtAux (n : ℕ) : ℕ → ℕ → ℕ
  | 0, r => r
  | b + 1, r => if (r + 2 ^ b) * (r + 2 ^ b) ≤ n then IntSqrtAux n b (r + 2 ^ b) else IntSqrtAux n b r

/-- Reference square root: rounded down to a multiple of `2^-32`, exact on squares of such
multiples. -/
def RefSqrt (x : ℚ) : ℚ :=
  if x ≤ 0 then 0
  else (IntSqrtAux (x.num.toNat * x.den * 4 ^ 32) 160 0 : ℚ) / ((x.den : ℚ) * 2 ^ 32)

/-- Reference value of `PI` (the engine literal `3.1415926535897932`). -/
def RefPI : ℚ := 31415926535897932 / 10000000000000000

/-- Reference angle between two unit directions: a rational surrogate that orders directions like
the oriented angle from `A` to `B` in `[0, 2 PI)` and agrees with it at the multiples of
`PI / 2`; in particular it is `0`, the least value, exactly for equal unit directions. -/
def RefRadians (A B : FVector2D) : ℚ :=
  let Cross := A.X * B.Y - A.Y * B.X
  let Dot := max (-1) (min 1 (A.X * B.X + A.Y * B.Y))
  if Cross = 0 ∧ A.X * B.X + A.Y * B.Y = 0 then 0
  else if Cross ≥ 0 then (1 - Dot) * (RefPI / 2)
  else (3 + Dot) * (RefPI / 2)

/-- Reference point-in-polygon test: parity of the polygon edges crossed by the ray from the point
towards positive `X`. -/
def RefIsPointInPolygon (P : FVector2D) (Polygon : List FVector2D) : Bool :=
  (((Polygon.zip (Polygon.rotate 1)).filter (fun e =>
      decide ((e.1.Y > P.Y) ≠ (e.2.Y > P.Y)) &&
      decide (P.X < (e.2.X - e.1.X) * (P.Y - e.1.Y) / (e.2.Y - e.1.Y) + e.1.X))).length % 2 == 1)

/-- Reference instance of the engine numerics. -/
def RefMath : FMathKernel := ⟨RefSqrt, RefPI, RefRadians, RefIsPointInPolygon⟩

/-- A cluster whose point indices equal its node indices: the nodes are given by their link lists,
the edges by their endpoints, the points by their planar positions (`Z = 0`). -/
def MakeCluster (Links : List (List FLink)) (Edges : List FEdge) (Positions : List FVector2D) : FCluster :=
  { Nodes := Links.enum.map (fun p => ⟨(p.1 : Int), (p.1 : Int), p.2, 0⟩)
    Edges := Edges
    NodeIndexLookup := (List.range Links.length).map (fun i => (i : Int))
    VtxPositions := Positions.map (fun p => ⟨p.X, p.Y, 0⟩)
    ProjectedCentroid := ⟨0, 0⟩ }

/-- Projected positions of the unit square. -/
def SquarePositions : List FVector2D := [⟨0, 0⟩, ⟨1, 0⟩, ⟨1, 1⟩, ⟨0, 1⟩]

/-- The unit square: nodes 0..3 at (0,0), (1,0), (1,1), (0,1); edges 0-1, 1-2, 2-3, 3-0. -/
def SquareCluster : FCluster :=
  MakeCluster
    [[⟨1, 0⟩, ⟨3, 3⟩], [⟨0, 0⟩, ⟨2, 1⟩], [⟨1, 1⟩, ⟨3, 2⟩], [⟨2, 2⟩, ⟨0, 3⟩]]
    [⟨0, 1⟩, ⟨1, 2⟩, ⟨2, 3⟩, ⟨3, 0⟩]
    SquarePositions

/-- The constraints with the two deduplication sets replaced. -/
def FCellConstraints.WithSets (con : FCellConstraints) (S P : Finset ℕ) : FCellConstraints :=
  { con with UniqueStartHalfEdgesHash := S, UniquePathsHashSet := P }

/-- One `BuildFromCluster` call per seed, in list order, each on a fresh cell, all on the same
constraints object: the result codes in order (`none` if a call runs out of fuel). -/
def TraceSeeds (M : FMathKernel) (InCluster : FCluster) (ProjectedPositions : List FVector2D) :
    FCellConstraints → List FLink → Option (List ECellResult)
  | _, [] => some []
  | con, s :: rest =>
    match BuildFromCluster M con {} s InCluster ProjectedPositions with
    | none => none
    | some r => (TraceSeeds M InCluster ProjectedPositions r.2.2 rest).map (fun rs => r.1 :: rs)

/-- The eight directed half-edges of the square as seed links `(node, edge)`: first the four of
the direction 0 -> 1 -> 2 -> 3, then the four of the opposite direction. -/
def SquareSeeds : List FLink :=
  [⟨0, 0⟩, ⟨1, 1⟩, ⟨2, 2⟩, ⟨3, 3⟩, ⟨1, 0⟩, ⟨2, 1⟩, ⟨3, 2⟩, ⟨0, 3⟩]

/-- The canonical cell at the uniqueness check (source lines 348-350): the hash that
`IsUniqueCellHash` looks up and the cell with its nodes rotated and its hash cached. -/
def HashedCell (w : FWalk) : ℕ × FCell :=
  FCell.GetCellHash { w.Cell with Nodes := ShiftArrayToSmallest w.Cell.Nodes }

/-- The cell hash of the face a seed of the square traces: one value per traversal direction. -/
def SquareClass (s : FLink) : ℕ :=
  if s ∈ SquareSeeds.take 4 then 1213084661 else 1213059221

/-- Projected positions of `TwoLeafCluster`. -/
def TwoLeafPositions : List FVector2D := [⟨0, 0⟩, ⟨1, 0⟩]

/-- A single edge joining two leaves, at (0,0) and (1,0). -/
def TwoLeafCluster : FCluster := MakeCluster [[⟨1, 0⟩], [⟨0, 0⟩]] [⟨0, 1⟩] TwoLeafPositions

/-- Projected positions of `StarCluster`. -/
def StarPositions : List FVector2D := [⟨0, 0⟩, ⟨1, 0⟩, ⟨-1, 1⟩, ⟨-1, -1⟩]

/-- A star: centre 0 and the three leaves 1, 2, 3; edge `i` joins the centre to leaf `i + 1`. -/
def StarCluster : FCluster :=
  MakeCluster [[⟨1, 0⟩, ⟨2, 1⟩, ⟨3, 2⟩], [⟨0, 0⟩], [⟨0, 1⟩], [⟨0, 2⟩]] [⟨0, 1⟩, ⟨0, 2⟩, ⟨0, 3⟩] StarPositions

/-- The six directed half-edges of the star as seed links. -/
def StarSeeds : List FLink := [⟨0, 0⟩, ⟨0, 1⟩, ⟨0, 2⟩, ⟨1, 0⟩, ⟨2, 1⟩, ⟨3, 2⟩]

/-- Projected positions of `KiteCluster`. -/
def KitePositions : List FVector2D := [⟨0, 0⟩, ⟨2, 0⟩, ⟨0, 2⟩, ⟨-1, -1⟩]

/-- A triangle 0, 1, 2 (edges 0: 0-1, 1: 1-2, 2: 2-0) with a leaf 3 hanging off node 0 on the
outside (edge 3: 0-3); the outer face passes node 0 twice. -/
def KiteCluster : FCluster :=
  MakeCluster [[⟨1, 0⟩, ⟨2, 2⟩, ⟨3, 3⟩], [⟨0, 0⟩, ⟨2, 1⟩], [⟨1, 1⟩, ⟨0, 2⟩], [⟨0, 3⟩]]
    [⟨0, 1⟩, ⟨1, 2⟩, ⟨2, 0⟩, ⟨0, 3⟩] KitePositions

/-- Projected positions of `DegenerateCluster`: nodes 2, 3, 0, 4 lie on one line in this order,
node 5 lies on the segment from node 0 to node 1. -/
def DegeneratePositions : List FVector2D := [⟨1, 0⟩, ⟨1, 1⟩, ⟨0, 0⟩, ⟨1 / 2, 0⟩, ⟨2, 0⟩, ⟨1, 1 / 2⟩]

/-- A cluster with collinear neighbours: edges 0: 0-1, 1: 1-2, 2: 2-0, 3: 0-3, 4: 3-4, 5: 4-2 and
the leaf edge 6: 0-5. -/
def DegenerateCluster : FCluster :=
  MakeCluster
    [[⟨1, 0⟩, ⟨2, 2⟩, ⟨3, 3⟩, ⟨5, 6⟩], [⟨0, 0⟩, ⟨2, 1⟩], [⟨1, 1⟩, ⟨0, 2⟩, ⟨4, 5⟩], [⟨0, 3⟩, ⟨4, 4⟩],
      [⟨3, 4⟩, ⟨2, 5⟩], [⟨0, 6⟩]]
    [⟨0, 1⟩, ⟨1, 2⟩, ⟨2, 0⟩, ⟨0, 3⟩, ⟨3, 4⟩, ⟨4, 2⟩, ⟨0, 5⟩]
    DegeneratePositions

/-- Two node indices are the endpoints of an edge of the cluster. -/
def FCluster.Adjacent (cl : FCluster) (a b : Int) : Bool :=
  cl.Edges.any (fun e =>
    (e.Start == (cl.GetNode a).PointIndex && e.End == (cl.GetNode b).PointIndex) ||
    (e.Start == (cl.GetNode b).PointIndex && e.End == (cl.GetNode a).PointIndex))

/-- Two consecutive entries of a walk are joined: by an edge, or as the two copies of a leaf. -/
def FCluster.Joined (cl : FCluster) (a b : Int) : Bool :=
  cl.Adjacent a b || (a == b && (cl.GetNode a).IsLeaf)

/-- Every entry of `a :: l` is joined to the next one. -/
def FCluster.JoinedChain (cl : FCluster) : Int → List Int → Bool
  | _, [] => true
  | a, b :: t => cl.Joined a b && FCluster.JoinedChain cl b t

/-- A node array is a closed walk: the array followed by its first entry is a chain of joined
entries (every entry is joined to the next one, the last to the first). -/
def FCluster.IsClosedWalk (cl : FCluster) (Nodes : List Int) : Bool :=
  match Nodes with
  | [] => true
  | a :: t => cl.JoinedChain a (t ++ [a])

/-- The nodes appended to `Nodes` by one completed iteration of the walk loop at the node
`To.Node`: its index, twice when it is a leaf and `bDuplicateLeafPoints` is set. -/
def Appended (con : FCellConstraints) (cl : FCluster) (To : FLink) : List Int :=
  if (cl.GetNode To.Node).IsLeaf = true ∧ con.bDuplicateLeafPoints = true
    then [(cl.GetNode To.Node).Index, (cl.GetNode To.Node).Index]
    else [(cl.GetNode To.Node).Index]

/-- The walk leaves its loop through the closing branch with `From.Node = Seed.Node`: the repeated
half-edge is one that leaves the seed node, as when the seed half-edge itself comes round again. -/
def ClosesAtSeed (M : FMathKernel) (con : FCellConstraints) (cell : FCell) (s : FLink) (cl : FCluster)
    (pp : List FVector2D) : Bool :=
  match WalkLoop M con s cl pp (2 * cl.Edges.length + 2) (BeginWalk con (ResetCell cell s) s cl) with
  | some (.Exit w) => w.From.Node == s.Node
  | _ => false

/-- The node stored at position `i` has index `i`. -/
def FCluster.IndexConsistent (cl : FCluster) : Prop :=
  ∀ n ∈ cl.Nodes.enum, n.2.Index = (n.1 : Int)

instance (cl : FCluster) : Decidable cl.IndexConsistent := by
  unfold FCluster.IndexConsistent; infer_instance

/-- Consistent adjacency: every link of a node names an edge joining that node to the link's
node. -/
def FCluster.ConsistentAdjacency (cl : FCluster) : Prop :=
  ∀ n ∈ cl.Nodes, ∀ Lk ∈ n.Links,
    0 ≤ Lk.Edge ∧ Lk.Edge < cl.Edges.length ∧
    (((cl.GetEdge Lk.Edge).Start = n.PointIndex ∧ (cl.GetEdge Lk.Edge).End = (cl.GetNode Lk.Node).PointIndex) ∨
     ((cl.GetEdge Lk.Edge).Start = (cl.GetNode Lk.Node).PointIndex ∧ (cl.GetEdge Lk.Edge).End = n.PointIndex))

instance (cl : FCluster) : Decidable cl.ConsistentAdjacency := by
  unfold FCluster.ConsistentAdjacency; infer_instance

/-- Every leaf entry of a node array is stored as two consecutive equal entries: the array parses
into single non-leaf entries and doubled leaf entries. -/
def FCluster.LeafPaired (cl : FCluster) : List Int → Bool
  | [] => true
  | [x] => !(cl.GetNode x).IsLeaf
  | x :: y :: rest =>
    if (cl.GetNode x).IsLeaf then x == y && FCluster.LeafPaired cl rest
    else FCluster.LeafPaired cl (y :: rest)

/-- The `Nodes` of the cell when `BuildFromCluster` returns `Success`, `none` otherwise. -/
def SuccessNodes (M : FMathKernel) (con : FCellConstraints) (cell : FCell) (s : FLink) (cl : FCluster)
    (pp : List FVector2D) : Option (List Int) :=
  match BuildFromCluster M con cell s cl pp with
  | some (.Success, c, _) => some c.Nodes
  | _ => none

/-! ## Point counts, aspect and wrapper classification -/

/-- The iteration entered with the walk state `w` reaches `Nodes.Add` (source line 282): the
fail-safe does not fire and the half-edge `From.Node -> To.Node` was not walked before. -/
def FWalk.AppendsNode (w : FWalk) (InCluster : FCluster) : Prop :=
  ¬ ((w.SignedEdges.card : Int) > (InCluster.Edges.length : Int) * 2) ∧
  H64 w.From.Node w.To.Node ∉ w.SignedEdges

/-- The segment to the node that the iteration appends passes the perimeter and segment-length
tests (source lines 288-289), which come before the point-count test. -/
def FWalk.SegmentAllowed (w : FWalk) (M : FMathKernel) (Constraints : FCellConstraints)
    (InCluster : FCluster) : Prop :=
  ¬ ((w.Metrics.Add M (InCluster.GetPos (InCluster.GetNode w.To.Node))).2.Length > Constraints.MaxPerimeter) ∧
  ¬ ((w.Metrics.Add M (InCluster.GetPos (InCluster.GetNode w.To.Node))).1 < Constraints.MinSegmentLength ∨
     (w.Metrics.Add M (InCluster.GetPos (InCluster.GetNode w.To.Node))).1 > Constraints.MaxSegmentLength)

/-- The value of `NumUniqueNodes` when the walk loop of `BuildFromCluster` is left through its exit
(`none` when the loop returns a result code or the fuel runs out). -/
def WalkCount (M : FMathKernel) (Constraints : FCellConstraints) (Cell : FCell) (InSeedLink : FLink)
    (InCluster : FCluster) (ProjectedPositions : List FVector2D) : Option Int :=
  match WalkLoop M Constraints InSeedLink InCluster ProjectedPositions (2 * InCluster.Edges.length + 2)
      (BeginWalk Constraints (ResetCell Cell InSeedLink) InSeedLink InCluster) with
  | some (.Exit w) => some w.NumUniqueNodes
  | _ => none


/-- Projected positions of `TriangleCluster`. -/
def TrianglePositions : List FVector2D := [⟨0, 0⟩, ⟨2, 0⟩, ⟨0, 2⟩]

/-- A triangle 0, 1, 2 with the edges 0: 0-1, 1: 1-2, 2: 2-0. -/
def TriangleCluster : FCluster :=
  MakeCluster [[⟨1, 0⟩, ⟨2, 2⟩], [⟨0, 0⟩, ⟨2, 1⟩], [⟨1, 1⟩, ⟨0, 2⟩]] [⟨0, 1⟩, ⟨1, 2⟩, ⟨2, 0⟩] TrianglePositions

/-- Projected positions of `ConcaveCluster`: the corner at node 2 is reflex. -/
def ConcavePositions : List FVector2D := [⟨0, 0⟩, ⟨4, 0⟩, ⟨1, 1⟩, ⟨0, 4⟩]

/-- A concave quadrilateral 0, 1, 2, 3 with the edges 0: 0-1, 1: 1-2, 2: 2-3, 3: 3-0. -/
def ConcaveCluster : FCluster :=
  MakeCluster [[⟨1, 0⟩, ⟨3, 3⟩], [⟨0, 0⟩, ⟨2, 1⟩], [⟨1, 1⟩, ⟨3, 2⟩], [⟨2, 2⟩, ⟨0, 3⟩]]
    [⟨0, 1⟩, ⟨1, 2⟩, ⟨2, 3⟩, ⟨3, 0⟩] ConcavePositions


/-! ## Triangulation -/

/-- Result of a triangulation, `ETriangulationResult`. -/
inductive ETriangulationResult
  | Unknown
  | Success
  | InvalidCell
  | TooFewPoints
  | UnsupportedAspect
  | InvalidCluster
deriving DecidableEq

/-- Modelled from the spec: `PCGExGeo::FTriangle`, the three point indices `Vtx[0..2]` of a
triangle. -/
structure FTriangle where
  Vtx0 : Int
  Vtx1 : Int
  Vtx2 : Int
deriving DecidableEq

/-- The vertex set of a triangle. -/
def FTriangle.VtxSet (T : FTriangle) : Finset Int := {T.Vtx0, T.Vtx1, T.Vtx2}

/-- Modelled from the spec: `FTriangle::FixWinding`, "fixing each triangle's winding against the
projected positions": the second and third vertex are exchanged when the triangle turns the wrong
way about the up axis. -/
def FTriangle.FixWinding (T : FTriangle) (Positions : List FVector) : FTriangle :=
  let A := Get Positions T.Vtx0
  let B := Get Positions T.Vtx1
  let C := Get Positions T.Vtx2
  if (FVector.Cross (B - A) (C - A)).Z < 0 then ⟨T.Vtx0, T.Vtx2, T.Vtx1⟩ else T

/-- The write `GetNode(Index)->bValid = 1` (an index outside the node array is left alone). -/
def FCluster.SetValid (cl : FCluster) (Index : Int) : FCluster :=
  if 0 ≤ Index ∧ Index < cl.Nodes.length then
    { cl with Nodes := cl.Nodes.set Index.toNat { cl.GetNode Index with bValid := 1 } }
  else cl

/-- `MarkTriangle`: the three vertices of the triangle are passed to `GetNode` and the nodes found
are flagged. -/
def MarkTriangle (InCluster : FCluster) (InTriangle : FTriangle) : FCluster :=
  ((InCluster.SetValid InTriangle.Vtx0).SetValid InTriangle.Vtx1).SetValid InTriangle.Vtx2

/-- The triangle that both strategies emplace (header lines 345-349 and 415-420): the point
indices of `Nodes[0]`, `Nodes[i]`, `Nodes[i + 1]`, with its winding fixed; the cluster is marked
when `bMarkTriangles` is set. -/
def EmitTriangle (bMarkTriangles : Bool) (Cell : FCell) (ProjectedPositions : List FVector)
    (st : List FTriangle × FCluster) (i : Int) : List FTriangle × FCluster :=
  let T := FTriangle.FixWinding
    ⟨(st.2.GetNode (Get Cell.Nodes 0)).PointIndex, (st.2.GetNode (Get Cell.Nodes i)).PointIndex,
      (st.2.GetNode (Get Cell.Nodes (i + 1))).PointIndex⟩ ProjectedPositions
  (st.1 ++ [T], if bMarkTriangles then MarkTriangle st.2 T else st.2)

/-- `FCell::TriangulateFan<bMarkTriangles>` with a cluster given: the result, the output list and
the cluster.  The flags `bCompiledSuccessfully` and `bIsConvex` of the header are the cell's
`bBuiltSuccessfully` and `Data.bIsConvex`. -/
def FCell.TriangulateFan (bMarkTriangles : Bool) (Cell : FCell) (ProjectedPositions : List FVector)
    (OutTriangles : List FTriangle) (InCluster : FCluster) :
    ETriangulationResult × List FTriangle × FCluster :=
  if !Cell.bBuiltSuccessfully then (.InvalidCell, OutTriangles, InCluster)
  else if !Cell.Data.bIsConvex then (.UnsupportedAspect, OutTriangles, InCluster)
  else if Cell.Nodes.length < 3 then (.TooFewPoints, OutTriangles, InCluster)
  else
    let MaxIndex := Cell.Nodes.length - 1
    let r := (List.range' 1 (MaxIndex - 1)).foldl
      (fun (st : List FTriangle × FCluster) (i : Nat) =>
        EmitTriangle bMarkTriangles Cell ProjectedPositions st (i : Int))
      (OutTriangles, InCluster)
    (.Success, r.1, r.2)

/-- Engine `FBox::IsInside(const FVector&)`: strictly inside on all three axes. -/
def FBox.IsInside (b : FBox) (p : FVector) : Bool :=
  decide (p.X > b.Min.X ∧ p.X < b.Max.X ∧ p.Y > b.Min.Y ∧ p.Y < b.Max.Y ∧ p.Z > b.Min.Z ∧ p.Z < b.Max.Z)

/-- Engine `TArray::RemoveAtSwap(Index)`: the last element takes the place of the removed one. -/
def RemoveAtSwap (Queue : List Int) (Index : Int) : List Int :=
  if 0 ≤ Index then (Queue.set Index.toNat (LastN Queue 0)).dropLast else Queue.dropLast

/-- The indices `PrevIndex`, `CurrIndex`, `NextIndex` into the node queue of the ear-clipping
scan. -/
structure FEarCursor where
  PrevIndex : Int
  CurrIndex : Int
  NextIndex : Int
deriving DecidableEq

/-- The ear test of one scan step (header lines 383-411): no queue entry `j` other than those
skipped by the comparison with `AIdx`, `BIdx`, `CIdx` lies strictly inside the box of the corner
and inside the triangle `A, B, C`. -/
def IsEar (IsPointInTriangle : FVector → FVector → FVector → FVector → Bool) (Cell : FCell)
    (ProjectedPositions : List FVector) (InCluster : FCluster) (NodeQueue : List Int)
    (k : FEarCursor) : Bool :=
  let AIdx := Get NodeQueue k.PrevIndex
  let BIdx := Get NodeQueue k.CurrIndex
  let CIdx := Get NodeQueue k.NextIndex
  let A := Get ProjectedPositions (InCluster.GetNode (Get Cell.Nodes AIdx)).PointIndex
  let B := Get ProjectedPositions (InCluster.GetNode (Get Cell.Nodes BIdx)).PointIndex
  let C := Get ProjectedPositions (InCluster.GetNode (Get Cell.Nodes CIdx)).PointIndex
  let TBox := ((FBox.ForceInit.AddPoint A).AddPoint B).AddPoint C
  !((List.range NodeQueue.length).any (fun (j : Nat) =>
    let P := Get ProjectedPositions (InCluster.GetNode (Get Cell.Nodes (Get NodeQueue (j : Int)))).PointIndex
    !(decide ((j : Int) = AIdx ∨ (j : Int) = BIdx ∨ (j : Int) = CIdx)) &&
      TBox.IsInside P && IsPointInTriangle P A B C))

/-- The scan `for (i = 0; i < NodeQueue.Num(); i++)` for an ear (header lines 377-437), from the
scan counter `i` with `n` steps left: the counter and the cursor at the first ear, `none` when the
scan ends without one. -/
def ScanForEar (IsPointInTriangle : FVector → FVector → FVector → FVector → Bool) (Cell : FCell)
    (ProjectedPositions : List FVector) (InCluster : FCluster) (NodeQueue : List Int) :
    Nat → Int → FEarCursor → Option (Int × FEarCursor)
  | 0, _, _ => none
  | n + 1, i, k =>
    if IsEar IsPointInTriangle Cell ProjectedPositions InCluster NodeQueue k then some (i, k)
    else ScanForEar IsPointInTriangle Cell ProjectedPositions InCluster NodeQueue n (i + 1)
      ⟨k.CurrIndex, k.NextIndex, (k.NextIndex + 1) % (NodeQueue.length : Int)⟩

/-- The cursor after the removal of the ear at `CurrIndex` (header lines 425-428), `NumNodes`
being the length of the queue after the removal. -/
def FEarCursor.AfterRemoval (k : FEarCursor) (NumNodes : Int) : FEarCursor :=
  ⟨(k.CurrIndex - 1 + NumNodes) % NumNodes, k.CurrIndex % NumNodes,
    (k.CurrIndex % NumNodes + 1) % NumNodes⟩

/-- The loop `while (NodeQueue.Num() > 2)` of the ear clipping, run for at most `fuel` iterations
(`none` when the fuel is used up before the loop is left). -/
def EarLoop (IsPointInTriangle : FVector → FVector → FVector → FVector → Bool) (bMarkTriangles : Bool)
    (Cell : FCell) (ProjectedPositions : List FVector) :
    Nat → List Int → FEarCursor → List FTriangle × FCluster →
      Option (ETriangulationResult × List FTriangle × FCluster)
  | 0, NodeQueue, _, st => if NodeQueue.length > 2 then none else some (.Success, st.1, st.2)
  | fuel + 1, NodeQueue, k, st =>
    if NodeQueue.length > 2 then
      match ScanForEar IsPointInTriangle Cell ProjectedPositions st.2 NodeQueue NodeQueue.length 0 k with
      | none => some (.InvalidCell, st.1, st.2)
      | some (i, ke) =>
        EarLoop IsPointInTriangle bMarkTriangles Cell ProjectedPositions fuel
          (RemoveAtSwap NodeQueue ke.CurrIndex)
          (ke.AfterRemoval ((RemoveAtSwap NodeQueue ke.CurrIndex).length : Int))
          (EmitTriangle bMarkTriangles Cell ProjectedPositions st i)
    else some (.Success, st.1, st.2)

/-- `FCell::TriangulateEarClipping<bMarkTriangles>` with a cluster given.  The queue starts as
`0, 1, .., NumNodes - 1` (`PCGEx::ArrayOfIndices`); the loop gets `NumNodes` iterations of fuel. -/
def FCell.TriangulateEarClipping (IsPointInTriangle : FVector → FVector → FVector → FVector → Bool)
    (bMarkTriangles : Bool) (Cell : FCell) (ProjectedPositions : List FVector)
    (OutTriangles : List FTriangle) (InCluster : FCluster) :
    Option (ETriangulationResult × List FTriangle × FCluster) :=
  if !Cell.bBuiltSuccessfully then some (.InvalidCell, OutTriangles, InCluster)
  else if Cell.Nodes.length < 3 then some (.TooFewPoints, OutTriangles, InCluster)
  else
    EarLoop IsPointInTriangle bMarkTriangles Cell ProjectedPositions Cell.Nodes.length
      ((List.range Cell.Nodes.length).map (fun (i : Nat) => (i : Int)))
      ⟨(Cell.Nodes.length : Int) - 1, 0, 1⟩ (OutTriangles, InCluster)

/-- `FCell::Triangulate<bMarkTriangles>`; `InCluster` is `none` for a null cluster pointer.  The
result is `none` when a null cluster pointer is dereferenced (no marking requested, the cell
built, three nodes or more, no cluster) or the ear-clipping fuel runs out. -/
def FCell.Triangulate (IsPointInTriangle : FVector → FVector → FVector → FVector → Bool)
    (bMarkTriangles : Bool) (Cell : FCell) (ProjectedPositions : List FVector)
    (OutTriangles : List FTriangle) (InCluster : Option FCluster) :
    Option (ETriangulationResult × List FTriangle × Option FCluster) :=
  if bMarkTriangles ∧ InCluster = none then some (.InvalidCluster, OutTriangles, InCluster)
  else if !Cell.bBuiltSuccessfully then some (.InvalidCell, OutTriangles, InCluster)
  else if Cell.Nodes.length < 3 then some (.TooFewPoints, OutTriangles, InCluster)
  else
    match InCluster with
    | none => none
    | some cl =>
      if Cell.Data.bIsConvex ∨ Cell.Nodes.length = 3 then
        let r := Cell.TriangulateFan bMarkTriangles ProjectedPositions OutTriangles cl
        some (r.1, r.2.1, some r.2.2)
      else
        (Cell.TriangulateEarClipping IsPointInTriangle bMarkTriangles ProjectedPositions OutTriangles cl).map
          (fun r => (r.1, r.2.1, some r.2.2))

/-- Reference point-in-triangle test: the point is on the same side of the three edges. -/
def RefIsPointInTriangle (P A B C : FVector) : Bool :=
  let d1 := (P.X - B.X) * (A.Y - B.Y) - (A.X - B.X) * (P.Y - B.Y)
  let d2 := (P.X - C.X) * (B.Y - C.Y) - (B.X - C.X) * (P.Y - C.Y)
  let d3 := (P.X - A.X) * (C.Y - A.Y) - (C.X - A.X) * (P.Y - A.Y)
  !(decide (d1 < 0 ∨ d2 < 0 ∨ d3 < 0) && decide (d1 > 0 ∨ d2 > 0 ∨ d3 > 0))

/-- The projected positions of a 2D table as flat 3D vectors (`Z = 0`). -/
def Flat (Positions : List FVector2D) : List FVector := Positions.map (fun p => ⟨p.X, p.Y, 0⟩)

/-- The cell of a `Success` of `BuildFromCluster`, `none` otherwise. -/
def SuccessCell (M : FMathKernel) (con : FCellConstraints) (cell : FCell) (s : FLink) (cl : FCluster)
    (pp : List FVector2D) : Option FCell :=
  match BuildFromCluster M con cell s cl pp with
  | some (.Success, c, _) => some c
  | _ => none

/-- The triangle with the point indices of `Nodes[0]`, `Nodes[i]`, `Nodes[i + 1]`, winding fixed. -/
def FanTriangle (Cell : FCell) (ProjectedPositions : List FVector) (InCluster : FCluster) (i : Int) :
    FTriangle :=
  FTriangle.FixWinding
    ⟨(InCluster.GetNode (Get Cell.Nodes 0)).PointIndex, (InCluster.GetNode (Get Cell.Nodes i)).PointIndex,
      (InCluster.GetNode (Get Cell.Nodes (i + 1))).PointIndex⟩ ProjectedPositions

/-- The cell that `BuildFromCluster` builds from the seed node 0 -> node 1 of the unit square
on default constraints. -/
def SquareCell : FCell := (SuccessCell RefMath {} {} ⟨0, 0⟩ SquareCluster SquarePositions).getD {}

/-- The cell that `BuildFromCluster` builds from the seed node 0 -> node 1 of the concave
quadrilateral on default constraints. -/
def ConcaveCell : FCell := (SuccessCell RefMath {} {} ⟨0, 0⟩ ConcaveCluster ConcavePositions).getD {}

/-! ## Two threads on one uniqueness set -/

/-- Where a thread stands in `IsUniqueStartHalfEdge` / `IsUniqueCellHash`: before the read-locked
block, between the read-locked and the write-locked block, or returned with its result. -/
inductive FUniquePhase
  | ReadCheck
  | WriteInsert
  | Returned (Result : Bool)
deriving DecidableEq

/-- One lock scope of a thread, run atomically on the shared set (source lines 101-110 and
117-127): the read-locked block returns `false` when the key is present; the write-locked block
adds the key and returns whether it was absent. -/
def StepUnique (Key : ℕ) (Set : Finset ℕ) : FUniquePhase → Finset ℕ × FUniquePhase
  | .ReadCheck => if Key ∈ Set then (Set, .Returned false) else (Set, .WriteInsert)
  | .WriteInsert => (insert Key Set, .Returned (!decide (Key ∈ Set)))
  | .Returned r => (Set, .Returned r)

/-- Two threads calling the same uniqueness function with the same key on one constraints
object: the shared set and the phase of each thread. -/
structure FRace where
  Set : Finset ℕ
  First : FUniquePhase
  Second : FUniquePhase
deriving DecidableEq

/-- The scheduler lets one thread run its next lock scope (`false`: the first thread, `true`:
the second). -/
def FRace.Step (Key : ℕ) (st : FRace) (t : Bool) : FRace :=
  if t then ⟨(StepUnique Key st.Set st.Second).1, st.First, (StepUnique Key st.Set st.Second).2⟩
  else ⟨(StepUnique Key st.Set st.First).1, (StepUnique Key st.Set st.First).2, st.Second⟩

/-- An interleaving: the lock scopes run in the order of the schedule. -/
def FRace.Run (Key : ℕ) (st : FRace) (Schedule : List Bool) : FRace :=
  Schedule.foldl (FRace.Step Key) st

/-- The invariant of the race: while the key is absent no thread has returned; once it is present
exactly one thread has returned `true`. -/
def FRace.Inv (Key : ℕ) (Set0 : Finset ℕ) (st : FRace) : Prop :=
  (st.Set = Set0 ∧ (∀ r, st.First ≠ .Returned r) ∧ (∀ r, st.Second ≠ .Returned r)) ∨
  (st.Set = insert Key Set0 ∧
    ((st.First = .Returned true ∧ st.Second ≠ .Returned true) ∨
     (st.Second = .Returned true ∧ st.First ≠ .Returned true)))

/-- How far a thread is: lock scopes left before it has returned. -/
def FUniquePhase.Left : FUniquePhase → Nat
  | .ReadCheck => 2
  | .WriteInsert => 1
  | .Returned _ => 0

/-! ## The choice of the next link -/

/-- The angle that the candidate loop computes for a link at the node `To.Node`, arrived at from
`From.Node` (source lines 305-306 and 318-320): radians between the direction from the link's
neighbour to the node and the guide direction from the previous node to the node. -/
def StepAngle (M : FMathKernel) (InCluster : FCluster) (ProjectedPositions : List FVector2D)
    (From To Lk : FLink) : ℚ :=
  M.GetRadiansBetweenVectors
    (FVector2D.GetSafeNormal M
      (Get ProjectedPositions (InCluster.GetNode To.Node).PointIndex -
        Get ProjectedPositions (InCluster.GetNode Lk.Node).PointIndex))
    (FVector2D.GetSafeNormal M
      (Get ProjectedPositions (InCluster.GetNode To.Node).PointIndex -
        Get ProjectedPositions (InCluster.GetNode From.Node).PointIndex))

/-- The links of the node `To.Node` that the candidate loop does not skip: those whose edge is not
the locked edge. -/
def EligibleLinks (InCluster : FCluster) (To : FLink) : List FLink :=
  (InCluster.GetNode To.Node).Links.filter
    (fun Lk => decide (Lk.Edge ≠ LockedEdgeOf (InCluster.GetNode To.Node) To))

/-! ## Well-formed clusters and half-edge keys -/

/-- The table from point index to node index agrees with the nodes: the entry at a node's point
index is the node's index. -/
def FCluster.LookupConsistent (cl : FCluster) : Prop :=
  ∀ n ∈ cl.Nodes, Get cl.NodeIndexLookup n.PointIndex = n.Index

instance (cl : FCluster) : Decidable cl.LookupConsistent := by
  unfold FCluster.LookupConsistent; infer_instance

/-- Every link names an existing node. -/
def FCluster.LinksInRange (cl : FCluster) : Prop :=
  ∀ n ∈ cl.Nodes, ∀ Lk ∈ n.Links, 0 ≤ Lk.Node ∧ Lk.Node < (cl.Nodes.length : Int)

instance (cl : FCluster) : Decidable cl.LinksInRange := by
  unfold FCluster.LinksInRange; infer_instance

/-- A cluster with consistent adjacency: nodes are stored at their index, the point-to-node table
agrees with them, and every link of a node names an existing node and an existing edge joining the
node to it. -/
def FCluster.WellFormed (cl : FCluster) : Prop :=
  cl.IndexConsistent ∧ cl.ConsistentAdjacency ∧ cl.LookupConsistent ∧ cl.LinksInRange

instance (cl : FCluster) : Decidable cl.WellFormed := by
  unfold FCluster.WellFormed; infer_instance

/-- The seed names an existing node and an existing edge, and the node's point is an endpoint of
the edge. -/
def SeedOnEdge (cl : FCluster) (s : FLink) : Prop :=
  0 ≤ s.Node ∧ s.Node < (cl.Nodes.length : Int) ∧ 0 ≤ s.Edge ∧ s.Edge < (cl.Edges.length : Int) ∧
  ((cl.GetEdge s.Edge).Start = (cl.GetNode s.Node).PointIndex ∨
   (cl.GetEdge s.Edge).End = (cl.GetNode s.Node).PointIndex)

instance (cl : FCluster) (s : FLink) : Decidable (SeedOnEdge cl s) := by
  unfold SeedOnEdge; infer_instance

/-- The signed half-edge keys of the cluster: for every edge the key of each of its two
directions, between the nodes of its endpoints. -/
def HalfEdgeKeys (cl : FCluster) : List ℕ :=
  cl.Edges.flatMap (fun e =>
    [H64 (Get cl.NodeIndexLookup e.Start) (Get cl.NodeIndexLookup e.End),
     H64 (Get cl.NodeIndexLookup e.End) (Get cl.NodeIndexLookup e.Start)])

/-! ## Orientation of the finished cell -/

/-- The projected position of a node (source line 369). -/
def ProjectedVertex (InCluster : FCluster) (ProjectedPositions : List FVector2D) (n : Int) :
    FVector2D :=
  Get ProjectedPositions (InCluster.GetNode n).PointIndex

/-- The canonical node array of the walk (the rotation to the smallest index of the nodes with
which the walk loop is left), `none` when the loop returns a result code or the fuel runs out. -/
def WalkCanon (M : FMathKernel) (Constraints : FCellConstraints) (Cell : FCell) (InSeedLink : FLink)
    (InCluster : FCluster) (ProjectedPositions : List FVector2D) : Option (List Int) :=
  match WalkLoop M Constraints InSeedLink InCluster ProjectedPositions (2 * InCluster.Edges.length + 2)
      (BeginWalk Constraints (ResetCell Cell InSeedLink) InSeedLink InCluster) with
  | some (.Exit w) => some (ShiftArrayToSmallest w.Cell.Nodes)
  | _ => none

/-- The cell that `BuildFromCluster` builds from the seed node 1 -> node 0 of the concave
quadrilateral on default constraints. -/
def ConcaveCellReversed : FCell :=
  (SuccessCell RefMath {} {} ⟨1, 0⟩ ConcaveCluster ConcavePositions).getD {}

/-! ## The emissions of the ear clipping -/

/-- One emission of the ear clipping: the scan counter `i`, the cursor at the ear found and the
node queue in which it was found. -/
structure FEarStep where
  Counter : Int
  Cursor : FEarCursor
  Queue : List Int
deriving DecidableEq

/-- The emissions of the loop of the ear clipping, in order: the recursion of `EarLoop`, recording
at every ear found the scan counter, the cursor and the queue. -/
def EarTrace (IsPointInTriangle : FVector → FVector → FVector → FVector → Bool) (bMarkTriangles : Bool)
    (Cell : FCell) (ProjectedPositions : List FVector) :
    Nat → List Int → FEarCursor → List FTriangle × FCluster → List FEarStep
  | 0, _, _, _ => []
  | fuel + 1, NodeQueue, k, st =>
    if NodeQueue.length > 2 then
      match ScanForEar IsPointInTriangle Cell ProjectedPositions st.2 NodeQueue NodeQueue.length 0 k with
      | none => []
      | some (i, ke) =>
        ⟨i, ke, NodeQueue⟩ ::
          EarTrace IsPointInTriangle bMarkTriangles Cell ProjectedPositions fuel
            (RemoveAtSwap NodeQueue ke.CurrIndex)
            (ke.AfterRemoval ((RemoveAtSwap NodeQueue ke.CurrIndex).length : Int))
            (EmitTriangle bMarkTriangles Cell ProjectedPositions st i)
    else []

/-- The emissions of `TriangulateEarClipping`. -/
def FCell.EarClippingTrace (IsPointInTriangle : FVector → FVector → FVector → FVector → Bool)
    (bMarkTriangles : Bool) (Cell : FCell) (ProjectedPositions : List FVector)
    (OutTriangles : List FTriangle) (InCluster : FCluster) : List FEarStep :=
  if !Cell.bBuiltSuccessfully then []
  else if Cell.Nodes.length < 3 then []
  else
    EarTrace IsPointInTriangle bMarkTriangles Cell ProjectedPositions Cell.Nodes.length
      ((List.range Cell.Nodes.length).map (fun (i : Nat) => (i : Int)))
      ⟨(Cell.Nodes.length : Int) - 1, 0, 1⟩ (OutTriangles, InCluster)

/-- The ear that was tested at an emission: the point indices of the cell nodes held by the queue
entries at the previous, current and next position of the cursor (the `A`, `B`, `C` of header
lines 383-389). -/
def EarCorner (Cell : FCell) (InCluster : FCluster) (t : FEarStep) : FTriangle :=
  ⟨(InCluster.GetNode (Get Cell.Nodes (Get t.Queue t.Cursor.PrevIndex))).PointIndex,
   (InCluster.GetNode (Get Cell.Nodes (Get t.Queue t.Cursor.CurrIndex))).PointIndex,
   (InCluster.GetNode (Get Cell.Nodes (Get t.Queue t.Cursor.NextIndex))).PointIndex⟩

/-- A table of positions in the tilted plane `Z = X` over a 2D table. -/
def Tilted (Positions : List FVector2D) : List FVector := Positions.map (fun p => ⟨p.X, p.Y, p.X⟩)

/-- Projected positions of `CrossedCluster`: a hexagon whose sides cross. -/
def CrossedPositions : List FVector2D := [⟨6, 3⟩, ⟨4, 8⟩, ⟨1, 0⟩, ⟨5, 4⟩, ⟨8, 2⟩, ⟨3, 3⟩]

/-- A cycle of six nodes 0, .., 5 (edge `i` joins node `i` to node `i + 1`, edge 5 joins node 5 to
node 0) drawn with crossing sides. -/
def CrossedCluster : FCluster :=
  MakeCluster [[⟨1, 0⟩, ⟨5, 5⟩], [⟨0, 0⟩, ⟨2, 1⟩], [⟨1, 1⟩, ⟨3, 2⟩], [⟨2, 2⟩, ⟨4, 3⟩], [⟨3, 3⟩, ⟨5, 4⟩],
      [⟨4, 4⟩, ⟨0, 5⟩]]
    [⟨0, 1⟩, ⟨1, 2⟩, ⟨2, 3⟩, ⟨3, 4⟩, ⟨4, 5⟩, ⟨5, 0⟩] CrossedPositions

/-- The cell that `BuildFromCluster` builds from the seed node 0 -> node 1 of `CrossedCluster` on
default constraints. -/
def CrossedCell : FCell := (SuccessCell RefMath {} {} ⟨0, 0⟩ CrossedCluster CrossedPositions).getD {}

/-- Projected positions of `ShiftedCluster`, by point index. -/
def ShiftedPositions : List FVector2D := [⟨3, -1⟩, ⟨2, 0⟩, ⟨0, 2⟩, ⟨0, 0⟩]

/-- A cluster whose point indices differ from its node indices: the nodes 0, 1, 2, 3 are the
points 3, 1, 2, 0.  Nodes 0, 1, 2 form a triangle (edges 0: 0-1, 1: 1-2, 2: 2-0) and node 3 hangs
off node 1 (edge 3); edges name their endpoints by point index. -/
def ShiftedCluster : FCluster :=
  { Nodes := [⟨0, 3, [⟨1, 0⟩, ⟨2, 2⟩], 0⟩, ⟨1, 1, [⟨0, 0⟩, ⟨2, 1⟩, ⟨3, 3⟩], 0⟩,
      ⟨2, 2, [⟨1, 1⟩, ⟨0, 2⟩], 0⟩, ⟨3, 0, [⟨1, 3⟩], 0⟩]
    Edges := [⟨3, 1⟩, ⟨1, 2⟩, ⟨2, 3⟩, ⟨1, 0⟩]
    NodeIndexLookup := [3, 1, 2, 0]
    VtxPositions := ShiftedPositions.map (fun p => ⟨p.X, p.Y, 0⟩)
    ProjectedCentroid := ⟨0, 0⟩ }

/-! ## The built flag -/

/-- The cell with which an iteration of the walk loop ends, whichever way it ends. -/
def FFlow.Cell : FFlow → FCell
  | .Continue w => w.Cell
  | .Exit w => w.Cell
  | .Return _ c => c

/-- The build gets past the uniqueness check (source line 350): the seed half-edge is new, the
walk loop is left through its exit, closed and with more than two counted nodes, and the hash of
the canonical cell is new. -/
def ReachesCompletion (M : FMathKernel) (Constraints : FCellConstraints) (Cell : FCell)
    (InSeedLink : FLink) (InCluster : FCluster) (ProjectedPositions : List FVector2D) : Bool :=
  match WalkLoop M Constraints InSeedLink InCluster ProjectedPositions (2 * InCluster.Edges.length + 2)
      (BeginWalk Constraints (ResetCell Cell InSeedLink) InSeedLink InCluster) with
  | some (.Exit w) =>
    decide (H64 InSeedLink.Node (SeedTo InCluster InSeedLink).Node ∉ Constraints.UniqueStartHalfEdgesHash) &&
    !decide (w.NumUniqueNodes ≤ 2) && w.Cell.Data.bIsClosedLoop &&
    decide ((HashedCell w).1 ∉ Constraints.UniquePathsHashSet)
  | _ => false

/-! ## The wrapper cell -/

/-- `FVector2D::DistSquared`. -/
def FVector2D.DistSquared (a b : FVector2D) : ℚ :=
  (b.X - a.X) * (b.X - a.X) + (b.Y - a.Y) * (b.Y - a.Y)

/-- `FVector2D::DotProduct`. -/
def FVector2D.Dot (a b : FVector2D) : ℚ := a.X * b.X + a.Y * b.Y

/-- Modelled from the spec: `FCluster::GetEdgeStart(int32)`, the node of the start point of an
edge. -/
def FCluster.GetEdgeStart (cl : FCluster) (EdgeIndex : Int) : FNode :=
  cl.GetNode (Get cl.NodeIndexLookup (cl.GetEdge EdgeIndex).Start)

/-- Modelled from the spec: `FCluster::GetEdgeEnd(int32)`, the node of the end point of an edge. -/
def FCluster.GetEdgeEnd (cl : FCluster) (EdgeIndex : Int) : FNode :=
  cl.GetNode (Get cl.NodeIndexLookup (cl.GetEdge EdgeIndex).End)

/-- Source lines 132-143: the index of the node whose projected position is farthest from the
projected centroid (the first one of largest squared distance above 0), `-1` when there is none. -/
def FarthestNode (InCluster : FCluster) (ProjectedPositions : List FVector2D) : Int :=
  (InCluster.Nodes.foldl
    (fun (acc : ℚ × Int) (Node : FNode) =>
      let Dist := FVector2D.DistSquared InCluster.ProjectedCentroid (Get ProjectedPositions Node.PointIndex)
      if Dist > acc.1 then (Dist, Node.Index) else acc)
    (0, -1)).2

/-- Source lines 160-174: the edge of the link at the seed node whose direction has the smallest
dot product with the direction toward the centroid, `-1` when the node has no link. -/
def OutwardEdge (M : FMathKernel) (InCluster : FCluster) (ProjectedPositions : List FVector2D)
    (SeedNodeIndex : Int) : Int :=
  let SeedNode := InCluster.GetNode SeedNodeIndex
  let From := Get ProjectedPositions SeedNode.PointIndex
  let TowardCenter := FVector2D.GetSafeNormal M (InCluster.ProjectedCentroid - From)
  (SeedNode.Links.foldl
    (fun (acc : ℚ × Int) (Lk : FLink) =>
      let Dot := FVector2D.Dot TowardCenter
        (FVector2D.GetSafeNormal M
          (Get ProjectedPositions (InCluster.GetNode Lk.Node).PointIndex - From))
      if Dot < acc.1 then (Dot, Lk.Edge) else acc)
    (MAX_dbl, -1)).2

/-- The lambda `GetGuidedHalfEdge` (source lines 182-195): the endpoint of the chosen edge from
which the walk starts. -/
def GuidedHalfEdge (M : FMathKernel) (InCluster : FCluster) (ProjectedPositions : List FVector2D)
    (Link : FLink) : FNode :=
  let StartNode := InCluster.GetEdgeStart Link.Edge
  let EndNode := InCluster.GetEdgeEnd Link.Edge
  if StartNode.IsLeaf ∧ ¬ EndNode.IsLeaf then StartNode
  else if EndNode.IsLeaf ∧ ¬ StartNode.IsLeaf then EndNode
  else
    let EdgeDir := FVector2D.GetSafeNormal M
      (Get ProjectedPositions EndNode.PointIndex - Get ProjectedPositions StartNode.PointIndex)
    let Normal : FVector2D := ⟨-EdgeDir.Y, EdgeDir.X⟩
    if FVector2D.Dot
        (FVector2D.GetSafeNormal M
          (Get ProjectedPositions (InCluster.GetNode Link.Node).PointIndex - InCluster.ProjectedCentroid))
        Normal > 0 then StartNode
    else EndNode

/-- The seed link of the wrapper trace (source lines 132-198), `none` when the selection gives up
(no farthest node, or no link at it). -/
def WrapperSeed (M : FMathKernel) (InCluster : FCluster) (ProjectedPositions : List FVector2D) :
    Option FLink :=
  if FarthestNode InCluster ProjectedPositions = -1 then none
  else if OutwardEdge M InCluster ProjectedPositions (FarthestNode InCluster ProjectedPositions) = -1
    then none
  else
    some ⟨(GuidedHalfEdge M InCluster ProjectedPositions
        ⟨FarthestNode InCluster ProjectedPositions,
          OutwardEdge M InCluster ProjectedPositions (FarthestNode InCluster ProjectedPositions)⟩).Index,
      OutwardEdge M InCluster ProjectedPositions (FarthestNode InCluster ProjectedPositions)⟩

/-- The temporary constraints of `BuildWrapperCell` (source lines 151-158): the ones passed in,
or fresh ones that copy the leaf policy and the winding. -/
def TempConstraintsOf (This : FCellConstraints) (InConstraints : Option FCellConstraints) :
    FCellConstraints :=
  match InConstraints with
  | some c => c
  | none =>
    { bKeepCellsWithLeaves := This.bKeepCellsWithLeaves
      bDuplicateLeafPoints := This.bDuplicateLeafPoints
      Winding := This.Winding }

/-- `FCellConstraints::BuildWrapperCell`: the constraints it is called on and the temporary
constraints after the call (`none` only if the trace ran out of fuel).  The constraints passed in,
when there are some, are an object of their own; the wrapper cell is the traced cell, whose hash
`IsUniqueCellHash` reads (and caches) when it records it. -/
def FCellConstraints.BuildWrapperCell (M : FMathKernel) (This : FCellConstraints)
    (InCluster : FCluster) (ProjectedPositions : List FVector2D)
    (InConstraints : Option FCellConstraints) : Option (FCellConstraints × FCellConstraints) :=
  match WrapperSeed M InCluster ProjectedPositions with
  | none => some ({ This with WrapperCell := none }, TempConstraintsOf This InConstraints)
  | some Link =>
    match BuildFromCluster M (TempConstraintsOf This InConstraints) {} Link InCluster
        ProjectedPositions with
    | none => none
    | some (.Success, Cell, Temp) =>
      some ({ (This.IsUniqueCellHash Cell).2.2 with WrapperCell := some (This.IsUniqueCellHash Cell).2.1 },
        Temp)
    | some (_, _, Temp) => some (This, Temp)

/-- `KiteCluster` with its projected centroid, the mean of its four positions. -/
def KiteCentred : FCluster := { KiteCluster with ProjectedCentroid := ⟨1 / 4, 1 / 4⟩ }

/-! ## Deduplication over a list of seeds -/

/-- The signed half-edge key of a seed (source line 237). -/
def SeedKey (InCluster : FCluster) (InSeedLink : FLink) : ℕ :=
  H64 InSeedLink.Node (SeedTo InCluster InSeedLink).Node

/-- The hash of the canonical cell of the walk from a seed on a fresh cell, the value that
`IsUniqueCellHash` looks up at source line 350 (0 when the walk loop is not left through its
exit). -/
def TracedHash (M : FMathKernel) (Constraints : FCellConstraints) (InCluster : FCluster)
    (ProjectedPositions : List FVector2D) (InSeedLink : FLink) : ℕ :=
  match WalkLoop M Constraints InSeedLink InCluster ProjectedPositions (2 * InCluster.Edges.length + 2)
      (BeginWalk Constraints (ResetCell {} InSeedLink) InSeedLink InCluster) with
  | some (.Exit w) => (HashedCell w).1
  | _ => 0

/-- Evaluation of one seed on a fresh cell: the walk leaves the loop closed with more than two
counted nodes, the hash of its canonical cell is `Hash`, and the remaining checks give
`Success`. -/
def SeedCheck (M : FMathKernel) (Constraints : FCellConstraints) (InCluster : FCluster)
    (ProjectedPositions : List FVector2D) (Hash : ℕ) (InSeedLink : FLink) : Bool :=
  match WalkLoop M Constraints InSeedLink InCluster ProjectedPositions (2 * InCluster.Edges.length + 2)
      (BeginWalk Constraints (ResetCell {} InSeedLink) InSeedLink InCluster) with
  | some (.Exit w) =>
    decide (¬ w.NumUniqueNodes ≤ 2) && w.Cell.Data.bIsClosedLoop &&
    decide ((HashedCell w).1 = Hash) &&
    decide ((FinishCell M Constraints InCluster ProjectedPositions w.NumUniqueNodes w.Metrics
      { (HashedCell w).2 with bBuiltSuccessfully := true }).1 = .Success)
  | _ => false

/-- Evaluation of the walk of one seed on a fresh cell: the walk leaves the loop closed with more
than two counted nodes and the hash of its canonical cell is `Hash`. -/
def WalkCheck (M : FMathKernel) (Constraints : FCellConstraints) (InCluster : FCluster)
    (ProjectedPositions : List FVector2D) (Hash : ℕ) (InSeedLink : FLink) : Bool :=
  match WalkLoop M Constraints InSeedLink InCluster ProjectedPositions (2 * InCluster.Edges.length + 2)
      (BeginWalk Constraints (ResetCell {} InSeedLink) InSeedLink InCluster) with
  | some (.Exit w) =>
    decide (¬ w.NumUniqueNodes ≤ 2) && w.Cell.Data.bIsClosedLoop &&
    decide ((HashedCell w).1 = Hash)
  | _ => false

/-- Projected positions of `CollidingCluster`, by node: the corners of a convex 14-gon. -/
def CollidingPositions : List FVector2D :=
  [⟨0, 0⟩, ⟨4, -12⟩, ⟨3, -12⟩, ⟨2, -10⟩, ⟨6, -6⟩, ⟨5, -10⟩, ⟨1, -6⟩, ⟨7, 0⟩, ⟨5, 10⟩, ⟨2, 10⟩,
   ⟨6, 6⟩, ⟨4, 12⟩, ⟨1, 6⟩, ⟨3, 12⟩]

/-- A simple closed polygon of 14 nodes: the convex 14-gon whose corners are, in order, the nodes
0, 6, 3, 2, 1, 5, 4, 7, 10, 8, 11, 13, 9, 12; edge `k` joins the `k`-th of them to the next. -/
def CollidingCluster : FCluster :=
  MakeCluster
    [[⟨6, 0⟩, ⟨12, 13⟩],
     [⟨5, 4⟩, ⟨2, 3⟩],
     [⟨1, 3⟩, ⟨3, 2⟩],
     [⟨2, 2⟩, ⟨6, 1⟩],
     [⟨7, 6⟩, ⟨5, 5⟩],
     [⟨4, 5⟩, ⟨1, 4⟩],
     [⟨3, 1⟩, ⟨0, 0⟩],
     [⟨10, 7⟩, ⟨4, 6⟩],
     [⟨11, 9⟩, ⟨10, 8⟩],
     [⟨12, 12⟩, ⟨13, 11⟩],
     [⟨8, 8⟩, ⟨7, 7⟩],
     [⟨13, 10⟩, ⟨8, 9⟩],
     [⟨0, 13⟩, ⟨9, 12⟩],
     [⟨9, 11⟩, ⟨11, 10⟩]]
    [⟨0, 6⟩, ⟨6, 3⟩, ⟨3, 2⟩, ⟨2, 1⟩, ⟨1, 5⟩, ⟨5, 4⟩, ⟨4, 7⟩, ⟨7, 10⟩, ⟨10, 8⟩, ⟨8, 11⟩, ⟨11, 13⟩,
     ⟨13, 9⟩, ⟨9, 12⟩, ⟨12, 0⟩]
    CollidingPositions

/-- The 14 directed half-edges of `CollidingCluster` in the direction 0 -> 6 -> 3 -> .., as seed
links `(node, edge)`. -/
def CollidingForward : List FLink :=
  [⟨0, 0⟩, ⟨6, 1⟩, ⟨3, 2⟩, ⟨2, 3⟩, ⟨1, 4⟩, ⟨5, 5⟩, ⟨4, 6⟩, ⟨7, 7⟩, ⟨10, 8⟩, ⟨8, 9⟩, ⟨11, 10⟩,
   ⟨13, 11⟩, ⟨9, 12⟩, ⟨12, 13⟩]

/-- The 14 directed half-edges of `CollidingCluster` in the opposite direction (the walk from the
first of them goes 6 -> 0 -> 12 -> ..), as seed links `(node, edge)`. -/
def CollidingBackward : List FLink :=
  [⟨6, 0⟩, ⟨3, 1⟩, ⟨2, 2⟩, ⟨1, 3⟩, ⟨5, 4⟩, ⟨4, 5⟩, ⟨7, 6⟩, ⟨10, 7⟩, ⟨8, 8⟩, ⟨11, 9⟩, ⟨13, 10⟩,
   ⟨9, 11⟩, ⟨12, 12⟩, ⟨0, 13⟩]

/-- The 28 directed half-edges of `CollidingCluster` in one order: the half-edge 0 -> 6 first, then
the 14 of the opposite direction, then the 13 others of the first direction. -/
def CollidingSeeds : List FLink :=
  CollidingForward.take 1 ++ (CollidingBackward ++ CollidingForward.drop 1)

/-- Projected positions of `PinchedCluster`: nodes 2 and 3 lie on the same point. -/
def PinchedPositions : List FVector2D := [⟨0, 0⟩, ⟨2, 0⟩, ⟨2, 2⟩, ⟨2, 2⟩, ⟨0, 2⟩]

/-- A cycle of five nodes 0, .., 4 (edge `i` joins node `i` to node `i + 1`, edge 4 joins node 4
to node 0) in which the nodes 2 and 3 coincide. -/
def PinchedCluster : FCluster :=
  MakeCluster
    [[⟨1, 0⟩, ⟨4, 4⟩], [⟨2, 1⟩, ⟨0, 0⟩], [⟨3, 2⟩, ⟨1, 1⟩], [⟨4, 3⟩, ⟨2, 2⟩], [⟨0, 4⟩, ⟨3, 3⟩]]
    [⟨0, 1⟩, ⟨1, 2⟩, ⟨2, 3⟩, ⟨3, 4⟩, ⟨4, 0⟩]
    PinchedPositions

/-! ## The cursor of the ear clipping -/

/-- The three indices of the cursor are valid positions of a queue of `Num` entries. -/
def FEarCursor.InRange (k : FEarCursor) (Num : Int) : Prop :=
  0 ≤ k.PrevIndex ∧ k.PrevIndex < Num ∧ 0 ≤ k.CurrIndex ∧ k.CurrIndex < Num ∧
  0 ≤ k.NextIndex ∧ k.NextIndex < Num

instance (k : FEarCursor) (Num : Int) : Decidable (k.InRange Num) := by
  unfold FEarCursor.InRange; infer_instance

/-! ## Rotations and the canonical form -/

theorem int_min?_eq_some_iff {xs : List Int} {a : Int} :
    xs.min? = some a ↔ a ∈ xs ∧ ∀ b, b ∈ xs → a ≤ b :=
  @List.min?_eq_some_iff Int a _ _ ⟨fun h1 h2 => Int.le_antisymm h1 h2⟩ Int.le_refl
    (fun a b => by rcases le_total a b with h | h <;> simp [h])
    (fun _ _ _ => le_min_iff) xs

theorem min?_rotate (l : List Int) (k : ℕ) : (l.rotate k).min? = l.min? := by
  cases h : l.min? with
  | none =>
    have : l = [] := by simpa using h
    subst this; simp
  | some m =>
    rw [int_min?_eq_some_iff] at h ⊢
    exact ⟨List.mem_rotate.mpr h.1, fun b hb => h.2 b (List.mem_rotate.mp hb)⟩

theorem head_rotate_indexOf (l : List Int) (m : Int) (hm : m ∈ l) :
    ∃ t, l.rotate (l.indexOf m) = m :: t := by
  have hlt : l.indexOf m < l.length := List.indexOf_lt_length.mpr hm
  rw [List.rotate_eq_drop_append_take hlt.le, List.drop_eq_getElem_cons hlt]
  have h2 : l[l.indexOf m] = m := by simp
  rw [h2]
  exact ⟨_, rfl⟩

/-- Two rotations of one another that start with the same entry `m` are equal when `m` occurs
only once. -/
theorem rotations_same_head_eq (r1 r2 : List Int) (m : Int) (t1 t2 : List Int)
    (h1 : r1 = m :: t1) (h2 : r2 = m :: t2) (hrot : r1.IsRotated r2) (hc : r1.count m = 1) :
    r1 = r2 := by
  obtain ⟨n, hn⟩ := hrot
  have hn' : r1.rotate (n % r1.length) = r2 := by rw [List.rotate_mod]; exact hn
  by_cases h0 : n % r1.length = 0
  · rw [h0, List.rotate_zero] at hn'; exact hn'
  · exfalso
    have hlen : 0 < r1.length := by rw [h1]; simp
    have hlt : n % r1.length < r1.length := Nat.mod_lt _ hlen
    rw [List.rotate_eq_drop_append_take hlt.le] at hn'
    have hsplit : r1 = r1.take (n % r1.length) ++ r1.drop (n % r1.length) :=
      (List.take_append_drop _ _).symm
    have hmem1 : m ∈ r1.take (n % r1.length) := by
      obtain ⟨j, hj⟩ := Nat.exists_eq_succ_of_ne_zero h0
      rw [hj, h1, List.take_succ_cons]; simp
    have hmem2 : m ∈ r1.drop (n % r1.length) := by
      have hd : r1.drop (n % r1.length) ≠ [] := by
        simp [List.drop_eq_nil_iff]; exact hlt
      obtain ⟨x, xs, hx⟩ := List.exists_cons_of_ne_nil hd
      rw [hx, h2] at hn'
      simp at hn'
      rw [hx, hn'.1]; simp
    have hcount : r1.count m
        = (r1.take (n % r1.length)).count m + (r1.drop (n % r1.length)).count m := by
      conv_lhs => rw [hsplit]
      exact List.count_append _ _ _
    have c1 := List.count_pos_iff.mpr hmem1
    have c2 := List.count_pos_iff.mpr hmem2
    omega

theorem ShiftArrayToSmallest_rotate (l : List Int) (k : ℕ)
    (h : ∀ m, l.min? = some m → l.count m = 1) :
    ShiftArrayToSmallest (l.rotate k) = ShiftArrayToSmallest l := by
  unfold ShiftArrayToSmallest
  rw [min?_rotate]
  cases hm : l.min? with
  | none =>
    have : l = [] := by simpa using hm
    subst this; simp
  | some m =>
    simp only
    have hmem : m ∈ l := (int_min?_eq_some_iff.mp hm).1
    have hmem' : m ∈ l.rotate k := List.mem_rotate.mpr hmem
    obtain ⟨t1, h1⟩ := head_rotate_indexOf l m hmem
    obtain ⟨t2, h2⟩ := head_rotate_indexOf (l.rotate k) m hmem'
    have a : ((l.rotate k).rotate ((l.rotate k).indexOf m)).IsRotated l := by
      rw [List.rotate_rotate]; exact List.IsRotated.forall l _
    have b : (l.rotate (l.indexOf m)).IsRotated l := List.IsRotated.forall l _
    have hc : ((l.rotate k).rotate ((l.rotate k).indexOf m)).count m = 1 := by
      rw [a.perm.count_eq]; exact h m hm
    exact rotations_same_head_eq _ _ m t2 t1 h2 h1 (a.trans b.symm) hc

/-! ## Claims on canonicalisation, hashing and the deduplication sets -/

/-- C3 (as stated, refuted): the arrays `[1, 2]` and `[2, 1]` are permutations of one another and
fresh cells holding them return different hashes. -/
theorem C3_hash_order_counterexample :
    List.Perm ([1, 2] : List Int) [2, 1] ∧
    (FCell.GetCellHash { Nodes := [1, 2] }).1 ≠ (FCell.GetCellHash { Nodes := [2, 1] }).1 := by
  decide

/-- `GetCellHash` of a cell whose cache is empty: the fold of `HashCombineFast` over `Nodes` in
array order, which is returned and cached. -/
theorem GetCellHash_fresh (c : FCell) (h : c.CellHash = 0) :
    c.GetCellHash.1 = c.Nodes.foldl (fun acc n => HashCombineFast acc (ToUInt32 n)) 0 ∧
    c.GetCellHash.2.CellHash = c.GetCellHash.1 := by
  simp [FCell.GetCellHash, h]

/-- C3 (amended): `GetCellHash` combines `Nodes` in array order: a fresh cell returns
`HashCombineFast` folded from 0 over its nodes, left to right, and caches it, so fresh cells with
equal node arrays return the same `CellHash`. -/
theorem C3_hash_of_equal_arrays (c1 c2 : FCell) (h1 : c1.CellHash = 0) (h2 : c2.CellHash = 0)
    (hn : c1.Nodes = c2.Nodes) :
    c1.GetCellHash.1 = c2.GetCellHash.1 ∧
    c1.GetCellHash.1 = c1.Nodes.foldl (fun acc n => HashCombineFast acc (ToUInt32 n)) 0 ∧
    c1.GetCellHash.2.CellHash = c1.GetCellHash.1 := by
  have a := GetCellHash_fresh c1 h1
  have b := GetCellHash_fresh c2 h2
  exact ⟨by rw [a.1, b.1, hn], a.1, a.2⟩

/-- C3 witness: two fresh cells holding `[0, 1, 2, 3]`. -/
theorem C3_hash_of_equal_arrays_witness :
    (FCell.GetCellHash { Nodes := [0, 1, 2, 3] }).1 = (FCell.GetCellHash { Nodes := [0, 1, 2, 3] }).1 ∧
    (FCell.GetCellHash { Nodes := [0, 1, 2, 3] }).1 =
      ([0, 1, 2, 3] : List Int).foldl (fun acc n => HashCombineFast acc (ToUInt32 n)) 0 ∧
    (FCell.GetCellHash { Nodes := [0, 1, 2, 3] }).2.CellHash =
      (FCell.GetCellHash { Nodes := [0, 1, 2, 3] }).1 :=
  C3_hash_of_equal_arrays { Nodes := [0, 1, 2, 3] } { Nodes := [0, 1, 2, 3] } rfl rfl rfl

/-- C4: `IsUniqueStartHalfEdge(h)` returns true iff `h` was not in `UniqueStartHalfEdgesHash`
before the call; afterwards the set is the old set plus `h`, an immediate second call with the
same `h` returns false, and `UniquePathsHashSet` is unchanged. -/
theorem C4_IsUniqueStartHalfEdge (con : FCellConstraints) (Hash : ℕ) :
    ((con.IsUniqueStartHalfEdge Hash).1 = true ↔ Hash ∉ con.UniqueStartHalfEdgesHash) ∧
    (con.IsUniqueStartHalfEdge Hash).2.UniqueStartHalfEdgesHash =
      insert Hash con.UniqueStartHalfEdgesHash ∧
    ((con.IsUniqueStartHalfEdge Hash).2.IsUniqueStartHalfEdge Hash).1 = false ∧
    (con.IsUniqueStartHalfEdge Hash).2.UniquePathsHashSet = con.UniquePathsHashSet := by
  unfold FCellConstraints.IsUniqueStartHalfEdge
  by_cases h : Hash ∈ con.UniqueStartHalfEdgesHash <;> simp [h]

/-- C5 (as stated, refuted): the canonical arrays `[0, 1, 63]` and `[0, 4, 2]` differ, yet after
the first cell is recorded in fresh constraints, `IsUniqueCellHash` returns false for the second:
their 32-bit hashes collide. -/
theorem C5_hash_collision_counterexample :
    ([0, 1, 63] : List Int) ≠ [0, 4, 2] ∧
    ((({} : FCellConstraints).IsUniqueCellHash { Nodes := [0, 1, 63] }).1 = true) ∧
    ((({} : FCellConstraints).IsUniqueCellHash { Nodes := [0, 1, 63] }).2.2.IsUniqueCellHash
      { Nodes := [0, 4, 2] }).1 = false := by
  decide

/-- C5 (amended): `IsUniqueCellHash(cell)` returns true exactly when the cell's `CellHash` was not
recorded in `UniquePathsHashSet` before, and then the set is the old set plus that hash (the start
half-edge set is unchanged); so after the call for a fresh cell, the call for a fresh cell with
equal `Nodes` returns false, and a cell whose hash differs from every recorded hash returns
true. -/
theorem C5_IsUniqueCellHash (con : FCellConstraints) (c c2 : FCell)
    (h1 : c.CellHash = 0) (h2 : c2.CellHash = 0) (hn : c2.Nodes = c.Nodes) :
    ((con.IsUniqueCellHash c).1 = true ↔ c.GetCellHash.1 ∉ con.UniquePathsHashSet) ∧
    (con.IsUniqueCellHash c).2.2.UniquePathsHashSet = insert c.GetCellHash.1 con.UniquePathsHashSet ∧
    (con.IsUniqueCellHash c).2.2.UniqueStartHalfEdgesHash = con.UniqueStartHalfEdgesHash ∧
    ((con.IsUniqueCellHash c).2.2.IsUniqueCellHash c2).1 = false := by
  have e : c2.GetCellHash.1 = c.GetCellHash.1 := by
    rw [(GetCellHash_fresh c h1).1, (GetCellHash_fresh c2 h2).1, hn]
  unfold FCellConstraints.IsUniqueCellHash
  by_cases h : c.GetCellHash.1 ∈ con.UniquePathsHashSet <;> simp [h, e]

/-- C5 witness: fresh constraints and two fresh cells holding the square `[0, 1, 2, 3]`. -/
theorem C5_IsUniqueCellHash_witness :
    (((({} : FCellConstraints).IsUniqueCellHash { Nodes := [0, 1, 2, 3] }).1 = true ↔
      (FCell.GetCellHash { Nodes := [0, 1, 2, 3] }).1 ∉ ({} : FCellConstraints).UniquePathsHashSet) ∧
    (({} : FCellConstraints).IsUniqueCellHash { Nodes := [0, 1, 2, 3] }).2.2.UniquePathsHashSet =
      insert (FCell.GetCellHash { Nodes := [0, 1, 2, 3] }).1 ({} : FCellConstraints).UniquePathsHashSet ∧
    (({} : FCellConstraints).IsUniqueCellHash { Nodes := [0, 1, 2, 3] }).2.2.UniqueStartHalfEdgesHash =
      ({} : FCellConstraints).UniqueStartHalfEdgesHash ∧
    ((({} : FCellConstraints).IsUniqueCellHash { Nodes := [0, 1, 2, 3] }).2.2.IsUniqueCellHash
      { Nodes := [0, 1, 2, 3] }).1 = false) :=
  C5_IsUniqueCellHash {} { Nodes := [0, 1, 2, 3] } { Nodes := [0, 1, 2, 3] } rfl rfl rfl

/-! ## Decomposition of `BuildFromCluster` -/

theorem LoopBody_WithSets (M : FMathKernel) (con : FCellConstraints) (S P : Finset ℕ) (seed : FLink)
    (cl : FCluster) (pp : List FVector2D) (w : FWalk) :
    LoopBody M (con.WithSets S P) seed cl pp w = LoopBody M con seed cl pp w := rfl

theorem WalkLoop_WithSets (M : FMathKernel) (con : FCellConstraints) (S P : Finset ℕ) (seed : FLink)
    (cl : FCluster) (pp : List FVector2D) (fuel : ℕ) (w : FWalk) :
    WalkLoop M (con.WithSets S P) seed cl pp fuel w = WalkLoop M con seed cl pp fuel w := by
  induction fuel generalizing w with
  | zero => rfl
  | succ n ih =>
    simp only [WalkLoop, LoopBody_WithSets]
    split
    · rfl
    · split
      · exact ih _
      · rfl

theorem FinishCell_WithSets (M : FMathKernel) (con : FCellConstraints) (S P : Finset ℕ)
    (cl : FCluster) (pp : List FVector2D) (n : Int) (m : FPathMetrics) (c : FCell) :
    FinishCell M (con.WithSets S P) cl pp n m c = FinishCell M con cl pp n m c := rfl

theorem BeginWalk_WithSets (con : FCellConstraints) (S P : Finset ℕ) (c : FCell) (seed : FLink)
    (cl : FCluster) :
    BeginWalk (con.WithSets S P) c seed cl = BeginWalk con c seed cl := rfl

theorem CompleteCell_duplicate (M : FMathKernel) (con : FCellConstraints) (cl : FCluster)
    (pp : List FVector2D) (w : FWalk) (h1 : ¬ w.NumUniqueNodes ≤ 2)
    (h2 : w.Cell.Data.bIsClosedLoop = true) (hP : (HashedCell w).1 ∈ con.UniquePathsHashSet) :
    CompleteCell M con cl pp w = (.Duplicate, (HashedCell w).2, con) := by
  unfold HashedCell at hP
  simp [CompleteCell, h1, h2, FCellConstraints.IsUniqueCellHash, hP, HashedCell]

theorem CompleteCell_unique (M : FMathKernel) (con : FCellConstraints) (cl : FCluster)
    (pp : List FVector2D) (w : FWalk) (h1 : ¬ w.NumUniqueNodes ≤ 2)
    (h2 : w.Cell.Data.bIsClosedLoop = true) (hP : (HashedCell w).1 ∉ con.UniquePathsHashSet) :
    CompleteCell M con cl pp w =
      ((FinishCell M con cl pp w.NumUniqueNodes w.Metrics
          { (HashedCell w).2 with bBuiltSuccessfully := true }).1,
       (FinishCell M con cl pp w.NumUniqueNodes w.Metrics
          { (HashedCell w).2 with bBuiltSuccessfully := true }).2.1,
       { con with
          UniquePathsHashSet := insert (HashedCell w).1 con.UniquePathsHashSet
          Holes := (FinishCell M con cl pp w.NumUniqueNodes w.Metrics
            { (HashedCell w).2 with bBuiltSuccessfully := true }).2.2 }) := by
  unfold HashedCell at hP
  have e : ∀ P' c, FinishCell M { con with UniquePathsHashSet := P' } cl pp w.NumUniqueNodes w.Metrics c
      = FinishCell M con cl pp w.NumUniqueNodes w.Metrics c := fun _ _ => rfl
  simp [CompleteCell, h1, h2, FCellConstraints.IsUniqueCellHash, hP, HashedCell, e]

theorem BuildFromCluster_start_duplicate (M : FMathKernel) (con : FCellConstraints) (cell : FCell)
    (s : FLink) (cl : FCluster) (pp : List FVector2D)
    (h : H64 s.Node (SeedTo cl s).Node ∈ con.UniqueStartHalfEdgesHash) :
    BuildFromCluster M con cell s cl pp = some (.Duplicate, ResetCell cell s, con) := by
  simp [BuildFromCluster, FCellConstraints.IsUniqueStartHalfEdge, h]

theorem BuildFromCluster_start_unique (M : FMathKernel) (con : FCellConstraints) (cell : FCell)
    (s : FLink) (cl : FCluster) (pp : List FVector2D)
    (h : H64 s.Node (SeedTo cl s).Node ∉ con.UniqueStartHalfEdgesHash) :
    BuildFromCluster M con cell s cl pp =
      match WalkLoop M con s cl pp (2 * cl.Edges.length + 2) (BeginWalk con (ResetCell cell s) s cl) with
      | none => none
      | some (.Return r c) => some (r, c, con.WithSets
          (insert (H64 s.Node (SeedTo cl s).Node) con.UniqueStartHalfEdgesHash) con.UniquePathsHashSet)
      | some (.Continue w) => some (CompleteCell M (con.WithSets
          (insert (H64 s.Node (SeedTo cl s).Node) con.UniqueStartHalfEdgesHash) con.UniquePathsHashSet) cl pp w)
      | some (.Exit w) => some (CompleteCell M (con.WithSets
          (insert (H64 s.Node (SeedTo cl s).Node) con.UniqueStartHalfEdgesHash) con.UniquePathsHashSet) cl pp w) := by
  have e1 := WalkLoop_WithSets M con (insert (H64 s.Node (SeedTo cl s).Node) con.UniqueStartHalfEdgesHash)
    con.UniquePathsHashSet s cl pp (2 * cl.Edges.length + 2) (BeginWalk con (ResetCell cell s) s cl)
  have e2 := BeginWalk_WithSets con (insert (H64 s.Node (SeedTo cl s).Node) con.UniqueStartHalfEdgesHash)
    con.UniquePathsHashSet (ResetCell cell s) s cl
  have e3 : con.IsUniqueStartHalfEdge (H64 s.Node (SeedTo cl s).Node) = (true, con.WithSets
      (insert (H64 s.Node (SeedTo cl s).Node) con.UniqueStartHalfEdgesHash) con.UniquePathsHashSet) := by
    simp [FCellConstraints.IsUniqueStartHalfEdge, h, FCellConstraints.WithSets]
  simp only [BuildFromCluster, e3, e2, e1, not_true_eq_false, if_false]

/-! ## One iteration of the walk loop -/

theorem SeekNext_mem (M : FMathKernel) (cl : FCluster) (pp : List FVector2D) (Current : FNode)
    (PP GuideDir : FVector2D) (LockedEdge : Int) :
    SeekNext M cl pp Current PP GuideDir LockedEdge = ⟨-1, -1⟩ ∨
    (SeekNext M cl pp Current PP GuideDir LockedEdge ∈ Current.Links ∧
      (SeekNext M cl pp Current PP GuideDir LockedEdge).Edge ≠ LockedEdge) := by
  unfold SeekNext
  generalize hf : (fun (acc : ℚ × FLink) (Lk : FLink) =>
      let NeighborIndex := Lk.Node
      if Lk.Edge = LockedEdge then acc
      else
        let OtherDir := FVector2D.GetSafeNormal M
          (PP - Get pp (cl.GetNode NeighborIndex).PointIndex)
        let Angle := M.GetRadiansBetweenVectors OtherDir GuideDir
        if Angle < acc.1 then (Angle, Lk) else acc) = f
  have key : ∀ (l : List FLink) (acc : ℚ × FLink),
      (acc.2 = ⟨-1, -1⟩ ∨ (acc.2 ∈ Current.Links ∧ acc.2.Edge ≠ LockedEdge)) →
      (∀ x ∈ l, x ∈ Current.Links) →
      ((l.foldl f acc).2 = ⟨-1, -1⟩ ∨ ((l.foldl f acc).2 ∈ Current.Links ∧ (l.foldl f acc).2.Edge ≠ LockedEdge)) := by
    intro l
    induction l with
    | nil => intro acc h _; exact h
    | cons x t ih =>
      intro acc h hx
      rw [List.foldl_cons]
      apply ih
      · subst hf
        dsimp only
        split_ifs with h1 h2
        · exact h
        · exact Or.inr ⟨hx x (List.mem_cons_self _ _), h1⟩
        · exact h
      · exact fun y hy => hx y (List.mem_cons_of_mem _ hy)
  exact key Current.Links _ (Or.inl rfl) (fun x hx => hx)

theorem NextLink_mem (M : FMathKernel) (cl : FCluster) (pp : List FVector2D) (From To : FLink)
    (h : (NextLink M cl pp From To).Node ≠ -1) :
    NextLink M cl pp From To ∈ (cl.GetNode To.Node).Links := by
  unfold NextLink at h ⊢
  rcases SeekNext_mem M cl pp (cl.GetNode To.Node) (Get pp (cl.GetNode To.Node).PointIndex)
    (FVector2D.GetSafeNormal M (Get pp (cl.GetNode To.Node).PointIndex - Get pp (cl.GetNode From.Node).PointIndex))
    (LockedEdgeOf (cl.GetNode To.Node) To) with h1 | h1
  · simp only at h; rw [h1] at h; exact absurd rfl h
  · exact h1.1

theorem CheckConvexLast_Nodes (c : FCell) (cl : FCluster) : (c.CheckConvexLast cl).Nodes = c.Nodes := rfl

theorem CheckConvexLast_closed (c : FCell) (cl : FCluster) :
    (c.CheckConvexLast cl).Data.bIsClosedLoop = c.Data.bIsClosedLoop := rfl

theorem Cell3_Nodes (c : FCell) (con : FCellConstraints) (cl : FCluster) (To : FLink) (RP : FVector) :
    (((c.AddNode (cl.GetNode To.Node).Index RP).AddBounds RP).DuplicateLeaf con (cl.GetNode To.Node)).Nodes
      = c.Nodes ++ Appended con cl To := by
  unfold FCell.DuplicateLeaf Appended FCell.AddBounds FCell.AddNode
  split_ifs <;> simp

theorem Cell3_closed (c : FCell) (con : FCellConstraints) (n : FNode) (i : Int) (RP : FVector) :
    (((c.AddNode i RP).AddBounds RP).DuplicateLeaf con n).Data.bIsClosedLoop
      = c.Data.bIsClosedLoop := by
  unfold FCell.DuplicateLeaf FCell.AddBounds FCell.AddNode
  split_ifs <;> rfl

theorem LoopBody_continue (M : FMathKernel) (con : FCellConstraints) (seed : FLink) (cl : FCluster)
    (pp : List FVector2D) (w w1 : FWalk) (h : LoopBody M con seed cl pp w = .Continue w1) :
    H64 w.From.Node w.To.Node ∉ w.SignedEdges ∧
    ¬ ((w.SignedEdges.card : Int) > (cl.Edges.length : Int) * 2) ∧
    w1.Cell.Nodes = w.Cell.Nodes ++ Appended con cl w.To ∧
    w1.From = w.To ∧
    w1.To = NextLink M cl pp w.From w.To ∧
    w1.To.Node ≠ -1 ∧
    ¬ ((cl.GetNode w1.To.Node).Num = 1 ∧ ¬ con.bKeepCellsWithLeaves = true) ∧
    w1.NumUniqueNodes = w.NumUniqueNodes + 1 ∧
    w1.SignedEdges = insert (H64 w.From.Node w.To.Node) w.SignedEdges ∧
    w1.Cell.Data.bIsClosedLoop = w.Cell.Data.bIsClosedLoop := by
  unfold LoopBody at h
  simp only at h
  by_cases h1 : (w.SignedEdges.card : Int) > (cl.Edges.length : Int) * 2
  · rw [if_pos h1] at h; cases h
  rw [if_neg h1] at h
  by_cases h2 : H64 w.From.Node w.To.Node ∈ w.SignedEdges
  · rw [if_pos h2] at h
    by_cases h3 : w.To.Edge = seed.Edge ∨ w.To.Node = seed.Node
    · rw [if_pos h3] at h; cases h
    · rw [if_neg h3] at h; cases h
  rw [if_neg h2] at h
  by_cases h4 : (FPathMetrics.Add M w.Metrics (cl.GetPos (cl.GetNode w.To.Node))).2.Length > con.MaxPerimeter
  · rw [if_pos h4] at h; cases h
  rw [if_neg h4] at h
  by_cases h5 : (FPathMetrics.Add M w.Metrics (cl.GetPos (cl.GetNode w.To.Node))).1 < con.MinSegmentLength ∨
      (FPathMetrics.Add M w.Metrics (cl.GetPos (cl.GetNode w.To.Node))).1 > con.MaxSegmentLength
  · rw [if_pos h5] at h; cases h
  rw [if_neg h5] at h
  by_cases h6 : w.NumUniqueNodes + 1 > con.MaxPointCount
  · rw [if_pos h6] at h; cases h
  rw [if_neg h6] at h
  by_cases h7 : FVector.Length M
      ((w.Cell.AddNode (cl.GetNode w.To.Node).Index (cl.GetPos (cl.GetNode w.To.Node))).AddBounds
        (cl.GetPos (cl.GetNode w.To.Node))).Data.Bounds.GetSize > con.MaxBoundsSize
  · rw [if_pos h7] at h; cases h
  rw [if_neg h7] at h
  by_cases h8 : (NextLink M cl pp w.From w.To).Node = -1
  · rw [if_pos h8] at h; cases h
  rw [if_neg h8] at h
  by_cases h9 : (cl.GetNode (NextLink M cl pp w.From w.To).Node).Num = 1 ∧ ¬ con.bKeepCellsWithLeaves = true
  · rw [if_pos h9] at h; cases h
  rw [if_neg h9, if_neg h6] at h
  by_cases h10 : w.NumUniqueNodes + 1 > 2
  · rw [if_pos h10] at h
    by_cases h11 : con.bConvexOnly = true ∧ ¬ ((((w.Cell.AddNode (cl.GetNode w.To.Node).Index
        (cl.GetPos (cl.GetNode w.To.Node))).AddBounds (cl.GetPos (cl.GetNode w.To.Node))).DuplicateLeaf con
        (cl.GetNode w.To.Node)).CheckConvexLast cl).Data.bIsConvex = true
    · rw [if_pos h11] at h; cases h
    · rw [if_neg h11] at h
      injection h with h
      subst h
      simp only [CheckConvexLast_Nodes, CheckConvexLast_closed, Cell3_Nodes, Cell3_closed]
      exact ⟨h2, h1, trivial, trivial, trivial, h8, h9, trivial, trivial, trivial⟩
  · rw [if_neg h10] at h
    injection h with h
    subst h
    simp only [Cell3_Nodes, Cell3_closed]
    exact ⟨h2, h1, trivial, trivial, trivial, h8, h9, trivial, trivial, trivial⟩

theorem LoopBody_exit (M : FMathKernel) (con : FCellConstraints) (seed : FLink) (cl : FCluster)
    (pp : List FVector2D) (w w1 : FWalk) (h : LoopBody M con seed cl pp w = .Exit w1) :
    H64 w.From.Node w.To.Node ∈ w.SignedEdges ∧
    (w.To.Edge = seed.Edge ∨ w.To.Node = seed.Node) ∧
    w1 = { w with Cell := w.Cell.Close } := by
  unfold LoopBody at h
  simp only at h
  by_cases h1 : (w.SignedEdges.card : Int) > (cl.Edges.length : Int) * 2
  · rw [if_pos h1] at h; cases h
  rw [if_neg h1] at h
  by_cases h2 : H64 w.From.Node w.To.Node ∈ w.SignedEdges
  · rw [if_pos h2] at h
    by_cases h3 : w.To.Edge = seed.Edge ∨ w.To.Node = seed.Node
    · rw [if_pos h3] at h
      injection h with h
      exact ⟨h2, h3, h.symm⟩
    · rw [if_neg h3] at h; cases h
  rw [if_neg h2] at h
  by_cases h4 : (FPathMetrics.Add M w.Metrics (cl.GetPos (cl.GetNode w.To.Node))).2.Length > con.MaxPerimeter
  · rw [if_pos h4] at h; cases h
  rw [if_neg h4] at h
  by_cases h5 : (FPathMetrics.Add M w.Metrics (cl.GetPos (cl.GetNode w.To.Node))).1 < con.MinSegmentLength ∨
      (FPathMetrics.Add M w.Metrics (cl.GetPos (cl.GetNode w.To.Node))).1 > con.MaxSegmentLength
  · rw [if_pos h5] at h; cases h
  rw [if_neg h5] at h
  by_cases h6 : w.NumUniqueNodes + 1 > con.MaxPointCount
  · rw [if_pos h6] at h; cases h
  rw [if_neg h6] at h
  by_cases h7 : FVector.Length M
      ((w.Cell.AddNode (cl.GetNode w.To.Node).Index (cl.GetPos (cl.GetNode w.To.Node))).AddBounds
        (cl.GetPos (cl.GetNode w.To.Node))).Data.Bounds.GetSize > con.MaxBoundsSize
  · rw [if_pos h7] at h; cases h
  rw [if_neg h7] at h
  by_cases h8 : (NextLink M cl pp w.From w.To).Node = -1
  · rw [if_pos h8] at h; cases h
  rw [if_neg h8] at h
  by_cases h9 : (cl.GetNode (NextLink M cl pp w.From w.To).Node).Num = 1 ∧ ¬ con.bKeepCellsWithLeaves = true
  · rw [if_pos h9] at h; cases h
  rw [if_neg h9, if_neg h6] at h
  by_cases h10 : w.NumUniqueNodes + 1 > 2
  · rw [if_pos h10] at h
    by_cases h11 : con.bConvexOnly = true ∧ ¬ ((((w.Cell.AddNode (cl.GetNode w.To.Node).Index
        (cl.GetPos (cl.GetNode w.To.Node))).AddBounds (cl.GetPos (cl.GetNode w.To.Node))).DuplicateLeaf con
        (cl.GetNode w.To.Node)).CheckConvexLast cl).Data.bIsConvex = true
    · rw [if_pos h11] at h; cases h
    · rw [if_neg h11] at h; cases h
  · rw [if_neg h10] at h; cases h


/-! ## The walk loop and a successful build -/

theorem FinishCell_Nodes (M : FMathKernel) (con : FCellConstraints) (cl : FCluster)
    (pp : List FVector2D) (n : Int) (m : FPathMetrics) (c : FCell) :
    (FinishCell M con cl pp n m c).2.1.Nodes = c.Nodes ∨
    (FinishCell M con cl pp n m c).2.1.Nodes = c.Nodes.reverse := by
  have hO : ∀ (W : EPCGExWinding) (V : List FVector2D) (P : FPolygonInfos),
      ((c.Finalize n m).Orient W V P).Nodes = c.Nodes ∨
      ((c.Finalize n m).Orient W V P).Nodes = c.Nodes.reverse := by
    intro W V P
    unfold FCell.Orient FCell.Finalize
    by_cases hw : (!P.IsWinded W) = true
    · right; simp [hw]
    · left; simp [hw]
  unfold FinishCell
  simp only
  have hS : ∀ (W : EPCGExWinding) (V : List FVector2D) (P : FPolygonInfos),
      ((c.Finalize n m).Orient W V P).ScaleArea.Nodes = c.Nodes ∨
      ((c.Finalize n m).Orient W V P).ScaleArea.Nodes = c.Nodes.reverse := fun W V P => hO W V P
  split_ifs
  all_goals first
    | exact Or.inl rfl
    | exact hO _ _ _
    | exact hS _ _ _
    | skip
  all_goals split
  all_goals first
    | exact hS _ _ _
    | skip
  all_goals split_ifs
  all_goals exact hS _ _ _

theorem LoopBody_return_ne_success (M : FMathKernel) (con : FCellConstraints) (seed : FLink)
    (cl : FCluster) (pp : List FVector2D) (w : FWalk) (r : ECellResult) (c : FCell)
    (h : LoopBody M con seed cl pp w = .Return r c) : r ≠ .Success := by
  unfold LoopBody at h
  simp only at h
  by_cases h1 : (w.SignedEdges.card : Int) > (cl.Edges.length : Int) * 2
  · rw [if_pos h1] at h; injection h with hr _; subst hr; decide
  rw [if_neg h1] at h
  by_cases h2 : H64 w.From.Node w.To.Node ∈ w.SignedEdges
  · rw [if_pos h2] at h
    by_cases h3 : w.To.Edge = seed.Edge ∨ w.To.Node = seed.Node
    · rw [if_pos h3] at h; cases h
    · rw [if_neg h3] at h; injection h with hr _; subst hr; decide
  rw [if_neg h2] at h
  by_cases h4 : (FPathMetrics.Add M w.Metrics (cl.GetPos (cl.GetNode w.To.Node))).2.Length > con.MaxPerimeter
  · rw [if_pos h4] at h; injection h with hr _; subst hr; decide
  rw [if_neg h4] at h
  by_cases h5 : (FPathMetrics.Add M w.Metrics (cl.GetPos (cl.GetNode w.To.Node))).1 < con.MinSegmentLength ∨
      (FPathMetrics.Add M w.Metrics (cl.GetPos (cl.GetNode w.To.Node))).1 > con.MaxSegmentLength
  · rw [if_pos h5] at h; injection h with hr _; subst hr; decide
  rw [if_neg h5] at h
  by_cases h6 : w.NumUniqueNodes + 1 > con.MaxPointCount
  · rw [if_pos h6] at h; injection h with hr _; subst hr; decide
  rw [if_neg h6] at h
  by_cases h7 : FVector.Length M
      ((w.Cell.AddNode (cl.GetNode w.To.Node).Index (cl.GetPos (cl.GetNode w.To.Node))).AddBounds
        (cl.GetPos (cl.GetNode w.To.Node))).Data.Bounds.GetSize > con.MaxBoundsSize
  · rw [if_pos h7] at h; injection h with hr _; subst hr; decide
  rw [if_neg h7] at h
  by_cases h8 : (NextLink M cl pp w.From w.To).Node = -1
  · rw [if_pos h8] at h; injection h with hr _; subst hr; decide
  rw [if_neg h8] at h
  by_cases h9 : (cl.GetNode (NextLink M cl pp w.From w.To).Node).Num = 1 ∧ ¬ con.bKeepCellsWithLeaves = true
  · rw [if_pos h9] at h; injection h with hr _; subst hr; decide
  rw [if_neg h9, if_neg h6] at h
  by_cases h10 : w.NumUniqueNodes + 1 > 2
  · rw [if_pos h10] at h
    by_cases h11 : con.bConvexOnly = true ∧ ¬ ((((w.Cell.AddNode (cl.GetNode w.To.Node).Index
        (cl.GetPos (cl.GetNode w.To.Node))).AddBounds (cl.GetPos (cl.GetNode w.To.Node))).DuplicateLeaf con
        (cl.GetNode w.To.Node)).CheckConvexLast cl).Data.bIsConvex = true
    · rw [if_pos h11] at h; injection h with hr _; subst hr; decide
    · rw [if_neg h11] at h; cases h
  · rw [if_neg h10] at h; cases h

/-- What a walk loop that is left through `Exit` looked like: either the loop condition failed at
once, or some state reached through completed iterations took the closing branch. -/
theorem WalkLoop_exit (M : FMathKernel) (con : FCellConstraints) (seed : FLink) (cl : FCluster)
    (pp : List FVector2D) (Inv : FWalk → Prop)
    (hstep : ∀ w w1, Inv w → LoopBody M con seed cl pp w = .Continue w1 → Inv w1) :
    ∀ (fuel : ℕ) (w wx : FWalk), Inv w → WalkLoop M con seed cl pp fuel w = some (.Exit wx) →
      (wx = w ∧ w.To.Node = -1) ∨
      ∃ w1, Inv w1 ∧ LoopBody M con seed cl pp w1 = .Exit wx := by
  intro fuel
  induction fuel with
  | zero => intro w wx _ h; simp [WalkLoop] at h
  | succ n ih =>
    intro w wx hinv h
    rw [WalkLoop] at h
    by_cases h0 : w.To.Node = -1
    · rw [if_pos h0] at h
      injection h with h; injection h with h
      exact Or.inl ⟨h.symm, h0⟩
    · rw [if_neg h0] at h
      cases hb : LoopBody M con seed cl pp w with
      | Continue w1 =>
        rw [hb] at h
        simp only at h
        rcases ih w1 wx (hstep w w1 hinv hb) h with ⟨_, h2⟩ | h2
        · exact absurd h2 (LoopBody_continue M con seed cl pp w w1 hb).2.2.2.2.2.1
        · exact Or.inr h2
      | Exit w1 =>
        rw [hb] at h
        simp only at h
        injection h with h; injection h with h
        subst h
        exact Or.inr ⟨w, hinv, hb⟩
      | Return r c =>
        rw [hb] at h
        simp only at h
        injection h with h; cases h

theorem WalkLoop_not_continue (M : FMathKernel) (con : FCellConstraints) (seed : FLink)
    (cl : FCluster) (pp : List FVector2D) :
    ∀ (fuel : ℕ) (w wx : FWalk), WalkLoop M con seed cl pp fuel w ≠ some (.Continue wx) := by
  intro fuel
  induction fuel with
  | zero => intro w wx h; simp [WalkLoop] at h
  | succ n ih =>
    intro w wx h
    rw [WalkLoop] at h
    by_cases h0 : w.To.Node = -1
    · rw [if_pos h0] at h; injection h with h; cases h
    · rw [if_neg h0] at h
      cases hb : LoopBody M con seed cl pp w with
      | Continue w1 => rw [hb] at h; exact ih w1 wx h
      | Exit w1 => rw [hb] at h; simp only at h; injection h with h; cases h
      | Return r c => rw [hb] at h; simp only at h; injection h with h; cases h

theorem WalkLoop_return_ne_success (M : FMathKernel) (con : FCellConstraints) (seed : FLink)
    (cl : FCluster) (pp : List FVector2D) :
    ∀ (fuel : ℕ) (w : FWalk) (r : ECellResult) (c : FCell),
      WalkLoop M con seed cl pp fuel w = some (.Return r c) → r ≠ .Success := by
  intro fuel
  induction fuel with
  | zero => intro w r c h; simp [WalkLoop] at h
  | succ n ih =>
    intro w r c h
    rw [WalkLoop] at h
    by_cases h0 : w.To.Node = -1
    · rw [if_pos h0] at h; injection h with h; cases h
    · rw [if_neg h0] at h
      cases hb : LoopBody M con seed cl pp w with
      | Continue w1 => rw [hb] at h; exact ih w1 r c h
      | Exit w1 => rw [hb] at h; simp only at h; injection h with h; cases h
      | Return r1 c1 =>
        rw [hb] at h; simp only at h
        injection h with h; injection h with h1 h2
        subst h1
        exact LoopBody_return_ne_success M con seed cl pp w r1 c1 hb

theorem HashedCell_Nodes (w : FWalk) : (HashedCell w).2.Nodes = ShiftArrayToSmallest w.Cell.Nodes := by
  unfold HashedCell FCell.GetCellHash
  split_ifs <;> rfl

/-- A `Success` of `BuildFromCluster`: the walk loop was left through `Exit` with more than two
counted nodes and the closed flag set, and the cell's nodes are the canonical rotation of the
walk's nodes or its reversal. -/
theorem BuildFromCluster_success (M : FMathKernel) (con : FCellConstraints) (cell : FCell)
    (s : FLink) (cl : FCluster) (pp : List FVector2D) (c : FCell) (con1 : FCellConstraints)
    (h : BuildFromCluster M con cell s cl pp = some (.Success, c, con1)) :
    ∃ w, WalkLoop M con s cl pp (2 * cl.Edges.length + 2) (BeginWalk con (ResetCell cell s) s cl)
        = some (.Exit w) ∧
      ¬ w.NumUniqueNodes ≤ 2 ∧ w.Cell.Data.bIsClosedLoop = true ∧
      (c.Nodes = ShiftArrayToSmallest w.Cell.Nodes ∨
       c.Nodes = (ShiftArrayToSmallest w.Cell.Nodes).reverse) := by
  by_cases hk : H64 s.Node (SeedTo cl s).Node ∈ con.UniqueStartHalfEdgesHash
  · rw [BuildFromCluster_start_duplicate _ _ _ _ _ _ hk] at h
    injection h with h; injection h with h _; cases h
  · rw [BuildFromCluster_start_unique _ _ _ _ _ _ hk] at h
    cases hw : WalkLoop M con s cl pp (2 * cl.Edges.length + 2) (BeginWalk con (ResetCell cell s) s cl) with
    | none => rw [hw] at h; cases h
    | some f =>
      cases f with
      | Continue w => exact absurd hw (WalkLoop_not_continue M con s cl pp _ _ w)
      | Return r c1 =>
        rw [hw] at h; simp only at h
        injection h with h; injection h with h _
        exact absurd h (WalkLoop_return_ne_success M con s cl pp _ _ r c1 hw)
      | Exit w =>
        rw [hw] at h; simp only at h
        injection h with h
        refine ⟨w, rfl, ?_⟩
        by_cases h1 : w.NumUniqueNodes ≤ 2
        · simp [CompleteCell, h1] at h
        by_cases h2 : w.Cell.Data.bIsClosedLoop = true
        swap
        · simp [CompleteCell, h1, h2] at h
        refine ⟨h1, h2, ?_⟩
        by_cases hP : (HashedCell w).1 ∈ (con.WithSets
            (insert (H64 s.Node (SeedTo cl s).Node) con.UniqueStartHalfEdgesHash)
            con.UniquePathsHashSet).UniquePathsHashSet
        · rw [CompleteCell_duplicate M _ cl pp w h1 h2 hP] at h
          injection h with h _; cases h
        · rw [CompleteCell_unique M _ cl pp w h1 h2 hP] at h
          injection h with _ h
          injection h with h _
          have := FinishCell_Nodes M (con.WithSets
            (insert (H64 s.Node (SeedTo cl s).Node) con.UniqueStartHalfEdgesHash)
            con.UniquePathsHashSet) cl pp
            w.NumUniqueNodes w.Metrics { (HashedCell w).2 with bBuiltSuccessfully := true }
          rw [h] at this
          simpa [HashedCell_Nodes] using this


/-! ## Doubled leaf entries -/

theorem LeafPaired_cons_nonleaf (cl : FCluster) (x : Int) (l : List Int)
    (hx : (cl.GetNode x).IsLeaf = false) : cl.LeafPaired (x :: l) = cl.LeafPaired l := by
  cases l with
  | nil => simp [FCluster.LeafPaired, hx]
  | cons y rest => simp [FCluster.LeafPaired, hx]

theorem LeafPaired_cons_leaf (cl : FCluster) (x : Int) (l : List Int)
    (hx : (cl.GetNode x).IsLeaf = true) :
    cl.LeafPaired (x :: l) = true ↔ ∃ rest, l = x :: rest ∧ cl.LeafPaired rest = true := by
  cases l with
  | nil => simp [FCluster.LeafPaired, hx]
  | cons y rest =>
    simp only [FCluster.LeafPaired, hx, if_true, Bool.and_eq_true, beq_iff_eq, List.cons.injEq]
    constructor
    · rintro ⟨h1, h2⟩; exact ⟨rest, ⟨h1.symm, rfl⟩, h2⟩
    · rintro ⟨r, ⟨h1, h2⟩, h3⟩; subst h2; exact ⟨h1.symm, h3⟩

theorem LeafPaired_append (cl : FCluster) : ∀ (n : ℕ) (l1 l2 : List Int), l1.length ≤ n →
    cl.LeafPaired l1 = true → cl.LeafPaired l2 = true → cl.LeafPaired (l1 ++ l2) = true := by
  intro n
  induction n with
  | zero =>
    intro l1 l2 hl h1 h2
    have : l1 = [] := List.length_eq_zero.mp (Nat.le_zero.mp hl)
    subst this; simpa using h2
  | succ n ih =>
    intro l1 l2 hl h1 h2
    cases l1 with
    | nil => simpa using h2
    | cons x t =>
      by_cases hx : (cl.GetNode x).IsLeaf = true
      · obtain ⟨rest, hr, hp⟩ := (LeafPaired_cons_leaf cl x t hx).mp h1
        subst hr
        rw [List.cons_append, LeafPaired_cons_leaf cl x _ hx]
        refine ⟨rest ++ l2, rfl, ih rest l2 ?_ hp h2⟩
        simp at hl; omega
      · have hx' : (cl.GetNode x).IsLeaf = false := by simpa using hx
        rw [LeafPaired_cons_nonleaf cl x t hx'] at h1
        rw [List.cons_append, LeafPaired_cons_nonleaf cl x _ hx']
        exact ih t l2 (by simp at hl; omega) h1 h2

theorem LeafPaired_split (cl : FCluster) (m : Int) (l2 : List Int) : ∀ (n : ℕ) (l1 : List Int),
    l1.length ≤ n → m ∉ l1 → cl.LeafPaired (l1 ++ m :: l2) = true →
    cl.LeafPaired l1 = true ∧ cl.LeafPaired (m :: l2) = true := by
  intro n
  induction n with
  | zero =>
    intro l1 hl _ h
    have : l1 = [] := List.length_eq_zero.mp (Nat.le_zero.mp hl)
    subst this; exact ⟨rfl, by simpa using h⟩
  | succ n ih =>
    intro l1 hl hm h
    cases l1 with
    | nil => exact ⟨rfl, by simpa using h⟩
    | cons x t =>
      have hxm : m ≠ x := fun e => hm (e ▸ List.mem_cons_self _ _)
      have hmt : m ∉ t := fun e => hm (List.mem_cons_of_mem _ e)
      by_cases hx : (cl.GetNode x).IsLeaf = true
      · rw [List.cons_append] at h
        obtain ⟨rest, hr, hp⟩ := (LeafPaired_cons_leaf cl x _ hx).mp h
        cases t with
        | nil => simp at hr; exact absurd hr.1 hxm
        | cons y t' =>
          simp only [List.cons_append, List.cons.injEq] at hr
          obtain ⟨hy, hrest⟩ := hr
          subst hy
          subst hrest
          have hmt' : m ∉ t' := fun e => hmt (List.mem_cons_of_mem _ e)
          obtain ⟨a, b⟩ := ih t' (by simp at hl; omega) hmt' hp
          refine ⟨?_, b⟩
          rw [LeafPaired_cons_leaf cl y _ hx]
          exact ⟨t', rfl, a⟩
      · have hx' : (cl.GetNode x).IsLeaf = false := by simpa using hx
        rw [List.cons_append, LeafPaired_cons_nonleaf cl x _ hx'] at h
        obtain ⟨a, b⟩ := ih t (by simp at hl; omega) hmt h
        exact ⟨by rw [LeafPaired_cons_nonleaf cl x _ hx']; exact a, b⟩

theorem LeafPaired_reverse (cl : FCluster) : ∀ (n : ℕ) (l : List Int), l.length ≤ n →
    cl.LeafPaired l = true → cl.LeafPaired l.reverse = true := by
  intro n
  induction n with
  | zero =>
    intro l hl _
    have : l = [] := List.length_eq_zero.mp (Nat.le_zero.mp hl)
    subst this; rfl
  | succ n ih =>
    intro l hl h
    cases l with
    | nil => rfl
    | cons x t =>
      by_cases hx : (cl.GetNode x).IsLeaf = true
      · obtain ⟨rest, hr, hp⟩ := (LeafPaired_cons_leaf cl x t hx).mp h
        subst hr
        have e : (x :: x :: rest).reverse = rest.reverse ++ [x, x] := by simp
        rw [e]
        refine LeafPaired_append cl _ _ _ (le_refl _) (ih rest (by simp at hl; omega) hp) ?_
        simp [FCluster.LeafPaired, hx]
      · have hx' : (cl.GetNode x).IsLeaf = false := by simpa using hx
        rw [LeafPaired_cons_nonleaf cl x t hx'] at h
        rw [List.reverse_cons]
        refine LeafPaired_append cl _ _ _ (le_refl _) (ih t (by simp at hl; omega) h) ?_
        simp [FCluster.LeafPaired, hx']

theorem PopClosing_reverse (r : List Int) :
    PopClosing r.reverse =
      (match r with
        | [] => []
        | [_] => []
        | a :: b :: rest => if a = b then rest else b :: rest).reverse := by
  match r with
  | [] => rfl
  | [a] => rfl
  | a :: b :: rest =>
    unfold PopClosing
    simp only [List.reverse_cons, List.append_assoc, List.singleton_append]
    have e1 : (rest.reverse ++ [b, a]).getLast? = some a := by
      rw [List.getLast?_append]; rfl
    have e2 : (rest.reverse ++ [b, a]).dropLast = rest.reverse ++ [b] := by
      rw [List.dropLast_append_of_ne_nil _ (by simp)]; rfl
    have e3 : (rest.reverse ++ [b]).getLast? = some b := by
      rw [List.getLast?_append]; rfl
    have e4 : (rest.reverse ++ [b]).dropLast = rest.reverse := by
      rw [List.dropLast_append_of_ne_nil _ (by simp)]; simp
    simp only [e1, e2, e3, e4, Option.some.injEq]
    split_ifs <;> simp

theorem LeafPaired_PopClosing (cl : FCluster) (l : List Int) (h : cl.LeafPaired l = true) :
    cl.LeafPaired (PopClosing l) = true := by
  have hr := LeafPaired_reverse cl _ l (le_refl _) h
  have e := PopClosing_reverse l.reverse
  rw [List.reverse_reverse] at e
  rw [e]
  apply LeafPaired_reverse cl _ _ (le_refl _)
  match hl : l.reverse, hr with
  | [], _ => rfl
  | [a], _ => rfl
  | a :: b :: rest, hr =>
    simp only
    by_cases hab : a = b
    · subst hab
      rw [if_pos rfl]
      by_cases ha : (cl.GetNode a).IsLeaf = true
      · obtain ⟨rest', hr', hp⟩ := (LeafPaired_cons_leaf cl a _ ha).mp hr
        simp at hr'; subst hr'; exact hp
      · have ha' : (cl.GetNode a).IsLeaf = false := by simpa using ha
        rw [LeafPaired_cons_nonleaf cl a _ ha', LeafPaired_cons_nonleaf cl a _ ha'] at hr
        exact hr
    · rw [if_neg hab]
      by_cases ha : (cl.GetNode a).IsLeaf = true
      · obtain ⟨rest', hr', hp⟩ := (LeafPaired_cons_leaf cl a _ ha).mp hr
        simp at hr'; exact absurd hr'.1.symm hab
      · have ha' : (cl.GetNode a).IsLeaf = false := by simpa using ha
        rw [LeafPaired_cons_nonleaf cl a _ ha'] at hr
        exact hr

theorem not_mem_take_indexOf (l : List Int) (m : Int) : m ∉ l.take (l.indexOf m) := by
  induction l with
  | nil => simp
  | cons x t ih =>
    by_cases hx : x = m
    · subst hx; simp
    · rw [List.indexOf_cons_ne _ hx, List.take_succ_cons]
      intro h
      rcases List.mem_cons.mp h with h | h
      · exact hx h.symm
      · exact ih h

theorem LeafPaired_Shift (cl : FCluster) (l : List Int) (h : cl.LeafPaired l = true) :
    cl.LeafPaired (ShiftArrayToSmallest l) = true := by
  unfold ShiftArrayToSmallest
  cases hm : l.min? with
  | none => exact h
  | some m =>
    simp only
    have hmem : m ∈ l := (int_min?_eq_some_iff.mp hm).1
    have hlt : l.indexOf m < l.length := List.indexOf_lt_length.mpr hmem
    rw [List.rotate_eq_drop_append_take hlt.le]
    have hd : l.drop (l.indexOf m) = m :: l.drop (l.indexOf m + 1) := by
      rw [List.drop_eq_getElem_cons hlt]; simp
    have hsplit : l = l.take (l.indexOf m) ++ m :: l.drop (l.indexOf m + 1) := by
      conv_lhs => rw [← List.take_append_drop (l.indexOf m) l, hd]
    have hnot : m ∉ l.take (l.indexOf m) := not_mem_take_indexOf l m
    rw [hsplit] at h
    obtain ⟨a, b⟩ := LeafPaired_split cl m _ _ _ (le_refl _) hnot h
    rw [hd]
    exact LeafPaired_append cl _ _ _ (le_refl _) b a


/-! ## Node lookup and the first state of the walk -/

theorem Get_eq_default_or_mem {α : Type} [Inhabited α] (l : List α) (i : Int) :
    Get l i = default ∨ (0 ≤ i ∧ ∃ h : i.toNat < l.length, Get l i = l[i.toNat]) := by
  unfold Get
  by_cases h0 : 0 ≤ i
  · rw [if_pos h0]
    by_cases h1 : i.toNat < l.length
    · right
      refine ⟨h0, h1, ?_⟩
      simp [List.getD_eq_getElem?_getD, List.getElem?_eq_getElem h1]
    · left
      simp [List.getD_eq_getElem?_getD, List.getElem?_eq_none (Nat.le_of_not_lt h1)]
  · rw [if_neg h0]; exact Or.inl rfl

/-- A node that has links is stored in the cluster, and under `IndexConsistent` carries the index
it was asked by. -/
theorem GetNode_of_links (cl : FCluster) (i : Int) (h : (cl.GetNode i).Links ≠ []) :
    cl.GetNode i ∈ cl.Nodes ∧ (cl.IndexConsistent → (cl.GetNode i).Index = i) := by
  unfold FCluster.GetNode at h ⊢
  rcases Get_eq_default_or_mem cl.Nodes i with hd | ⟨h0, h1, he⟩
  · rw [hd] at h; exact absurd rfl h
  · rw [he]
    refine ⟨List.getElem_mem _, fun hc => ?_⟩
    have := hc (i.toNat, cl.Nodes[i.toNat]) (by
      rw [List.mem_iff_getElem]
      exact ⟨i.toNat, by simpa using h1, by simp⟩)
    simp only at this
    rw [this]
    exact Int.toNat_of_nonneg h0

theorem GetNode_GetNode_Index (cl : FCluster) (hc : cl.IndexConsistent) (i : Int) :
    cl.GetNode (cl.GetNode i).Index = cl.GetNode i := by
  by_cases h : (cl.GetNode i).Links = []
  · unfold FCluster.GetNode at h ⊢
    rcases Get_eq_default_or_mem cl.Nodes i with hd | ⟨h0, h1, he⟩
    · rw [hd]; rfl
    · have := hc (i.toNat, cl.Nodes[i.toNat]) (by
        rw [List.mem_iff_getElem]
        exact ⟨i.toNat, by simpa using h1, by simp⟩)
      simp only at this
      rw [he, this, Int.toNat_of_nonneg h0]
      exact he
  · rw [(GetNode_of_links cl i h).2 hc]

theorem IsLeaf_links (n : FNode) (h : n.IsLeaf = true) : n.Links ≠ [] := by
  unfold FNode.IsLeaf at h
  intro e
  rw [e] at h
  simp at h

theorem LeafPaired_Appended (cl : FCluster) (hc : cl.IndexConsistent) (con : FCellConstraints)
    (hd : con.bDuplicateLeafPoints = true) (To : FLink) :
    cl.LeafPaired (Appended con cl To) = true := by
  unfold Appended
  have e := GetNode_GetNode_Index cl hc To.Node
  by_cases hl : (cl.GetNode To.Node).IsLeaf = true
  · rw [if_pos ⟨hl, hd⟩]
    simp [FCluster.LeafPaired, e, hl]
  · rw [if_neg (fun h => hl h.1)]
    simp [FCluster.LeafPaired, e, hl]

theorem BeginWalk_Nodes (con : FCellConstraints) (cell : FCell) (s : FLink) (cl : FCluster) :
    (BeginWalk con (ResetCell cell s) s cl).Cell.Nodes =
      cell.Nodes ++ (if (cl.GetNode s.Node).IsLeaf = true ∧ con.bDuplicateLeafPoints = true
        then [s.Node, s.Node] else [s.Node]) := by
  unfold BeginWalk ResetCell
  simp only
  split_ifs <;> rfl

theorem BeginWalk_fields (con : FCellConstraints) (cell : FCell) (s : FLink) (cl : FCluster) :
    (BeginWalk con (ResetCell cell s) s cl).From = s ∧
    (BeginWalk con (ResetCell cell s) s cl).To = SeedTo cl s ∧
    (BeginWalk con (ResetCell cell s) s cl).NumUniqueNodes = 1 ∧
    (BeginWalk con (ResetCell cell s) s cl).SignedEdges = ∅ :=
  ⟨rfl, rfl, rfl, rfl⟩

theorem SuccessNodes_some (M : FMathKernel) (con : FCellConstraints) (cell : FCell) (s : FLink)
    (cl : FCluster) (pp : List FVector2D) (Nodes : List Int)
    (h : SuccessNodes M con cell s cl pp = some Nodes) :
    ∃ c con1, BuildFromCluster M con cell s cl pp = some (.Success, c, con1) ∧ c.Nodes = Nodes := by
  unfold SuccessNodes at h
  split at h
  · rename_i c con1 hb
    injection h with h
    exact ⟨c, con1, hb, h⟩
  · cases h


/-! ## The square: the concrete scenario (C6) -/

/-- Moving an element that is not excluded from the excluded set into the set adds it to the
difference. -/
theorem card_insert_sdiff (A P : Finset ℕ) (a : ℕ) (h : a ∉ P) :
    ((insert a A) \ P).card = (A \ insert a P).card + 1 := by
  have : (insert a A) \ P = insert a (A \ insert a P) := by
    ext x; simp only [Finset.mem_sdiff, Finset.mem_insert]
    constructor
    · rintro ⟨h1 | h1, h2⟩
      · exact Or.inl h1
      · by_cases hx : x = a
        · exact Or.inl hx
        · exact Or.inr ⟨h1, by simp [hx, h2]⟩
    · rintro (h1 | ⟨h1, h2⟩)
      · subst h1; exact ⟨Or.inl rfl, h⟩
      · exact ⟨Or.inr h1, fun hp => h2 (Or.inr hp)⟩
  rw [this, Finset.card_insert_of_not_mem]
  simp

/-- C6: unit square, fresh default constraints, seed half-edge node 0 -> node 1:
`BuildFromCluster` returns `Success` with 4 nodes, `bIsConvex`, `bIsClosedLoop`, and `Area` equal to
the polygon's area, which is 1, scaled by 0.01. -/
theorem C6_unit_square_scenario :
    SeedTo SquareCluster ⟨0, 0⟩ = ⟨1, 0⟩ ∧
    (FPolygonInfos.Make RefMath SquarePositions).Area = 1 ∧
    (BuildFromCluster RefMath {} {} ⟨0, 0⟩ SquareCluster SquarePositions).map
        (fun r => (r.1, r.2.1.Nodes.length, r.2.1.Data.bIsConvex, r.2.1.Data.bIsClosedLoop, r.2.1.Data.Area)) =
      some (ECellResult.Success, 4, true, true,
        (FPolygonInfos.Make RefMath SquarePositions).Area * (1 / 100)) := by
  decide!

/-! ## Degenerate walks -/

/-- C2 (evaluation at the failing input): the outer face of the triangle with a leaf at node 0
passes node 0 twice; its node array `[0, 3, 0, 2, 1]` and the rotation by two canonicalise to
different arrays, and with shared default constraints the seeds `0 -> 3` and `0 -> 2`, both on
that face, both return `Success`: the second trace is not recognised as a duplicate. -/
theorem C2_canonical_form_depends_on_rotation :
    ShiftArrayToSmallest (([0, 3, 0, 2, 1] : List Int).rotate 2) ≠ ShiftArrayToSmallest [0, 3, 0, 2, 1] ∧
    TraceSeeds RefMath KiteCluster KitePositions {} [⟨0, 3⟩, ⟨0, 2⟩] =
      some [ECellResult.Success, ECellResult.Success] ∧
    (BuildFromCluster RefMath {} {} ⟨0, 3⟩ KiteCluster KitePositions).map (fun r => r.2.1.Nodes) =
      some [1, 2, 0, 3, 0] ∧
    (BuildFromCluster RefMath {} {} ⟨0, 2⟩ KiteCluster KitePositions).map (fun r => r.2.1.Nodes) =
      some [3, 0, 1, 2, 0] := by
  decide!

/-- C7 (evaluation at the failing input): on the single-edge cluster of two leaves with
`bKeepCellsWithLeaves = true` the walk closes with `NumUniqueNodes = 3` and two entries in `Nodes`.
With default limits the result is `OutsideCompactnessLimit`, not `Leaf`, and the cell is flagged
built; with the lower area and compactness limits at 0 the result is `Success` with
`Nodes = [0, 1]`. -/
theorem C7_two_leaves_not_rejected :
    (BuildFromCluster RefMath {} {} ⟨0, 0⟩ TwoLeafCluster TwoLeafPositions).map
        (fun r => (r.1, r.2.1.Nodes, r.2.1.bBuiltSuccessfully)) =
      some (ECellResult.OutsideCompactnessLimit, [0, 1], true) ∧
    (BuildFromCluster RefMath { MinArea := 0, MinCompactness := 0 } {} ⟨0, 0⟩ TwoLeafCluster
        TwoLeafPositions).map (fun r => (r.1, r.2.1.Nodes)) =
      some (ECellResult.Success, [0, 1]) := by
  decide!

/-- C8 (as stated, refuted): `DegenerateCluster` has consistent adjacency, and from the seed
half-edge node 0 -> node 1 with default constraints the trace returns `Success` with
`Nodes = [0, 1, 2, 0, 3, 4]`, which is not a closed walk: the last entry 4 and the first entry 0 are
not joined by an edge. -/
theorem C8_closed_walk_counterexample :
    DegenerateCluster.ConsistentAdjacency ∧ DegenerateCluster.IndexConsistent ∧
    DegenerateCluster.Adjacent 0 (SeedTo DegenerateCluster ⟨0, 0⟩).Node = true ∧
    (BuildFromCluster RefMath {} {} ⟨0, 0⟩ DegenerateCluster DegeneratePositions).map
        (fun r => (r.1, r.2.1.Nodes)) = some (ECellResult.Success, [0, 1, 2, 0, 3, 4]) ∧
    DegenerateCluster.IsClosedWalk [0, 1, 2, 0, 3, 4] = false ∧
    DegenerateCluster.Joined 4 0 = false := by
  decide!

/-- C9 (as stated, refuted): on `DegenerateCluster` with `bKeepCellsWithLeaves = false`, the seed
half-edge node 0 -> node 5, whose edge leads to the leaf 5, returns `Success` with the leaf 5 among
its nodes. -/
theorem C9_leaf_counterexample :
    (DegenerateCluster.GetNode 5).IsLeaf = true ∧
    (BuildFromCluster RefMath { bKeepCellsWithLeaves := false } {} ⟨0, 6⟩ DegenerateCluster
        DegeneratePositions).map (fun r => (r.1, r.2.1.Nodes)) =
      some (ECellResult.Success, [0, 5, 0, 1, 2, 0, 3, 4]) := by
  decide!

/-! ## Leaves and closed walks of a successful build -/

theorem PopClosing_subset (l : List Int) : ∀ x ∈ PopClosing l, x ∈ l := by
  intro x hx
  unfold PopClosing at hx
  simp only at hx
  split at hx
  · exact List.mem_of_mem_dropLast hx
  · split_ifs at hx
    · exact List.mem_of_mem_dropLast (List.mem_of_mem_dropLast hx)
    · exact List.mem_of_mem_dropLast hx

theorem ShiftArrayToSmallest_mem (l : List Int) (x : Int) (h : x ∈ ShiftArrayToSmallest l) : x ∈ l := by
  unfold ShiftArrayToSmallest at h
  split at h
  · exact h
  · exact List.mem_rotate.mp h

/-- With `bKeepCellsWithLeaves = false`, every leaf met by the walk of a `Success` is an endpoint
of the seed half-edge. -/
theorem Success_leaves (M : FMathKernel) (con : FCellConstraints) (s : FLink)
    (cl : FCluster) (pp : List FVector2D) (Nodes : List Int)
    (hc : cl.IndexConsistent) (hk : con.bKeepCellsWithLeaves = false)
    (h : SuccessNodes M con {} s cl pp = some Nodes) :
    ∀ x ∈ Nodes, (cl.GetNode x).IsLeaf = true → x = s.Node ∨ x = (SeedTo cl s).Node := by
  obtain ⟨c, con1, hb, hcn⟩ := SuccessNodes_some M con {} s cl pp Nodes h
  obtain ⟨w, hw, _, _, hn⟩ := BuildFromCluster_success M con {} s cl pp c con1 hb
  let Inv : FWalk → Prop := fun w =>
    (∀ x ∈ w.Cell.Nodes, (cl.GetNode x).IsLeaf = true → x = s.Node ∨ x = (SeedTo cl s).Node) ∧
    (w.To = SeedTo cl s ∨ (cl.GetNode w.To.Node).IsLeaf = false)
  have hinv0 : Inv (BeginWalk con (ResetCell {} s) s cl) := by
    refine ⟨?_, Or.inl rfl⟩
    intro x hx _
    rw [BeginWalk_Nodes] at hx
    left
    split_ifs at hx <;> simp at hx <;> exact hx
  have hstep : ∀ w w1, Inv w → LoopBody M con s cl pp w = .Continue w1 → Inv w1 := by
    intro w w1 hi hb
    obtain ⟨_, _, hN, _, _, _, hleaf, _, _, _⟩ := LoopBody_continue M con s cl pp w w1 hb
    refine ⟨?_, Or.inr ?_⟩
    · intro x hx hl
      rw [hN] at hx
      rcases List.mem_append.mp hx with hx | hx
      · exact hi.1 x hx hl
      · have hxe : x = (cl.GetNode w.To.Node).Index := by
          unfold Appended at hx
          split_ifs at hx <;> simp at hx <;> exact hx
        rw [hxe, GetNode_GetNode_Index cl hc] at hl
        rcases hi.2 with h2 | h2
        · right
          rw [hxe, h2]
          rw [h2] at hl
          exact (GetNode_of_links cl _ (IsLeaf_links _ hl)).2 hc
        · rw [h2] at hl; cases hl
    · have : ¬ (cl.GetNode w1.To.Node).Num = 1 := fun e => hleaf ⟨e, by simp [hk]⟩
      unfold FNode.IsLeaf
      unfold FNode.Num at this
      simp only [decide_eq_false_iff_not]
      intro e; apply this; rw [e]; rfl
  have hw' : ∀ x ∈ w.Cell.Nodes, (cl.GetNode x).IsLeaf = true → x = s.Node ∨ x = (SeedTo cl s).Node := by
    rcases WalkLoop_exit M con s cl pp Inv hstep _ _ w hinv0 hw with ⟨h1, _⟩ | ⟨w1, h1, h2⟩
    · rw [h1]; exact hinv0.1
    · rw [(LoopBody_exit M con s cl pp w1 w h2).2.2]
      intro x hx
      exact h1.1 x (PopClosing_subset _ x hx)
  intro x hx
  rw [← hcn] at hx
  rcases hn with hn | hn
  · rw [hn] at hx
    exact hw' x (ShiftArrayToSmallest_mem _ x hx)
  · rw [hn] at hx
    exact hw' x (ShiftArrayToSmallest_mem _ x (List.mem_reverse.mp hx))

theorem JoinedChain_iff (cl : FCluster) : ∀ (l : List Int) (a : Int),
    cl.JoinedChain a l = true ↔ List.Chain (fun x y => cl.Joined x y = true) a l := by
  intro l
  induction l with
  | nil => intro a; simp [FCluster.JoinedChain]
  | cons b t ih =>
    intro a
    simp only [FCluster.JoinedChain, Bool.and_eq_true, List.chain_cons, ih]

theorem IsClosedWalk_iff (cl : FCluster) (l : List Int) :
    cl.IsClosedWalk l = true ↔ Cycle.Chain (fun x y => cl.Joined x y = true) (l : Cycle Int) := by
  cases l with
  | nil => simp [FCluster.IsClosedWalk]
  | cons a t =>
    rw [Cycle.chain_coe_cons]
    simp only [FCluster.IsClosedWalk]
    exact JoinedChain_iff cl _ _

theorem Adjacent_symm (cl : FCluster) (a b : Int) : cl.Adjacent a b = cl.Adjacent b a := by
  unfold FCluster.Adjacent
  congr 1
  funext e
  exact Bool.or_comm _ _

theorem Joined_symm (cl : FCluster) (a b : Int) (h : cl.Joined a b = true) : cl.Joined b a = true := by
  unfold FCluster.Joined at h ⊢
  rw [Adjacent_symm cl b a]
  simp only [Bool.or_eq_true, Bool.and_eq_true, beq_iff_eq] at h ⊢
  rcases h with h | ⟨h1, h2⟩
  · exact Or.inl h
  · subst h1; exact Or.inr ⟨rfl, h2⟩

theorem IsClosedWalk_rotate (cl : FCluster) (l : List Int) (k : ℕ) (h : cl.IsClosedWalk l = true) :
    cl.IsClosedWalk (l.rotate k) = true := by
  rw [IsClosedWalk_iff] at h ⊢
  have : ((l.rotate k : List Int) : Cycle Int) = (l : Cycle Int) :=
    Cycle.coe_eq_coe.mpr (List.IsRotated.forall l k)
  rw [this]; exact h

theorem IsClosedWalk_Shift (cl : FCluster) (l : List Int) (h : cl.IsClosedWalk l = true) :
    cl.IsClosedWalk (ShiftArrayToSmallest l) = true := by
  unfold ShiftArrayToSmallest
  split
  · exact h
  · exact IsClosedWalk_rotate cl l _ h

theorem IsClosedWalk_reverse (cl : FCluster) (l : List Int) (h : cl.IsClosedWalk l = true) :
    cl.IsClosedWalk l.reverse = true := by
  cases l with
  | nil => exact h
  | cons a t =>
    have h1 : List.Chain' (fun x y => cl.Joined x y = true) (a :: (t ++ [a])) := by
      simp only [FCluster.IsClosedWalk] at h
      exact (JoinedChain_iff cl _ _).mp h
    have h2 : List.Chain' (flip (fun x y => cl.Joined x y = true)) (a :: (t ++ [a])) :=
      h1.imp (fun x y hxy => Joined_symm cl x y hxy)
    have h3 := List.chain'_reverse.mpr h2
    have e : (a :: (t ++ [a])).reverse = a :: (t.reverse ++ [a]) := by simp
    rw [e] at h3
    rw [IsClosedWalk_iff]
    have hr : (((a :: t).reverse : List Int) : Cycle Int) = ((a :: t.reverse : List Int) : Cycle Int) := by
      rw [List.reverse_cons]
      exact Cycle.coe_eq_coe.mpr List.isRotated_append
    rw [hr, Cycle.chain_coe_cons]
    exact h3

/-- A chain that starts at `s` and whose last entry is joined to `s` is a closed walk. -/
theorem IsClosedWalk_of_chain (cl : FCluster) (l : List Int) (s z : Int)
    (hch : List.Chain' (fun x y => cl.Joined x y = true) l) (hh : l.head? = some s)
    (hl : l.getLast? = some z) (hj : cl.Joined z s = true) : cl.IsClosedWalk l = true := by
  cases l with
  | nil => rfl
  | cons a t =>
    simp only [List.head?_cons, Option.some.injEq] at hh
    subst hh
    simp only [FCluster.IsClosedWalk]
    rw [JoinedChain_iff]
    have : List.Chain' (fun x y => cl.Joined x y = true) ((a :: t) ++ [a]) := by
      refine List.Chain'.append hch (List.chain'_singleton _) ?_
      intro x hx y hy
      rw [hl] at hx
      simp only [Option.mem_def, Option.some.injEq, List.head?_cons] at hx hy
      subst hx; subst hy
      exact hj
    exact this

/-- The closing pops applied to a chain from `s` back to `s` leave a closed walk. -/
theorem IsClosedWalk_PopClosing (cl : FCluster) (l : List Int) (s : Int)
    (hch : List.Chain' (fun x y => cl.Joined x y = true) l) (hh : l.head? = some s)
    (hl : l.getLast? = some s) : cl.IsClosedWalk (PopClosing l) = true := by
  have e := PopClosing_reverse l.reverse
  rw [List.reverse_reverse] at e
  rw [e]
  have hch' : List.Chain' (fun x y => cl.Joined x y = true) l.reverse.reverse := by
    rw [List.reverse_reverse]; exact hch
  have hh' : l.reverse.reverse.head? = some s := by rw [List.reverse_reverse]; exact hh
  have hl' : l.reverse.head? = some s := by rw [List.head?_reverse]; exact hl
  clear e
  match hr : l.reverse, hch', hh', hl' with
  | [], _, _, _ => rfl
  | [a], _, _, _ => rfl
  | a :: b :: rest, hch', hh', hl' =>
    simp only [List.head?_cons, Option.some.injEq] at hl'
    subst hl'
    simp only [List.reverse_cons, List.append_assoc, List.singleton_append] at hch' hh'
    -- hch' : Chain' (rest.reverse ++ [b, a])
    have hsplit := (@List.chain'_split _ _ b rest.reverse [a]).mp hch'
    have hba : cl.Joined b a = true := by
      have := hsplit.2
      simpa using this
    have hchb : List.Chain' (fun x y => cl.Joined x y = true) (rest.reverse ++ [b]) := hsplit.1
    have key : ∀ (R : List Int) (c : Int) (tl : List Int), (R ++ c :: tl).head? = (R ++ [c]).head? := by
      intro R c tl; cases R <;> simp
    simp only
    by_cases hab : a = b
    · subst hab
      rw [if_pos rfl]
      cases rest with
      | nil => rfl
      | cons c rest2 =>
        simp only [List.reverse_cons, List.append_assoc, List.singleton_append] at hchb hh' ⊢
        have hsplit2 := (@List.chain'_split _ _ c rest2.reverse [a]).mp hchb
        have hca : cl.Joined c a = true := by simpa using hsplit2.2
        rw [key] at hh'
        exact IsClosedWalk_of_chain cl _ a c hsplit2.1 hh' (by simp) hca
    · rw [if_neg hab]
      have e2 : (b :: rest).reverse = rest.reverse ++ [b] := by simp
      rw [e2]
      rw [key] at hh'
      exact IsClosedWalk_of_chain cl _ a b hchb hh' (by simp) hba

theorem Get_of_bounds {α : Type} [Inhabited α] (l : List α) (i : Int) (h0 : 0 ≤ i)
    (h1 : i.toNat < l.length) : Get l i = l[i.toNat] := by
  unfold Get
  rw [if_pos h0]
  simp [List.getD_eq_getElem?_getD, List.getElem?_eq_getElem h1]

theorem Adjacent_of_link (cl : FCluster) (ha : cl.ConsistentAdjacency) (i : Int) (Lk : FLink)
    (h : Lk ∈ (cl.GetNode i).Links) : cl.Adjacent i Lk.Node = true := by
  have hne : (cl.GetNode i).Links ≠ [] := List.ne_nil_of_mem h
  obtain ⟨h0, h1, h2⟩ := ha _ (GetNode_of_links cl i hne).1 Lk h
  unfold FCluster.Adjacent
  rw [List.any_eq_true]
  refine ⟨cl.GetEdge Lk.Edge, ?_, ?_⟩
  · unfold FCluster.GetEdge
    have hlt : Lk.Edge.toNat < cl.Edges.length := by omega
    rw [Get_of_bounds cl.Edges Lk.Edge h0 hlt]
    exact List.getElem_mem _
  · rcases h2 with ⟨e1, e2⟩ | ⟨e1, e2⟩
    · simp [e1, e2]
    · simp [e1, e2]

/-- C8 (amended): for every cluster with consistent node indices and consistent adjacency, every
seed half-edge whose node is joined by an edge to the far end found for its edge, and every
projected-position table and numeric kernel: if `BuildFromCluster` on a fresh cell returns
`Success` and the walk closed at the seed (the repeated half-edge of the closing branch leaves the
seed node, as when the seed half-edge comes round again), then `Nodes` is a closed walk of the
graph: cyclically consecutive entries are the endpoints of an edge or the two copies of a
duplicated leaf. -/
theorem C8_closed_walk (M : FMathKernel) (con : FCellConstraints) (s : FLink)
    (cl : FCluster) (pp : List FVector2D) (Nodes : List Int)
    (hc : cl.IndexConsistent) (ha : cl.ConsistentAdjacency)
    (hs : cl.Adjacent s.Node (SeedTo cl s).Node = true)
    (hcl : ClosesAtSeed M con {} s cl pp = true)
    (h : SuccessNodes M con {} s cl pp = some Nodes) :
    cl.IsClosedWalk Nodes = true := by
  obtain ⟨c, con1, hb, hcn⟩ := SuccessNodes_some M con {} s cl pp Nodes h
  obtain ⟨w, hw, hNU, _, hn⟩ := BuildFromCluster_success M con {} s cl pp c con1 hb
  have hfrom : w.From.Node = s.Node := by
    unfold ClosesAtSeed at hcl
    rw [hw] at hcl
    simpa using hcl
  let Inv : FWalk → Prop := fun w =>
    List.Chain' (fun x y => cl.Joined x y = true) w.Cell.Nodes ∧
    w.Cell.Nodes.head? = some s.Node ∧
    w.Cell.Nodes.getLast? = some w.From.Node ∧
    cl.Adjacent w.From.Node w.To.Node = true
  have hinv0 : Inv (BeginWalk con (ResetCell {} s) s cl) := by
    refine ⟨?_, ?_, ?_, hs⟩
    · rw [BeginWalk_Nodes]
      split_ifs with hl
      · simp [FCluster.Joined, hl.1]
      · simp
    · rw [BeginWalk_Nodes]
      split_ifs <;> rfl
    · rw [BeginWalk_Nodes]
      split_ifs <;> rfl
  have hstep : ∀ w w1, Inv w → LoopBody M con s cl pp w = .Continue w1 → Inv w1 := by
    intro w w1 hi hb
    obtain ⟨_, _, hN, hF, hT, hT1, _, _, _, _⟩ := LoopBody_continue M con s cl pp w w1 hb
    have hmem : w1.To ∈ (cl.GetNode w.To.Node).Links := by
      rw [hT]; rw [hT] at hT1; exact NextLink_mem M cl pp w.From w.To hT1
    have hidx : (cl.GetNode w.To.Node).Index = w.To.Node :=
      (GetNode_of_links cl _ (List.ne_nil_of_mem hmem)).2 hc
    have hApp : Appended con cl w.To =
        if (cl.GetNode w.To.Node).IsLeaf = true ∧ con.bDuplicateLeafPoints = true
        then [w.To.Node, w.To.Node] else [w.To.Node] := by
      unfold Appended; rw [hidx]
    obtain ⟨h1, h2, h3, h4⟩ := hi
    have hjoin : cl.Joined w.From.Node w.To.Node = true := by
      unfold FCluster.Joined; rw [h4]; rfl
    refine ⟨?_, ?_, ?_, ?_⟩
    · rw [hN, hApp]
      refine List.Chain'.append h1 ?_ ?_
      · split_ifs with hl
        · simp [FCluster.Joined, hl.1]
        · simp
      · intro x hx y hy
        rw [h3] at hx
        simp only [Option.mem_def, Option.some.injEq] at hx
        subst hx
        have : y = w.To.Node := by
          split_ifs at hy <;> simp at hy <;> exact hy.symm
        rw [this]; exact hjoin
    · rw [hN]
      have hne : w.Cell.Nodes ≠ [] := by
        intro e; rw [e] at h2; cases h2
      rw [List.head?_append_of_ne_nil _ hne]; exact h2
    · rw [hN, hApp, hF]
      split_ifs <;> simp
    · rw [hF]
      exact Adjacent_of_link cl ha _ _ hmem
  have hw' : cl.IsClosedWalk w.Cell.Nodes = true := by
    rcases WalkLoop_exit M con s cl pp Inv hstep _ _ w hinv0 hw with ⟨h1, _⟩ | ⟨w1, h1, h2⟩
    · exfalso
      rw [h1] at hNU
      exact hNU (by rw [(BeginWalk_fields con {} s cl).2.2.1]; decide)
    · have he := (LoopBody_exit M con s cl pp w1 w h2).2.2
      have hf1 : w1.From.Node = s.Node := by rw [he] at hfrom; exact hfrom
      rw [he]
      obtain ⟨a1, a2, a3, _⟩ := h1
      rw [hf1] at a3
      exact IsClosedWalk_PopClosing cl _ s.Node a1 a2 a3
  rw [← hcn]
  rcases hn with hn | hn
  · rw [hn]; exact IsClosedWalk_Shift cl _ hw'
  · rw [hn]; exact IsClosedWalk_reverse cl _ (IsClosedWalk_Shift cl _ hw')

/-- C8 witness: the triangle with a leaf at node 0, seed half-edge node 0 -> leaf 3: the outer
face, dead end included, is a closed walk. -/
theorem C8_closed_walk_witness :
    KiteCluster.IndexConsistent ∧ KiteCluster.ConsistentAdjacency ∧
    KiteCluster.Adjacent 0 (SeedTo KiteCluster ⟨0, 3⟩).Node = true ∧
    ClosesAtSeed RefMath {} {} ⟨0, 3⟩ KiteCluster KitePositions = true ∧
    SuccessNodes RefMath {} {} ⟨0, 3⟩ KiteCluster KitePositions = some [1, 2, 0, 3, 0] ∧
    KiteCluster.IsClosedWalk [1, 2, 0, 3, 0] = true :=
  ⟨by decide, by decide, by decide, by decide!, by decide!,
    C8_closed_walk RefMath {} ⟨0, 3⟩ KiteCluster KitePositions [1, 2, 0, 3, 0]
      (by decide) (by decide) (by decide) (by decide!) (by decide!)⟩

/-- C9 (amended): with `bKeepCellsWithLeaves = false`, in a cluster with consistent node indices,
every leaf among the `Nodes` of a `Success` (fresh cell) is an endpoint of the seed half-edge (the
seed node or the far end of the seed edge): every node the walk chooses is checked
and is no leaf; and each of the 6 seeds of the star with one centre and 3 leaves returns `Leaf`. -/
theorem C9_leaf_policy (M : FMathKernel) (con : FCellConstraints) (s : FLink)
    (cl : FCluster) (pp : List FVector2D) (Nodes : List Int)
    (hc : cl.IndexConsistent) (hk : con.bKeepCellsWithLeaves = false)
    (h : SuccessNodes M con {} s cl pp = some Nodes) :
    (∀ x ∈ Nodes, (cl.GetNode x).IsLeaf = true → x = s.Node ∨ x = (SeedTo cl s).Node) ∧
    (∀ t ∈ StarSeeds,
      (BuildFromCluster RefMath { bKeepCellsWithLeaves := false } {} t StarCluster StarPositions).map
        (fun r => r.1) = some ECellResult.Leaf) :=
  ⟨Success_leaves M con s cl pp Nodes hc hk h, by decide!⟩

/-- C9 witness: `DegenerateCluster`, seed half-edge node 0 -> leaf 5: the only leaf of the cell is
the far end of the seed edge. -/
theorem C9_leaf_policy_witness :
    DegenerateCluster.IndexConsistent ∧
    SuccessNodes RefMath { bKeepCellsWithLeaves := false } {} ⟨0, 6⟩ DegenerateCluster
      DegeneratePositions = some [0, 5, 0, 1, 2, 0, 3, 4] ∧
    ((∀ x ∈ ([0, 5, 0, 1, 2, 0, 3, 4] : List Int), (DegenerateCluster.GetNode x).IsLeaf = true →
        x = (⟨0, 6⟩ : FLink).Node ∨ x = (SeedTo DegenerateCluster ⟨0, 6⟩).Node) ∧
     (∀ t ∈ StarSeeds,
      (BuildFromCluster RefMath { bKeepCellsWithLeaves := false } {} t StarCluster StarPositions).map
        (fun r => r.1) = some ECellResult.Leaf)) :=
  ⟨by decide, by decide!,
    C9_leaf_policy RefMath { bKeepCellsWithLeaves := false } ⟨0, 6⟩ DegenerateCluster
      DegeneratePositions [0, 5, 0, 1, 2, 0, 3, 4] (by decide) rfl (by decide!)⟩

/-- C10: with `bKeepCellsWithLeaves = true` and `bDuplicateLeafPoints = true`, in every cell for
which `BuildFromCluster` (on a fresh cell, in a cluster with consistent node indices) returns
`Success`, `Nodes` parses into single non-leaf entries and doubled leaf entries: each visit of a
leaf is two consecutive equal entries; this covers a leaf seed and survives the closing pops, the
rotation to the smallest index and the winding reversal. -/
theorem C10_leaf_entries_doubled (M : FMathKernel) (con : FCellConstraints) (s : FLink)
    (cl : FCluster) (pp : List FVector2D) (Nodes : List Int)
    (hc : cl.IndexConsistent)
    (_hk : con.bKeepCellsWithLeaves = true) (hd : con.bDuplicateLeafPoints = true)
    (h : SuccessNodes M con {} s cl pp = some Nodes) :
    cl.LeafPaired Nodes = true := by
  obtain ⟨c, con1, hb, hcn⟩ := SuccessNodes_some M con {} s cl pp Nodes h
  obtain ⟨w, hw, _, _, hn⟩ := BuildFromCluster_success M con {} s cl pp c con1 hb
  rw [← hcn]
  have hinv0 : cl.LeafPaired (BeginWalk con (ResetCell {} s) s cl).Cell.Nodes = true := by
    rw [BeginWalk_Nodes]
    by_cases hl : (cl.GetNode s.Node).IsLeaf = true
    · simp [FCluster.LeafPaired, hl, hd]
    · simp [FCluster.LeafPaired, hl]
  have hstep : ∀ w w1, cl.LeafPaired w.Cell.Nodes = true →
      LoopBody M con s cl pp w = .Continue w1 → cl.LeafPaired w1.Cell.Nodes = true := by
    intro w w1 hi hb
    rw [(LoopBody_continue M con s cl pp w w1 hb).2.2.1]
    exact LeafPaired_append cl _ _ _ (le_refl _) hi (LeafPaired_Appended cl hc con hd w.To)
  have hw' : cl.LeafPaired w.Cell.Nodes = true := by
    rcases WalkLoop_exit M con s cl pp (fun w => cl.LeafPaired w.Cell.Nodes = true) hstep _ _ w hinv0 hw
      with ⟨h1, _⟩ | ⟨w1, h1, h2⟩
    · rw [h1]; exact hinv0
    · rw [(LoopBody_exit M con s cl pp w1 w h2).2.2]
      exact LeafPaired_PopClosing cl _ h1
  have hs := LeafPaired_Shift cl _ hw'
  rcases hn with hn | hn
  · rw [hn]; exact hs
  · rw [hn]; exact LeafPaired_reverse cl _ _ (le_refl _) hs

/-- C10 witness: the triangle with a leaf at node 0 and `bDuplicateLeafPoints = true`, seeded at
the leaf (node 3 -> node 0): the leaf is stored twice in a row. -/
theorem C10_leaf_entries_doubled_witness :
    KiteCluster.IndexConsistent ∧
    SuccessNodes RefMath { bDuplicateLeafPoints := true } {} ⟨3, 3⟩ KiteCluster KitePositions =
      some [3, 3, 0, 1, 2, 0] ∧
    KiteCluster.LeafPaired [3, 3, 0, 1, 2, 0] = true :=
  ⟨by decide, by decide!,
    C10_leaf_entries_doubled RefMath { bDuplicateLeafPoints := true } ⟨3, 3⟩ KiteCluster KitePositions
      [3, 3, 0, 1, 2, 0] (by decide) rfl rfl (by decide!)⟩

/-! ## Point limits, aspect filter, wrapper classification, centroid -/

/-- The point-count test of one iteration (source line 291): what `LoopBody` returns when the
iteration appends a node, the segment is allowed and the count exceeds `MaxPointCount`. -/
theorem LoopBody_points_limit (M : FMathKernel) (con : FCellConstraints) (seed : FLink)
    (cl : FCluster) (pp : List FVector2D) (w : FWalk)
    (ha : w.AppendsNode cl) (hs : w.SegmentAllowed M con cl)
    (hn : w.NumUniqueNodes + 1 > con.MaxPointCount) :
    LoopBody M con seed cl pp w = .Return .OutsidePointsLimit
      (w.Cell.AddNode (cl.GetNode w.To.Node).Index (cl.GetPos (cl.GetNode w.To.Node))) := by
  unfold LoopBody
  simp only
  rw [if_neg ha.1, if_neg ha.2, if_neg hs.1, if_neg hs.2, if_pos hn]

/-- Which tests a returned result code of one iteration comes from. -/
theorem LoopBody_return_reason (M : FMathKernel) (con : FCellConstraints) (seed : FLink)
    (cl : FCluster) (pp : List FVector2D) (w : FWalk) (r : ECellResult) (c : FCell)
    (h : LoopBody M con seed cl pp w = .Return r c) :
    (r = .OutsidePointsLimit → w.AppendsNode cl ∧ w.SegmentAllowed M con cl ∧
      w.NumUniqueNodes + 1 > con.MaxPointCount) ∧
    (r = .OutsideBoundsLimit → ¬ (w.NumUniqueNodes + 1 > con.MaxPointCount) ∧
      FVector.Length M c.Data.Bounds.GetSize > con.MaxBoundsSize) ∧
    r ≠ .WrapperCell ∧ r ≠ .Success := by
  unfold LoopBody at h
  simp only at h
  by_cases h1 : (w.SignedEdges.card : Int) > (cl.Edges.length : Int) * 2
  · rw [if_pos h1] at h; injection h with hr _; subst hr; simp
  rw [if_neg h1] at h
  by_cases h2 : H64 w.From.Node w.To.Node ∈ w.SignedEdges
  · rw [if_pos h2] at h
    by_cases h3 : w.To.Edge = seed.Edge ∨ w.To.Node = seed.Node
    · rw [if_pos h3] at h; cases h
    · rw [if_neg h3] at h; injection h with hr _; subst hr; simp
  rw [if_neg h2] at h
  by_cases h4 : (FPathMetrics.Add M w.Metrics (cl.GetPos (cl.GetNode w.To.Node))).2.Length > con.MaxPerimeter
  · rw [if_pos h4] at h; injection h with hr _; subst hr; simp
  rw [if_neg h4] at h
  by_cases h5 : (FPathMetrics.Add M w.Metrics (cl.GetPos (cl.GetNode w.To.Node))).1 < con.MinSegmentLength ∨
      (FPathMetrics.Add M w.Metrics (cl.GetPos (cl.GetNode w.To.Node))).1 > con.MaxSegmentLength
  · rw [if_pos h5] at h; injection h with hr _; subst hr; simp
  rw [if_neg h5] at h
  by_cases h6 : w.NumUniqueNodes + 1 > con.MaxPointCount
  · rw [if_pos h6] at h; injection h with hr _; subst hr
    exact ⟨fun _ => ⟨⟨h1, h2⟩, ⟨h4, h5⟩, h6⟩, by simp, by simp, by simp⟩
  rw [if_neg h6] at h
  by_cases h7 : FVector.Length M
      ((w.Cell.AddNode (cl.GetNode w.To.Node).Index (cl.GetPos (cl.GetNode w.To.Node))).AddBounds
        (cl.GetPos (cl.GetNode w.To.Node))).Data.Bounds.GetSize > con.MaxBoundsSize
  · rw [if_pos h7] at h; injection h with hr hc; subst hr; subst hc
    exact ⟨by simp, fun _ => ⟨h6, h7⟩, by simp, by simp⟩
  rw [if_neg h7] at h
  by_cases h8 : (NextLink M cl pp w.From w.To).Node = -1
  · rw [if_pos h8] at h; injection h with hr _; subst hr; simp
  rw [if_neg h8] at h
  by_cases h9 : (cl.GetNode (NextLink M cl pp w.From w.To).Node).Num = 1 ∧ ¬ con.bKeepCellsWithLeaves = true
  · rw [if_pos h9] at h; injection h with hr _; subst hr; simp
  rw [if_neg h9, if_neg h6] at h
  by_cases h10 : w.NumUniqueNodes + 1 > 2
  · rw [if_pos h10] at h
    by_cases h11 : con.bConvexOnly = true ∧ ¬ ((((w.Cell.AddNode (cl.GetNode w.To.Node).Index
        (cl.GetPos (cl.GetNode w.To.Node))).AddBounds (cl.GetPos (cl.GetNode w.To.Node))).DuplicateLeaf con
        (cl.GetNode w.To.Node)).CheckConvexLast cl).Data.bIsConvex = true
    · rw [if_pos h11] at h; injection h with hr _; subst hr; simp
    · rw [if_neg h11] at h; cases h
  · rw [if_neg h10] at h; cases h

/-- A completed iteration leaves the count within `MaxPointCount`. -/
theorem LoopBody_continue_count (M : FMathKernel) (con : FCellConstraints) (seed : FLink)
    (cl : FCluster) (pp : List FVector2D) (w w1 : FWalk)
    (h : LoopBody M con seed cl pp w = .Continue w1) :
    w1.NumUniqueNodes ≤ con.MaxPointCount ∧ w1.NumUniqueNodes = w.NumUniqueNodes + 1 := by
  have hc := (LoopBody_continue M con seed cl pp w w1 h).2.2.2.2.2.2.2.1
  refine ⟨?_, hc⟩
  by_contra hgt
  have hn : w.NumUniqueNodes + 1 > con.MaxPointCount := by omega
  have h1 := (LoopBody_continue M con seed cl pp w w1 h).1
  have h2 := (LoopBody_continue M con seed cl pp w w1 h).2.1
  unfold LoopBody at h
  simp only at h
  rw [if_neg h2, if_neg h1] at h
  by_cases h4 : (FPathMetrics.Add M w.Metrics (cl.GetPos (cl.GetNode w.To.Node))).2.Length > con.MaxPerimeter
  · rw [if_pos h4] at h; cases h
  rw [if_neg h4] at h
  by_cases h5 : (FPathMetrics.Add M w.Metrics (cl.GetPos (cl.GetNode w.To.Node))).1 < con.MinSegmentLength ∨
      (FPathMetrics.Add M w.Metrics (cl.GetPos (cl.GetNode w.To.Node))).1 > con.MaxSegmentLength
  · rw [if_pos h5] at h; cases h
  rw [if_neg h5, if_pos hn] at h
  cases h

/-- The count of a walk that led to `Success` is within `MaxPointCount`. -/
theorem Success_count (M : FMathKernel) (con : FCellConstraints) (cell : FCell)
    (s : FLink) (cl : FCluster) (pp : List FVector2D) (c : FCell) (con1 : FCellConstraints)
    (h : BuildFromCluster M con cell s cl pp = some (.Success, c, con1)) :
    ∃ n, WalkCount M con cell s cl pp = some n ∧ 2 < n ∧ n ≤ con.MaxPointCount := by
  obtain ⟨w, hw, h2, _, _⟩ := BuildFromCluster_success M con cell s cl pp c con1 h
  refine ⟨w.NumUniqueNodes, ?_, by omega, ?_⟩
  · unfold WalkCount
    rw [hw]
  · have hx := WalkLoop_exit M con s cl pp
      (fun w => w.NumUniqueNodes ≤ con.MaxPointCount ∨ w.NumUniqueNodes ≤ 1)
      (fun w w1 _ hb => Or.inl (LoopBody_continue_count M con s cl pp w w1 hb).1)
      _ _ w (Or.inr (by rw [(BeginWalk_fields con cell s cl).2.2.1])) hw
    rcases hx with ⟨he, _⟩ | ⟨w1, hi, hb⟩
    · rw [he, (BeginWalk_fields con cell s cl).2.2.1] at h2
      omega
    · have := (LoopBody_exit M con s cl pp w1 w hb).2.2
      rw [this] at h2 ⊢
      simp only at h2 ⊢
      rcases hi with hi | hi
      · exact hi
      · omega

/-- C11, amended: with `MaxPointCount = m`, an iteration of the walk that appends a node beyond
the `m`-th (the fail-safe is quiet, the half-edge is new) and whose segment passes the perimeter
and segment-length tests, which come first, returns `OutsidePointsLimit`, and so does the walk
loop entered in that state; that code is returned by an iteration only for this reason, the second
point-count test of the iteration (which would answer `OutsideBoundsLimit`) is never the one that
fires, no iteration continues with more than `m` counted nodes, and a `Success` comes from a walk
that counted at most `m` nodes.  On the 4-node square with `m = 3` the build returns
`OutsidePointsLimit`. -/
theorem C11_points_limit (M : FMathKernel) (con : FCellConstraints) (s : FLink)
    (cl : FCluster) (pp : List FVector2D) :
    (∀ w : FWalk, w.AppendsNode cl → w.SegmentAllowed M con cl →
      w.NumUniqueNodes + 1 > con.MaxPointCount →
      LoopBody M con s cl pp w = .Return .OutsidePointsLimit
        (w.Cell.AddNode (cl.GetNode w.To.Node).Index (cl.GetPos (cl.GetNode w.To.Node)))) ∧
    (∀ (fuel : ℕ) (w : FWalk), w.To.Node ≠ -1 → w.AppendsNode cl → w.SegmentAllowed M con cl →
      w.NumUniqueNodes + 1 > con.MaxPointCount →
      WalkLoop M con s cl pp (fuel + 1) w = some (.Return .OutsidePointsLimit
        (w.Cell.AddNode (cl.GetNode w.To.Node).Index (cl.GetPos (cl.GetNode w.To.Node))))) ∧
    (∀ (w : FWalk) (r : ECellResult) (c : FCell), LoopBody M con s cl pp w = .Return r c →
      (r = .OutsidePointsLimit → w.AppendsNode cl ∧ w.SegmentAllowed M con cl ∧
        w.NumUniqueNodes + 1 > con.MaxPointCount) ∧
      (r = .OutsideBoundsLimit → ¬ (w.NumUniqueNodes + 1 > con.MaxPointCount) ∧
        FVector.Length M c.Data.Bounds.GetSize > con.MaxBoundsSize)) ∧
    (∀ w w1 : FWalk, LoopBody M con s cl pp w = .Continue w1 →
      w1.NumUniqueNodes ≤ con.MaxPointCount) ∧
    (∀ (cell c : FCell) (con1 : FCellConstraints),
      BuildFromCluster M con cell s cl pp = some (.Success, c, con1) →
      ∃ n, WalkCount M con cell s cl pp = some n ∧ n ≤ con.MaxPointCount) ∧
    (BuildFromCluster RefMath { MaxPointCount := 3 } {} ⟨0, 0⟩ SquareCluster SquarePositions).map
      (fun r => (r.1, r.2.1.Nodes)) = some (ECellResult.OutsidePointsLimit, [0, 1, 2, 3]) := by
  refine ⟨fun w ha hs hn => LoopBody_points_limit M con s cl pp w ha hs hn, ?_, ?_, ?_, ?_, by decide!⟩
  · intro fuel w h0 ha hs hn
    rw [WalkLoop, if_neg h0, LoopBody_points_limit M con s cl pp w ha hs hn]
  · intro w r c h
    exact ⟨(LoopBody_return_reason M con s cl pp w r c h).1,
      (LoopBody_return_reason M con s cl pp w r c h).2.1⟩
  · intro w w1 h
    exact (LoopBody_continue_count M con s cl pp w w1 h).1
  · intro cell c con1 h
    obtain ⟨n, h1, _, h3⟩ := Success_count M con cell s cl pp c con1 h
    exact ⟨n, h1, h3⟩

/-- What the last checks of `BuildFromCluster` establish when they end in `Success` or
`WrapperCell`: the aspect and minimum-count tests passed, the convexity flag is the one of the walk,
and `WrapperCell` is answered exactly when a wrapper cell is set, the tolerance is positive and the
scaled area is within the tolerance of the wrapper's area. -/
theorem FinishCell_final (M : FMathKernel) (con : FCellConstraints) (cl : FCluster)
    (pp : List FVector2D) (n : Int) (m : FPathMetrics) (c : FCell)
    (hr : (FinishCell M con cl pp n m c).1 = .Success ∨ (FinishCell M con cl pp n m c).1 = .WrapperCell) :
    ¬ (con.bConcaveOnly = true ∧ c.Data.bIsConvex = true) ∧ ¬ (n < con.MinPointCount) ∧
    (FinishCell M con cl pp n m c).2.1.Data.bIsConvex = c.Data.bIsConvex ∧
    ((FinishCell M con cl pp n m c).1 = .WrapperCell ↔
      ∃ W, con.WrapperCell = some W ∧ con.WrapperClassificationTolerance > 0 ∧
        |(FinishCell M con cl pp n m c).2.1.Data.Area - W.Data.Area| ≤ con.WrapperClassificationTolerance) := by
  unfold FinishCell at hr ⊢
  simp only at hr ⊢
  by_cases h1 : con.MinSegmentLength > FVector.Dist M
      (cl.GetPos (cl.GetNode (Get (c.Finalize n m).Nodes 0)))
      (cl.GetPos (cl.GetNode (LastN (c.Finalize n m).Nodes 0))) ∨
      FVector.Dist M
      (cl.GetPos (cl.GetNode (Get (c.Finalize n m).Nodes 0)))
      (cl.GetPos (cl.GetNode (LastN (c.Finalize n m).Nodes 0))) > con.MaxSegmentLength
  · rw [if_pos h1] at hr; simp at hr
  rw [if_neg h1] at hr ⊢
  by_cases h2 : (c.Finalize n m).Data.Perimeter < con.MinPerimeter ∨
      (c.Finalize n m).Data.Perimeter > con.MaxPerimeter
  · rw [if_pos h2] at hr; simp at hr
  rw [if_neg h2] at hr ⊢
  by_cases h3 : con.bConcaveOnly = true ∧ (c.Finalize n m).Data.bIsConvex = true
  · rw [if_pos h3] at hr; simp at hr
  rw [if_neg h3] at hr ⊢
  by_cases h4 : n < con.MinPointCount
  · rw [if_pos h4] at hr; simp at hr
  rw [if_neg h4] at hr ⊢
  by_cases h5 : FVector.Length M (c.Finalize n m).Data.Bounds.GetSize < con.MinBoundsSize
  · rw [if_pos h5] at hr; simp at hr
  rw [if_neg h5] at hr ⊢
  by_cases h6 : (CheckHoles M con.Holes (((c.Finalize n m).Orient con.Winding
      ((c.Finalize n m).Vertices cl pp)
      (FPolygonInfos.Make M ((c.Finalize n m).Vertices cl pp))).Polygon)).1 = true
  · rw [if_pos h6] at hr; simp at hr
  rw [if_neg h6] at hr ⊢
  by_cases h7 : con.MinCompactness > ((c.Finalize n m).Orient con.Winding
      ((c.Finalize n m).Vertices cl pp)
      (FPolygonInfos.Make M ((c.Finalize n m).Vertices cl pp))).Data.Compactness ∨
      ((c.Finalize n m).Orient con.Winding
      ((c.Finalize n m).Vertices cl pp)
      (FPolygonInfos.Make M ((c.Finalize n m).Vertices cl pp))).Data.Compactness > con.MaxCompactness
  · rw [if_pos h7] at hr; simp at hr
  rw [if_neg h7] at hr ⊢
  by_cases h8 : con.MinArea > ((c.Finalize n m).Orient con.Winding
      ((c.Finalize n m).Vertices cl pp)
      (FPolygonInfos.Make M ((c.Finalize n m).Vertices cl pp))).ScaleArea.Data.Area ∨
      ((c.Finalize n m).Orient con.Winding
      ((c.Finalize n m).Vertices cl pp)
      (FPolygonInfos.Make M ((c.Finalize n m).Vertices cl pp))).ScaleArea.Data.Area > con.MaxArea
  · rw [if_pos h8] at hr; simp at hr
  rw [if_neg h8] at hr ⊢
  refine ⟨h3, h4, ?_, ?_⟩
  · cases hW : con.WrapperCell with
    | none => rfl
    | some W =>
      simp only
      split_ifs <;> rfl
  · cases hW : con.WrapperCell with
    | none => simp
    | some W =>
      simp only [Option.some.injEq, exists_eq_left']
      by_cases h9 : con.WrapperClassificationTolerance > 0 ∧
          IsNearlyEqual ((c.Finalize n m).Orient con.Winding
            ((c.Finalize n m).Vertices cl pp)
            (FPolygonInfos.Make M ((c.Finalize n m).Vertices cl pp))).ScaleArea.Data.Area
            W.Data.Area con.WrapperClassificationTolerance = true
      · rw [if_pos h9]
        simp only [true_iff]
        refine ⟨h9.1, ?_⟩
        simpa [IsNearlyEqual] using h9.2
      · rw [if_neg h9]
        simp only [reduceCtorEq, false_iff]
        intro hc
        apply h9
        refine ⟨hc.1, ?_⟩
        simpa [IsNearlyEqual] using hc.2

/-- A result code returned from inside the walk loop is returned by one of its iterations. -/
theorem WalkLoop_return (M : FMathKernel) (con : FCellConstraints) (seed : FLink)
    (cl : FCluster) (pp : List FVector2D) :
    ∀ (fuel : ℕ) (w : FWalk) (r : ECellResult) (c : FCell),
      WalkLoop M con seed cl pp fuel w = some (.Return r c) →
      ∃ w1, LoopBody M con seed cl pp w1 = .Return r c := by
  intro fuel
  induction fuel with
  | zero => intro w r c h; simp [WalkLoop] at h
  | succ n ih =>
    intro w r c h
    rw [WalkLoop] at h
    by_cases h0 : w.To.Node = -1
    · rw [if_pos h0] at h; injection h with h; cases h
    · rw [if_neg h0] at h
      cases hb : LoopBody M con seed cl pp w with
      | Continue w1 => rw [hb] at h; exact ih w1 r c h
      | Exit w1 => rw [hb] at h; simp only at h; injection h with h; cases h
      | Return r1 c1 =>
        rw [hb] at h; simp only at h
        injection h with h; injection h with h1 h2
        subst h1; subst h2
        exact ⟨w, hb⟩

/-- A build that ends in `Success` or `WrapperCell` left the walk loop through its exit, closed and
with more than two counted nodes, and its result and cell are those of the last checks on the
canonical cell. -/
theorem BuildFromCluster_finished (M : FMathKernel) (con : FCellConstraints) (cell : FCell)
    (s : FLink) (cl : FCluster) (pp : List FVector2D) (r : ECellResult) (c : FCell)
    (con1 : FCellConstraints)
    (h : BuildFromCluster M con cell s cl pp = some (r, c, con1))
    (hr : r = .Success ∨ r = .WrapperCell) :
    ∃ w, WalkLoop M con s cl pp (2 * cl.Edges.length + 2) (BeginWalk con (ResetCell cell s) s cl)
        = some (.Exit w) ∧
      ¬ w.NumUniqueNodes ≤ 2 ∧ w.Cell.Data.bIsClosedLoop = true ∧
      (FinishCell M con cl pp w.NumUniqueNodes w.Metrics
        { (HashedCell w).2 with bBuiltSuccessfully := true }).1 = r ∧
      (FinishCell M con cl pp w.NumUniqueNodes w.Metrics
        { (HashedCell w).2 with bBuiltSuccessfully := true }).2.1 = c := by
  by_cases hk : H64 s.Node (SeedTo cl s).Node ∈ con.UniqueStartHalfEdgesHash
  · rw [BuildFromCluster_start_duplicate _ _ _ _ _ _ hk] at h
    injection h with h; injection h with h _; subst h
    rcases hr with hr | hr <;> cases hr
  · rw [BuildFromCluster_start_unique _ _ _ _ _ _ hk] at h
    cases hw : WalkLoop M con s cl pp (2 * cl.Edges.length + 2) (BeginWalk con (ResetCell cell s) s cl) with
    | none => rw [hw] at h; cases h
    | some f =>
      cases f with
      | Continue w => exact absurd hw (WalkLoop_not_continue M con s cl pp _ _ w)
      | Return r1 c1 =>
        rw [hw] at h; simp only at h
        injection h with h; injection h with h _
        subst h
        obtain ⟨w1, hb⟩ := WalkLoop_return M con s cl pp _ _ r1 c1 hw
        have := LoopBody_return_reason M con s cl pp w1 r1 c1 hb
        rcases hr with hr | hr
        · exact absurd hr this.2.2.2
        · exact absurd hr this.2.2.1
      | Exit w =>
        rw [hw] at h; simp only at h
        injection h with h
        refine ⟨w, rfl, ?_⟩
        by_cases h1 : w.NumUniqueNodes ≤ 2
        · simp only [CompleteCell, h1, if_true] at h
          injection h with h _; subst h
          rcases hr with hr | hr <;> cases hr
        by_cases h2 : w.Cell.Data.bIsClosedLoop = true
        swap
        · simp only [CompleteCell, h1, h2, if_false, not_false_eq_true, if_true] at h
          injection h with h _; subst h
          rcases hr with hr | hr <;> cases hr
        refine ⟨h1, h2, ?_⟩
        by_cases hP : (HashedCell w).1 ∈ (con.WithSets
            (insert (H64 s.Node (SeedTo cl s).Node) con.UniqueStartHalfEdgesHash)
            con.UniquePathsHashSet).UniquePathsHashSet
        · rw [CompleteCell_duplicate M _ cl pp w h1 h2 hP] at h
          injection h with h _; subst h
          rcases hr with hr | hr <;> cases hr
        · rw [CompleteCell_unique M _ cl pp w h1 h2 hP] at h
          injection h with hA h
          injection h with hB _
          rw [FinishCell_WithSets] at hA hB
          exact ⟨hA, hB⟩

/-- The convexity flag is not touched when a node is appended. -/
theorem Cell3_convex (c : FCell) (con : FCellConstraints) (n : FNode) (i : Int) (RP : FVector) :
    (((c.AddNode i RP).AddBounds RP).DuplicateLeaf con n).Data.bIsConvex = c.Data.bIsConvex := by
  unfold FCell.DuplicateLeaf FCell.AddBounds FCell.AddNode
  split_ifs <;> rfl

/-- With `bConvexOnly` set, a completed iteration that started with the convexity flag set leaves
it set. -/
theorem LoopBody_continue_convex (M : FMathKernel) (con : FCellConstraints) (seed : FLink)
    (cl : FCluster) (pp : List FVector2D) (w w1 : FWalk) (hc : con.bConvexOnly = true)
    (hw : w.Cell.Data.bIsConvex = true)
    (h : LoopBody M con seed cl pp w = .Continue w1) : w1.Cell.Data.bIsConvex = true := by
  unfold LoopBody at h
  simp only at h
  by_cases h1 : (w.SignedEdges.card : Int) > (cl.Edges.length : Int) * 2
  · rw [if_pos h1] at h; cases h
  rw [if_neg h1] at h
  by_cases h2 : H64 w.From.Node w.To.Node ∈ w.SignedEdges
  · rw [if_pos h2] at h
    by_cases h3 : w.To.Edge = seed.Edge ∨ w.To.Node = seed.Node
    · rw [if_pos h3] at h; cases h
    · rw [if_neg h3] at h; cases h
  rw [if_neg h2] at h
  by_cases h4 : (FPathMetrics.Add M w.Metrics (cl.GetPos (cl.GetNode w.To.Node))).2.Length > con.MaxPerimeter
  · rw [if_pos h4] at h; cases h
  rw [if_neg h4] at h
  by_cases h5 : (FPathMetrics.Add M w.Metrics (cl.GetPos (cl.GetNode w.To.Node))).1 < con.MinSegmentLength ∨
      (FPathMetrics.Add M w.Metrics (cl.GetPos (cl.GetNode w.To.Node))).1 > con.MaxSegmentLength
  · rw [if_pos h5] at h; cases h
  rw [if_neg h5] at h
  by_cases h6 : w.NumUniqueNodes + 1 > con.MaxPointCount
  · rw [if_pos h6] at h; cases h
  rw [if_neg h6] at h
  by_cases h7 : FVector.Length M
      ((w.Cell.AddNode (cl.GetNode w.To.Node).Index (cl.GetPos (cl.GetNode w.To.Node))).AddBounds
        (cl.GetPos (cl.GetNode w.To.Node))).Data.Bounds.GetSize > con.MaxBoundsSize
  · rw [if_pos h7] at h; cases h
  rw [if_neg h7] at h
  by_cases h8 : (NextLink M cl pp w.From w.To).Node = -1
  · rw [if_pos h8] at h; cases h
  rw [if_neg h8] at h
  by_cases h9 : (cl.GetNode (NextLink M cl pp w.From w.To).Node).Num = 1 ∧ ¬ con.bKeepCellsWithLeaves = true
  · rw [if_pos h9] at h; cases h
  rw [if_neg h9, if_neg h6] at h
  by_cases h10 : w.NumUniqueNodes + 1 > 2
  · rw [if_pos h10] at h
    by_cases h11 : con.bConvexOnly = true ∧ ¬ ((((w.Cell.AddNode (cl.GetNode w.To.Node).Index
        (cl.GetPos (cl.GetNode w.To.Node))).AddBounds (cl.GetPos (cl.GetNode w.To.Node))).DuplicateLeaf con
        (cl.GetNode w.To.Node)).CheckConvexLast cl).Data.bIsConvex = true
    · rw [if_pos h11] at h; cases h
    · rw [if_neg h11] at h
      injection h with h
      subst h
      simp only
      by_contra hx
      exact h11 ⟨hc, hx⟩
  · rw [if_neg h10] at h
    injection h with h
    subst h
    simp only [Cell3_convex]
    exact hw

/-- With `bConvexOnly` set and a cell created fresh (its convexity flag set), the walk that leads
to `Success` or `WrapperCell` ends with the flag set. -/
theorem Walk_convex (M : FMathKernel) (con : FCellConstraints) (cell : FCell)
    (s : FLink) (cl : FCluster) (pp : List FVector2D) (w : FWalk)
    (hc : con.bConvexOnly = true) (hf : cell.Data.bIsConvex = true)
    (hw : WalkLoop M con s cl pp (2 * cl.Edges.length + 2) (BeginWalk con (ResetCell cell s) s cl)
        = some (.Exit w)) : w.Cell.Data.bIsConvex = true := by
  have h0 : (BeginWalk con (ResetCell cell s) s cl).Cell.Data.bIsConvex = true := hf
  have hx := WalkLoop_exit M con s cl pp (fun w => w.Cell.Data.bIsConvex = true)
    (fun w w1 hi hb => LoopBody_continue_convex M con s cl pp w w1 hc hi hb) _ _ w h0 hw
  rcases hx with ⟨he, _⟩ | ⟨w1, hi, hb⟩
  · rw [he]; exact h0
  · rw [(LoopBody_exit M con s cl pp w1 w hb).2.2]
    exact hi

/-- The canonical cell keeps the derived geometry of the walk. -/
theorem HashedCell_Data (w : FWalk) : (HashedCell w).2.Data = w.Cell.Data := by
  unfold HashedCell FCell.GetCellHash
  split_ifs <;> rfl

/-- C12 (evaluation at the failing input): the triangle is a closed face with 3 nodes and is
`Success` on default limits, its walk counting `NumUniqueNodes = 4` (the closing re-visit of the
seed node is counted).  With `MaxPointCount = 3` it is omitted with `OutsidePointsLimit`; with
`MinPointCount = 4` it is kept. -/
theorem C12_point_count_off_by_one :
    (BuildFromCluster RefMath {} {} ⟨0, 0⟩ TriangleCluster TrianglePositions).map
        (fun r => (r.1, r.2.1.Nodes)) = some (ECellResult.Success, [0, 1, 2]) ∧
    (BuildFromCluster RefMath { MaxPointCount := 3 } {} ⟨0, 0⟩ TriangleCluster TrianglePositions).map
        (fun r => r.1) = some ECellResult.OutsidePointsLimit ∧
    (BuildFromCluster RefMath { MinPointCount := 4 } {} ⟨0, 0⟩ TriangleCluster TrianglePositions).map
        (fun r => (r.1, r.2.1.Nodes)) = some (ECellResult.Success, [0, 1, 2]) ∧
    WalkCount RefMath {} {} ⟨0, 0⟩ TriangleCluster TrianglePositions = some 4 := by
  decide!

/-- C13: for a cell created fresh (convexity flag set) and every kernel, constraints, seed and
cluster: when `BuildFromCluster` returns `Success` with convexity flag `b`, then `bConvexOnly`
implies `b = true`, `bConcaveOnly` implies `b = false`, and the two flags are not both set (with
both set no trace returns `Success`). -/
theorem C13_aspect_filter (M : FMathKernel) (con : FCellConstraints) (cell : FCell) (s : FLink)
    (cl : FCluster) (pp : List FVector2D) (b : Bool) (hf : cell.Data.bIsConvex = true)
    (h : (BuildFromCluster M con cell s cl pp).map (fun r => (r.1, r.2.1.Data.bIsConvex)) =
      some (ECellResult.Success, b)) :
    (con.bConvexOnly = true → b = true) ∧ (con.bConcaveOnly = true → b = false) ∧
    ¬ (con.bConvexOnly = true ∧ con.bConcaveOnly = true) := by
  obtain ⟨⟨r, c, con1⟩, hb, hx⟩ := Option.map_eq_some'.mp h
  simp only [Prod.mk.injEq] at hx
  obtain ⟨hr, hcb⟩ := hx
  subst hr
  obtain ⟨w, hw, _, _, hF, hC⟩ := BuildFromCluster_finished M con cell s cl pp _ c con1 hb (Or.inl rfl)
  have hfin := FinishCell_final M con cl pp w.NumUniqueNodes w.Metrics
    { (HashedCell w).2 with bBuiltSuccessfully := true } (Or.inl hF)
  have hconv : b = w.Cell.Data.bIsConvex := by
    rw [← hcb, ← hC, hfin.2.2.1]
    simp only [HashedCell_Data]
  have hwalk : con.bConvexOnly = true → w.Cell.Data.bIsConvex = true :=
    fun hc => Walk_convex M con cell s cl pp w hc hf hw
  have hconc : con.bConcaveOnly = true → w.Cell.Data.bIsConvex = false := by
    intro hc
    have := hfin.1
    simp only [HashedCell_Data] at this
    cases hv : w.Cell.Data.bIsConvex with
    | false => rfl
    | true => exact absurd ⟨hc, hv⟩ this
  refine ⟨fun hc => by rw [hconv]; exact hwalk hc, fun hc => by rw [hconv]; exact hconc hc, ?_⟩
  rintro ⟨h1, h2⟩
  have a := hwalk h1
  have b := hconc h2
  rw [a] at b
  cases b

/-- C13 witness: the concave quadrilateral under `bConcaveOnly` is `Success` with the flag clear. -/
theorem C13_aspect_filter_witness :
    (({} : FCell).Data.bIsConvex = true) ∧
    (BuildFromCluster RefMath { bConcaveOnly := true } {} ⟨0, 0⟩ ConcaveCluster ConcavePositions).map
      (fun r => (r.1, r.2.1.Data.bIsConvex)) = some (ECellResult.Success, false) ∧
    (((({ bConcaveOnly := true } : FCellConstraints).bConvexOnly = true → false = true) ∧
     (({ bConcaveOnly := true } : FCellConstraints).bConcaveOnly = true → false = false) ∧
     ¬ (({ bConcaveOnly := true } : FCellConstraints).bConvexOnly = true ∧
        ({ bConcaveOnly := true } : FCellConstraints).bConcaveOnly = true))) :=
  ⟨rfl, by decide!,
    C13_aspect_filter RefMath { bConcaveOnly := true } {} ⟨0, 0⟩ ConcaveCluster ConcavePositions false
      rfl (by decide!)⟩

/-- C14 (as stated, refuted): a wrapper cell of area 0.01 is set and the tolerance is 0; the unit
square passes all checks with the scaled area 0.01, exactly the wrapper's area, and the build
returns `Success`, not `WrapperCell`. -/
theorem C14_zero_tolerance_counterexample :
    (BuildFromCluster RefMath
        { WrapperCell := some { Data := { Area := 1 / 100 } }, WrapperClassificationTolerance := 0 }
        {} ⟨0, 0⟩ SquareCluster SquarePositions).map
      (fun r => (r.1, decide (|r.2.1.Data.Area - 1 / 100| ≤ 0))) = some (ECellResult.Success, true) := by
  decide!

/-- C14 (amended): when a wrapper cell `W` is set, a build that passes all earlier checks (its
result is `Success` or `WrapperCell`) with scaled area `A` returns `WrapperCell` exactly when the
tolerance is positive and `|A - W.Area|` is at most the tolerance; with a tolerance that is not
positive the wrapper test is skipped. -/
theorem C14_wrapper_classification (M : FMathKernel) (con : FCellConstraints) (cell : FCell)
    (s : FLink) (cl : FCluster) (pp : List FVector2D) (W : FCell) (r : ECellResult) (A : ℚ)
    (hW : con.WrapperCell = some W)
    (h : (BuildFromCluster M con cell s cl pp).map (fun x => (x.1, x.2.1.Data.Area)) = some (r, A))
    (hr : r = .Success ∨ r = .WrapperCell) :
    r = .WrapperCell ↔
      (con.WrapperClassificationTolerance > 0 ∧ |A - W.Data.Area| ≤ con.WrapperClassificationTolerance) := by
  obtain ⟨⟨r1, c, con1⟩, hb, hx⟩ := Option.map_eq_some'.mp h
  simp only [Prod.mk.injEq] at hx
  obtain ⟨hr1, hA⟩ := hx
  subst hr1
  obtain ⟨w, _, _, _, hF, hC⟩ := BuildFromCluster_finished M con cell s cl pp _ c con1 hb hr
  have hfin := (FinishCell_final M con cl pp w.NumUniqueNodes w.Metrics
    { (HashedCell w).2 with bBuiltSuccessfully := true } (by rw [hF]; exact hr)).2.2.2
  rw [hF, hC, hA] at hfin
  rw [hfin]
  constructor
  · rintro ⟨W1, h1, h2⟩
    rw [hW] at h1
    injection h1 with h1
    subst h1
    exact h2
  · intro h2
    exact ⟨W, hW, h2⟩

/-- C14 witness: the unit square against a wrapper of the same area with tolerance 0.001. -/
theorem C14_wrapper_classification_witness :
    (BuildFromCluster RefMath
        { WrapperCell := some { Data := { Area := 1 / 100 } }, WrapperClassificationTolerance := 1 / 1000 }
        {} ⟨0, 0⟩ SquareCluster SquarePositions).map (fun x => (x.1, x.2.1.Data.Area)) =
      some (ECellResult.WrapperCell, 1 / 100) ∧
    (ECellResult.WrapperCell = ECellResult.WrapperCell ↔
      ((1 / 1000 : ℚ) > 0 ∧ |(1 / 100 : ℚ) - 1 / 100| ≤ 1 / 1000)) :=
  ⟨by decide!,
    C14_wrapper_classification RefMath
      { WrapperCell := some { Data := { Area := 1 / 100 } }, WrapperClassificationTolerance := 1 / 1000 }
      {} ⟨0, 0⟩ SquareCluster SquarePositions { Data := { Area := 1 / 100 } } .WrapperCell (1 / 100)
      rfl (by decide!) (Or.inr rfl)⟩

/-- C15 (evaluation at the failing input): the unit square from the seed node 0 -> node 1 is
`Success` with `Nodes = [0, 1, 2, 3]` and `Centroid = (2/5, 2/5, 0)`, while the average of the
positions of its four nodes is `(1/2, 1/2, 0)`: the position of the re-visited seed node is summed
a second time and the sum divided by `NumUniqueNodes = 5`. -/
theorem C15_centroid_counts_closing_node :
    (BuildFromCluster RefMath {} {} ⟨0, 0⟩ SquareCluster SquarePositions).map
        (fun r => (r.1, r.2.1.Nodes, r.2.1.Data.Centroid)) =
      some (ECellResult.Success, [0, 1, 2, 3], ⟨2 / 5, 2 / 5, 0⟩) ∧
    FVector.DivScalar
      (([0, 1, 2, 3] : List Int).foldl
        (fun acc n => acc + SquareCluster.GetPos (SquareCluster.GetNode n)) ⟨0, 0, 0⟩) 4 =
      ⟨1 / 2, 1 / 2, 0⟩ ∧
    WalkCount RefMath {} {} ⟨0, 0⟩ SquareCluster SquarePositions = some 5 := by
  decide!

/-! ## Triangulation -/

/-- Fixing the winding exchanges vertices only. -/
theorem FixWinding_VtxSet (T : FTriangle) (Positions : List FVector) :
    (T.FixWinding Positions).VtxSet = T.VtxSet := by
  unfold FTriangle.FixWinding FTriangle.VtxSet
  simp only
  split_ifs
  · simp only
    ext x
    simp only [Finset.mem_insert, Finset.mem_singleton]
    tauto
  · rfl

/-- Marking does not change the point index of any node. -/
theorem SetValid_PointIndex (cl : FCluster) (i k : Int) :
    ((cl.SetValid i).GetNode k).PointIndex = (cl.GetNode k).PointIndex := by
  unfold FCluster.SetValid
  split_ifs with h
  · unfold FCluster.GetNode Get
    simp only
    by_cases hk : 0 ≤ k
    · simp only [hk, if_true, h.1]
      rw [List.getD_eq_getElem?_getD, List.getD_eq_getElem?_getD, List.getElem?_set]
      by_cases e : i.toNat = k.toNat
      · have hl : i.toNat < cl.Nodes.length := by omega
        simp only [e, if_true]
        rw [← e]
        simp [hl]
      · simp [e]
    · simp [hk]
  · rfl

theorem MarkTriangle_PointIndex (cl : FCluster) (T : FTriangle) (k : Int) :
    ((MarkTriangle cl T).GetNode k).PointIndex = (cl.GetNode k).PointIndex := by
  unfold MarkTriangle
  rw [SetValid_PointIndex, SetValid_PointIndex, SetValid_PointIndex]

theorem EmitTriangle_eq (b : Bool) (Cell : FCell) (pos : List FVector) (cl : FCluster)
    (st : List FTriangle × FCluster) (i : Int)
    (h : ∀ k, (st.2.GetNode k).PointIndex = (cl.GetNode k).PointIndex) :
    (EmitTriangle b Cell pos st i).1 = st.1 ++ [FanTriangle Cell pos cl i] ∧
    ∀ k, ((EmitTriangle b Cell pos st i).2.GetNode k).PointIndex = (cl.GetNode k).PointIndex := by
  unfold EmitTriangle FanTriangle
  simp only [h]
  refine ⟨trivial, ?_⟩
  intro k
  cases b
  · simpa using h k
  · simp only [if_true]
    rw [MarkTriangle_PointIndex]
    exact h k

theorem Fan_foldl (b : Bool) (Cell : FCell) (pos : List FVector) (cl : FCluster) :
    ∀ (L : List Nat) (st : List FTriangle × FCluster),
      (∀ k, (st.2.GetNode k).PointIndex = (cl.GetNode k).PointIndex) →
      (L.foldl (fun (st : List FTriangle × FCluster) (i : Nat) => EmitTriangle b Cell pos st (i : Int)) st).1 =
        st.1 ++ L.map (fun (i : Nat) => FanTriangle Cell pos cl (i : Int)) := by
  intro L
  induction L with
  | nil => intro st _; simp
  | cons a t ih =>
    intro st h
    simp only [List.foldl_cons, List.map_cons]
    have e := EmitTriangle_eq b Cell pos cl st (a : Int) h
    rw [ih _ e.2, e.1]
    simp

/-- C16: for every cell that is built, convex and has `N >= 3` nodes (any cluster, positions,
output list, marking on or off), `TriangulateFan` returns `Success` and the output list becomes
the old list followed by exactly `N - 2` triangles, the `i`-th of them (`1 <= i <= N - 2`) being
the winding-fixed triangle of the point indices of `Nodes[0]`, `Nodes[i]`, `Nodes[i + 1]`, whose
vertex set is these three point indices. -/
theorem C16_fan_triangulation (bMarkTriangles : Bool) (Cell : FCell) (ProjectedPositions : List FVector)
    (OutTriangles : List FTriangle) (InCluster : FCluster)
    (hb : Cell.bBuiltSuccessfully = true) (hc : Cell.Data.bIsConvex = true)
    (hn : 3 ≤ Cell.Nodes.length) :
    (Cell.TriangulateFan bMarkTriangles ProjectedPositions OutTriangles InCluster).1 = .Success ∧
    (Cell.TriangulateFan bMarkTriangles ProjectedPositions OutTriangles InCluster).2.1 =
      OutTriangles ++ (List.range' 1 (Cell.Nodes.length - 2)).map
        (fun (i : Nat) => FanTriangle Cell ProjectedPositions InCluster (i : Int)) ∧
    ((List.range' 1 (Cell.Nodes.length - 2)).map
        (fun (i : Nat) => FanTriangle Cell ProjectedPositions InCluster (i : Int))).length =
      Cell.Nodes.length - 2 ∧
    ∀ i : Nat, 1 ≤ i → i ≤ Cell.Nodes.length - 2 →
      ∃ T, ((Cell.TriangulateFan bMarkTriangles ProjectedPositions OutTriangles InCluster).2.1)[
          OutTriangles.length + (i - 1)]? = some T ∧
        T.VtxSet = {(InCluster.GetNode (Get Cell.Nodes 0)).PointIndex,
          (InCluster.GetNode (Get Cell.Nodes (i : Int))).PointIndex,
          (InCluster.GetNode (Get Cell.Nodes ((i : Int) + 1))).PointIndex} := by
  have hres : Cell.TriangulateFan bMarkTriangles ProjectedPositions OutTriangles InCluster =
      (.Success,
        ((List.range' 1 (Cell.Nodes.length - 1 - 1)).foldl
          (fun (st : List FTriangle × FCluster) (i : Nat) =>
            EmitTriangle bMarkTriangles Cell ProjectedPositions st (i : Int))
          (OutTriangles, InCluster)).1,
        ((List.range' 1 (Cell.Nodes.length - 1 - 1)).foldl
          (fun (st : List FTriangle × FCluster) (i : Nat) =>
            EmitTriangle bMarkTriangles Cell ProjectedPositions st (i : Int))
          (OutTriangles, InCluster)).2) := by
    unfold FCell.TriangulateFan
    have h3 : ¬ Cell.Nodes.length < 3 := by omega
    simp [hb, hc, h3]
  have hlist : (Cell.TriangulateFan bMarkTriangles ProjectedPositions OutTriangles InCluster).2.1 =
      OutTriangles ++ (List.range' 1 (Cell.Nodes.length - 2)).map
        (fun (i : Nat) => FanTriangle Cell ProjectedPositions InCluster (i : Int)) := by
    rw [hres]
    simp only
    rw [Fan_foldl bMarkTriangles Cell ProjectedPositions InCluster _ _ (fun _ => rfl)]
    rfl
  refine ⟨by rw [hres], hlist, by simp, ?_⟩
  intro i h1 h2
  refine ⟨FanTriangle Cell ProjectedPositions InCluster (i : Int), ?_, ?_⟩
  · rw [hlist, List.getElem?_append_right (Nat.le_add_right _ _)]
    simp only [Nat.add_sub_cancel_left, List.getElem?_map]
    rw [List.getElem?_range' _ _ (by omega)]
    simp only [Option.map_some', Nat.one_mul]
    congr 2
    omega
  · unfold FanTriangle
    rw [FixWinding_VtxSet]
    rfl

/-- C16 witness: the cell of the unit square, triangulated as a fan with marking on. -/
theorem C16_fan_triangulation_witness :
    SquareCell.bBuiltSuccessfully = true ∧ SquareCell.Data.bIsConvex = true ∧
    3 ≤ SquareCell.Nodes.length ∧
    (SquareCell.TriangulateFan true (Flat SquarePositions) [] SquareCluster).2.1 =
      [⟨0, 1, 2⟩, ⟨0, 2, 3⟩] :=
  ⟨by decide!, by decide!, by decide!,
    (C16_fan_triangulation true SquareCell (Flat SquarePositions) [] SquareCluster
      (by decide!) (by decide!) (by decide!)).2.1.trans (by decide!)⟩

theorem RemoveAtSwap_length (q : List Int) (i : Int) : (RemoveAtSwap q i).length = q.length - 1 := by
  unfold RemoveAtSwap
  split_ifs <;> simp

theorem Get_flat (pos : List FVector) (hz : ∀ p ∈ pos, p.Z = 0) (i : Int) : (Get pos i).Z = 0 := by
  unfold Get
  split_ifs
  · rw [List.getD_eq_getElem?_getD]
    cases h : pos[i.toNat]? with
    | none => rfl
    | some p => exact hz p (List.getElem?_mem h)
  · rfl

theorem IsInside_flat (A B C P : FVector) (hA : A.Z = 0) (hB : B.Z = 0) (hC : C.Z = 0) :
    (((FBox.ForceInit.AddPoint A).AddPoint B).AddPoint C).IsInside P = false := by
  unfold FBox.IsInside FBox.AddPoint FBox.ForceInit
  simp only [Bool.false_eq_true, if_false, if_true, hA, hB, hC, min_self, max_self]
  simp only [decide_eq_false_iff_not, not_and, not_lt]
  intro _ _ _ _ h
  exact le_of_lt h

theorem IsEar_flat (F : FVector → FVector → FVector → FVector → Bool) (Cell : FCell)
    (pos : List FVector) (cl : FCluster) (q : List Int) (k : FEarCursor)
    (hz : ∀ p ∈ pos, p.Z = 0) : IsEar F Cell pos cl q k = true := by
  unfold IsEar
  simp only [IsInside_flat _ _ _ _ (Get_flat pos hz _) (Get_flat pos hz _) (Get_flat pos hz _),
    Bool.and_false, Bool.false_and]
  simp

theorem ScanForEar_flat (F : FVector → FVector → FVector → FVector → Bool) (Cell : FCell)
    (pos : List FVector) (cl : FCluster) (q : List Int) (n : Nat) (i : Int) (k : FEarCursor)
    (hz : ∀ p ∈ pos, p.Z = 0) :
    ScanForEar F Cell pos cl q (n + 1) i k = some (i, k) := by
  rw [ScanForEar, if_pos (IsEar_flat F Cell pos cl q k hz)]

theorem EmitTriangle_fst (b : Bool) (Cell : FCell) (pos : List FVector)
    (st : List FTriangle × FCluster) (i : Int) :
    ∃ T, (EmitTriangle b Cell pos st i).1 = st.1 ++ [T] := ⟨_, rfl⟩

/-- The ear-clipping loop with enough fuel returns: with `Success` or `InvalidCell`, having
appended one triangle per removed queue entry, so `NodeQueue.Num() - 2` of them on `Success`; on
flat positions every scan ends at its first step and the result is `Success`. -/
theorem EarLoop_spec (F : FVector → FVector → FVector → FVector → Bool) (b : Bool) (Cell : FCell)
    (pos : List FVector) :
    ∀ (fuel : Nat) (q : List Int) (k : FEarCursor) (st : List FTriangle × FCluster),
      q.length ≤ fuel + 2 →
      ∃ r new cl1, EarLoop F b Cell pos fuel q k st = some (r, st.1 ++ new, cl1) ∧
        (r = .Success ∨ r = .InvalidCell) ∧
        (r = .Success → new.length = q.length - 2) ∧
        ((∀ p ∈ pos, p.Z = 0) → r = .Success) := by
  intro fuel
  induction fuel with
  | zero =>
    intro q k st hq
    have : ¬ q.length > 2 := by omega
    refine ⟨.Success, [], st.2, ?_, Or.inl rfl, fun _ => by simp; omega, fun _ => rfl⟩
    simp [EarLoop, this]
  | succ n ih =>
    intro q k st hq
    rw [EarLoop]
    by_cases h2 : q.length > 2
    · rw [if_pos h2]
      cases hs : ScanForEar F Cell pos st.2 q q.length 0 k with
      | none =>
        refine ⟨.InvalidCell, [], st.2, by simp, Or.inr rfl, fun h => ?_, ?_⟩
        · cases h
        intro hz
        obtain ⟨m, hm⟩ : ∃ m, q.length = m + 1 := ⟨q.length - 1, by omega⟩
        rw [hm, ScanForEar_flat F Cell pos st.2 q m 0 k hz] at hs
        cases hs
      | some ie =>
        obtain ⟨i, ke⟩ := ie
        simp only
        have hl : (RemoveAtSwap q ke.CurrIndex).length ≤ n + 2 := by
          rw [RemoveAtSwap_length]; omega
        obtain ⟨r, new, cl1, he, hr, hc, hf⟩ := ih (RemoveAtSwap q ke.CurrIndex)
          (ke.AfterRemoval ((RemoveAtSwap q ke.CurrIndex).length : Int))
          (EmitTriangle b Cell pos st i) hl
        obtain ⟨T, hT⟩ := EmitTriangle_fst b Cell pos st i
        refine ⟨r, T :: new, cl1, ?_, hr, ?_, hf⟩
        · rw [he, hT]; simp
        · intro hs
          have := hc hs
          rw [RemoveAtSwap_length] at this
          simp only [List.length_cons]
          omega
    · rw [if_neg h2]
      exact ⟨.Success, [], st.2, by simp, Or.inl rfl, fun _ => by simp; omega, fun _ => rfl⟩

/-- C17: for every built cell with `N >= 3` nodes (any cluster, output list, point-in-triangle
test, marking on or off), `TriangulateEarClipping` returns: with `Success` or `InvalidCell`, the
old output list followed by the new triangles; on `Success` exactly `N - 2` triangles were
appended; and on projected positions that lie in the plane (`Z = 0`) the result is `Success`. -/
theorem C17_ear_clipping_count (IsPointInTriangle : FVector → FVector → FVector → FVector → Bool)
    (bMarkTriangles : Bool) (Cell : FCell) (ProjectedPositions : List FVector)
    (OutTriangles : List FTriangle) (InCluster : FCluster)
    (hb : Cell.bBuiltSuccessfully = true) (hn : 3 ≤ Cell.Nodes.length) :
    ∃ r new cl1,
      Cell.TriangulateEarClipping IsPointInTriangle bMarkTriangles ProjectedPositions OutTriangles
        InCluster = some (r, OutTriangles ++ new, cl1) ∧
      (r = .Success ∨ r = .InvalidCell) ∧
      (r = .Success → new.length = Cell.Nodes.length - 2) ∧
      ((∀ p ∈ ProjectedPositions, p.Z = 0) → r = .Success) := by
  have h3 : ¬ Cell.Nodes.length < 3 := by omega
  have := EarLoop_spec IsPointInTriangle bMarkTriangles Cell ProjectedPositions Cell.Nodes.length
    ((List.range Cell.Nodes.length).map (fun (i : Nat) => (i : Int)))
    ⟨(Cell.Nodes.length : Int) - 1, 0, 1⟩ (OutTriangles, InCluster) (by simp)
  obtain ⟨r, new, cl1, he, hr, hc, hf⟩ := this
  refine ⟨r, new, cl1, ?_, hr, ?_, hf⟩
  · unfold FCell.TriangulateEarClipping
    simp only [hb, h3, Bool.not_true, Bool.false_eq_true, if_false]
    exact he
  · intro hs
    have := hc hs
    simpa using this

/-- C17 witness: the cell of the concave quadrilateral on its flat projected positions: `Success`
with two triangles appended. -/
theorem C17_ear_clipping_count_witness :
    ConcaveCell.bBuiltSuccessfully = true ∧ ConcaveCell.Data.bIsConvex = false ∧
    3 ≤ ConcaveCell.Nodes.length ∧
    (ConcaveCell.TriangulateEarClipping RefIsPointInTriangle false (Flat ConcavePositions) []
        ConcaveCluster).map (fun r => (r.1, r.2.1.length)) = some (ETriangulationResult.Success, 2) ∧
    ∃ r new cl1,
      ConcaveCell.TriangulateEarClipping RefIsPointInTriangle false (Flat ConcavePositions) []
        ConcaveCluster = some (r, [] ++ new, cl1) ∧
      (r = .Success ∨ r = .InvalidCell) ∧
      (r = .Success → new.length = ConcaveCell.Nodes.length - 2) ∧
      ((∀ p ∈ Flat ConcavePositions, p.Z = 0) → r = .Success) :=
  ⟨by decide!, by decide!, by decide!, by decide!,
    C17_ear_clipping_count RefIsPointInTriangle false ConcaveCell (Flat ConcavePositions) []
      ConcaveCluster (by decide!) (by decide!)⟩

/-- C18: `Triangulate` returns `InvalidCluster` when marking is requested and no cluster is
given; otherwise `InvalidCell` when the cell is not built; otherwise `TooFewPoints` when `Nodes`
has fewer than 3 entries; in each of the three cases the output list and the cluster are returned
as they were given. -/
theorem C18_triangulate_guards (IsPointInTriangle : FVector → FVector → FVector → FVector → Bool)
    (bMarkTriangles : Bool) (Cell : FCell) (ProjectedPositions : List FVector)
    (OutTriangles : List FTriangle) (InCluster : Option FCluster) :
    (bMarkTriangles = true ∧ InCluster = none →
      Cell.Triangulate IsPointInTriangle bMarkTriangles ProjectedPositions OutTriangles InCluster =
        some (.InvalidCluster, OutTriangles, InCluster)) ∧
    (¬ (bMarkTriangles = true ∧ InCluster = none) → Cell.bBuiltSuccessfully = false →
      Cell.Triangulate IsPointInTriangle bMarkTriangles ProjectedPositions OutTriangles InCluster =
        some (.InvalidCell, OutTriangles, InCluster)) ∧
    (¬ (bMarkTriangles = true ∧ InCluster = none) → Cell.bBuiltSuccessfully = true →
      Cell.Nodes.length < 3 →
      Cell.Triangulate IsPointInTriangle bMarkTriangles ProjectedPositions OutTriangles InCluster =
        some (.TooFewPoints, OutTriangles, InCluster)) := by
  refine ⟨?_, ?_, ?_⟩
  · intro h
    unfold FCell.Triangulate
    rw [if_pos h]
  · intro h hb
    unfold FCell.Triangulate
    rw [if_neg h]
    simp [hb]
  · intro h hb hn
    unfold FCell.Triangulate
    rw [if_neg h]
    simp [hb, hn]

/-! ## The race on a uniqueness set -/

/-- A thread that runs alone through its two lock scopes computes `IsUniqueStartHalfEdge`. -/
theorem StepUnique_alone_start (con : FCellConstraints) (Hash : ℕ) :
    StepUnique Hash (StepUnique Hash con.UniqueStartHalfEdgesHash .ReadCheck).1
        (StepUnique Hash con.UniqueStartHalfEdgesHash .ReadCheck).2 =
      ((con.IsUniqueStartHalfEdge Hash).2.UniqueStartHalfEdgesHash,
        .Returned (con.IsUniqueStartHalfEdge Hash).1) := by
  unfold FCellConstraints.IsUniqueStartHalfEdge
  by_cases h : Hash ∈ con.UniqueStartHalfEdgesHash
  · simp [StepUnique, h]
  · simp [StepUnique, h]

/-- A thread that runs alone through its two lock scopes computes `IsUniqueCellHash`. -/
theorem StepUnique_alone_cell (con : FCellConstraints) (c : FCell) :
    StepUnique c.GetCellHash.1 (StepUnique c.GetCellHash.1 con.UniquePathsHashSet .ReadCheck).1
        (StepUnique c.GetCellHash.1 con.UniquePathsHashSet .ReadCheck).2 =
      ((con.IsUniqueCellHash c).2.2.UniquePathsHashSet, .Returned (con.IsUniqueCellHash c).1) := by
  unfold FCellConstraints.IsUniqueCellHash
  by_cases h : c.GetCellHash.1 ∈ con.UniquePathsHashSet
  · simp [StepUnique, h]
  · simp [StepUnique, h]

theorem FRace.Inv_step (Key : ℕ) (Set0 : Finset ℕ) (hk : Key ∉ Set0) (st : FRace) (t : Bool)
    (h : FRace.Inv Key Set0 st) : FRace.Inv Key Set0 (FRace.Step Key st t) := by
  obtain ⟨S, p1, p2⟩ := st
  unfold FRace.Inv at h ⊢
  simp only at h
  rcases h with ⟨hS, h1, h2⟩ | ⟨hS, h12⟩
  · subst hS
    cases t <;> cases p1 <;> cases p2 <;>
      simp_all [FRace.Step, StepUnique]
  · subst hS
    have hm : Key ∈ insert Key Set0 := Finset.mem_insert_self _ _
    cases t <;> cases p1 <;> cases p2 <;>
      simp_all [FRace.Step, StepUnique]

theorem FRace.Inv_run (Key : ℕ) (Set0 : Finset ℕ) (hk : Key ∉ Set0) (Schedule : List Bool) :
    ∀ st, FRace.Inv Key Set0 st → FRace.Inv Key Set0 (FRace.Run Key st Schedule) := by
  induction Schedule with
  | nil => intro st h; exact h
  | cons t rest ih =>
    intro st h
    exact ih _ (FRace.Inv_step Key Set0 hk st t h)

theorem StepUnique_left (Key : ℕ) (S : Finset ℕ) (p : FUniquePhase) :
    (StepUnique Key S p).2.Left ≤ p.Left - 1 := by
  cases p <;> simp [StepUnique, FUniquePhase.Left]
  split_ifs <;> simp [FUniquePhase.Left]

theorem FRace.left_run (Key : ℕ) (Schedule : List Bool) :
    ∀ st : FRace, (FRace.Run Key st Schedule).First.Left ≤ st.First.Left - Schedule.count false ∧
      (FRace.Run Key st Schedule).Second.Left ≤ st.Second.Left - Schedule.count true := by
  induction Schedule with
  | nil => intro st; simp [FRace.Run]
  | cons t rest ih =>
    intro st
    have := ih (FRace.Step Key st t)
    have e : FRace.Run Key st (t :: rest) = FRace.Run Key (FRace.Step Key st t) rest := rfl
    rw [e]
    cases t
    · have h1 := StepUnique_left Key st.Set st.First
      simp only [FRace.Step, Bool.false_eq_true, if_false] at this ⊢
      simp only [List.count_cons_self, List.count_cons_of_ne (by decide : true ≠ false)]
      omega
    · have h1 := StepUnique_left Key st.Set st.Second
      simp only [FRace.Step, if_true] at this ⊢
      simp only [List.count_cons_self, List.count_cons_of_ne (by decide : false ≠ true)]
      omega

theorem FUniquePhase.left_zero (p : FUniquePhase) (h : p.Left = 0) : ∃ r, p = .Returned r := by
  cases p with
  | ReadCheck => simp [FUniquePhase.Left] at h
  | WriteInsert => simp [FUniquePhase.Left] at h
  | Returned r => exact ⟨r, rfl⟩

/-- C19: two threads call the same uniqueness function with the same key, which is not yet
recorded; the lock scopes of the two calls are interleaved by an arbitrary schedule in which each
thread gets to run its two scopes.  Then both calls have returned, the key is recorded, and
exactly one of the two calls returned `true`. -/
theorem C19_exactly_one_winner (Key : ℕ) (Set0 : Finset ℕ) (Schedule : List Bool)
    (hk : Key ∉ Set0) (h1 : 2 ≤ Schedule.count false) (h2 : 2 ≤ Schedule.count true) :
    ∃ r1 r2, FRace.Run Key ⟨Set0, .ReadCheck, .ReadCheck⟩ Schedule =
        ⟨insert Key Set0, .Returned r1, .Returned r2⟩ ∧
      ((r1 = true ∧ r2 = false) ∨ (r1 = false ∧ r2 = true)) := by
  have hl := FRace.left_run Key Schedule ⟨Set0, .ReadCheck, .ReadCheck⟩
  have hz : FUniquePhase.ReadCheck.Left = 2 := rfl
  simp only [hz] at hl
  obtain ⟨r1, e1⟩ := FUniquePhase.left_zero
    (FRace.Run Key ⟨Set0, .ReadCheck, .ReadCheck⟩ Schedule).First (by omega)
  obtain ⟨r2, e2⟩ := FUniquePhase.left_zero
    (FRace.Run Key ⟨Set0, .ReadCheck, .ReadCheck⟩ Schedule).Second (by omega)
  have hi := FRace.Inv_run Key Set0 hk Schedule ⟨Set0, .ReadCheck, .ReadCheck⟩
    (Or.inl ⟨rfl, fun r => by simp, fun r => by simp⟩)
  refine ⟨r1, r2, ?_, ?_⟩
  · rcases hi with ⟨_, h, _⟩ | ⟨hS, _⟩
    · exact absurd e1 (h r1)
    · cases hr : FRace.Run Key ⟨Set0, .ReadCheck, .ReadCheck⟩ Schedule with
      | mk S a b =>
        rw [hr] at hS e1 e2
        simp only at hS e1 e2
        rw [hS, e1, e2]
  · rcases hi with ⟨_, h, _⟩ | ⟨_, ⟨ha, hb⟩ | ⟨ha, hb⟩⟩
    · exact absurd e1 (h r1)
    · rw [e1] at ha; rw [e2] at hb
      injection ha with ha
      left
      refine ⟨ha, ?_⟩
      cases r2
      · rfl
      · exact absurd rfl hb
    · rw [e2] at ha; rw [e1] at hb
      injection ha with ha
      right
      refine ⟨?_, ha⟩
      cases r1
      · rfl
      · exact absurd rfl hb

/-- C19 witness: the schedule first, second, second, first on the set `{3}` with key 7. -/
theorem C19_exactly_one_winner_witness :
    (7 : ℕ) ∉ ({3} : Finset ℕ) ∧
    ∃ r1 r2, FRace.Run 7 ⟨{3}, .ReadCheck, .ReadCheck⟩ [false, true, true, false] =
        ⟨insert 7 {3}, .Returned r1, .Returned r2⟩ ∧
      ((r1 = true ∧ r2 = false) ∨ (r1 = false ∧ r2 = true)) :=
  ⟨by decide, C19_exactly_one_winner 7 {3} [false, true, true, false] (by decide) (by decide) (by decide)⟩

/-! ## The choice of the next link -/

/-- The fold of the candidate loop keeps the first link of smallest angle below the starting
bound. -/
theorem foldl_first_min (ang : FLink → ℚ) (Locked : Int) :
    ∀ (L : List FLink) (acc : ℚ × FLink),
      ((L.foldl (fun (acc : ℚ × FLink) (Lk : FLink) =>
          if Lk.Edge = Locked then acc else if ang Lk < acc.1 then (ang Lk, Lk) else acc) acc) = acc ∧
        ∀ x ∈ L.filter (fun Lk => decide (Lk.Edge ≠ Locked)), acc.1 ≤ ang x) ∨
      (∃ pre post, L.filter (fun Lk => decide (Lk.Edge ≠ Locked)) =
          pre ++ (L.foldl (fun (acc : ℚ × FLink) (Lk : FLink) =>
            if Lk.Edge = Locked then acc else if ang Lk < acc.1 then (ang Lk, Lk) else acc) acc).2 :: post ∧
        (L.foldl (fun (acc : ℚ × FLink) (Lk : FLink) =>
            if Lk.Edge = Locked then acc else if ang Lk < acc.1 then (ang Lk, Lk) else acc) acc).1 =
          ang (L.foldl (fun (acc : ℚ × FLink) (Lk : FLink) =>
            if Lk.Edge = Locked then acc else if ang Lk < acc.1 then (ang Lk, Lk) else acc) acc).2 ∧
        (L.foldl (fun (acc : ℚ × FLink) (Lk : FLink) =>
            if Lk.Edge = Locked then acc else if ang Lk < acc.1 then (ang Lk, Lk) else acc) acc).1 < acc.1 ∧
        (∀ x ∈ pre, ang (L.foldl (fun (acc : ℚ × FLink) (Lk : FLink) =>
            if Lk.Edge = Locked then acc else if ang Lk < acc.1 then (ang Lk, Lk) else acc) acc).2 < ang x) ∧
        (∀ x ∈ post, ang (L.foldl (fun (acc : ℚ × FLink) (Lk : FLink) =>
            if Lk.Edge = Locked then acc else if ang Lk < acc.1 then (ang Lk, Lk) else acc) acc).2 ≤ ang x)) := by
  intro L
  induction L with
  | nil => intro acc; left; simp
  | cons a t ih =>
    intro acc
    simp only [List.foldl_cons]
    by_cases hl : a.Edge = Locked
    · have hf : (a :: t).filter (fun Lk => decide (Lk.Edge ≠ Locked)) =
          t.filter (fun Lk => decide (Lk.Edge ≠ Locked)) := by
        simp [List.filter_cons, hl]
      rw [if_pos hl, hf]
      exact ih acc
    · have hf : (a :: t).filter (fun Lk => decide (Lk.Edge ≠ Locked)) =
          a :: t.filter (fun Lk => decide (Lk.Edge ≠ Locked)) := by
        simp [List.filter_cons, hl]
      rw [if_neg hl, hf]
      by_cases hlt : ang a < acc.1
      · rw [if_pos hlt]
        rcases ih (ang a, a) with ⟨he, hall⟩ | ⟨pre, post, hsplit, h1, h2, h3, h4⟩
        · right
          refine ⟨[], t.filter (fun Lk => decide (Lk.Edge ≠ Locked)), ?_, ?_, ?_, ?_, ?_⟩
          · rw [he]; rfl
          · rw [he]
          · rw [he]; exact hlt
          · intro x hx; cases hx
          · intro x hx; rw [he]; exact hall x hx
        · right
          refine ⟨a :: pre, post, ?_, h1, lt_trans h2 hlt, ?_, h4⟩
          · rw [hsplit]; rfl
          · intro x hx
            rcases List.mem_cons.mp hx with e | e
            · rw [e, ← h1]; exact h2
            · exact h3 x e
      · rw [if_neg hlt]
        rcases ih acc with ⟨he, hall⟩ | ⟨pre, post, hsplit, h1, h2, h3, h4⟩
        · left
          refine ⟨he, ?_⟩
          intro x hx
          rcases List.mem_cons.mp hx with e | e
          · rw [e]; exact not_lt.mp hlt
          · exact hall x e
        · right
          refine ⟨a :: pre, post, ?_, h1, h2, ?_, h4⟩
          · rw [hsplit]; rfl
          · intro x hx
            rcases List.mem_cons.mp hx with e | e
            · rw [e, ← h1]; exact lt_of_lt_of_le h2 (not_lt.mp hlt)
            · exact h3 x e

theorem NextLink_eq_fold (M : FMathKernel) (cl : FCluster) (pp : List FVector2D) (From To : FLink) :
    NextLink M cl pp From To =
      ((cl.GetNode To.Node).Links.foldl (fun (acc : ℚ × FLink) (Lk : FLink) =>
          if Lk.Edge = LockedEdgeOf (cl.GetNode To.Node) To then acc
          else if StepAngle M cl pp From To Lk < acc.1 then (StepAngle M cl pp From To Lk, Lk) else acc)
        (MAX_dbl, (⟨-1, -1⟩ : FLink))).2 := rfl

/-- C20: at a step of the walk (at the node `To.Node`, arrived at from `From.Node`), with all
candidate angles below `MAX_dbl`: when no link is eligible the choice is the null link; otherwise
the chosen link is a link of the current node whose edge is not the locked edge, it comes first in
link order among the eligible links of smallest angle (strictly smaller than every eligible link
before it, at most every eligible link after it); the locked edge is the arrival edge unless the
node is a leaf; and a leaf's only link is chosen. -/
theorem C20_next_link_choice (M : FMathKernel) (InCluster : FCluster)
    (ProjectedPositions : List FVector2D) (From To : FLink)
    (hA : ∀ Lk ∈ EligibleLinks InCluster To,
      StepAngle M InCluster ProjectedPositions From To Lk < MAX_dbl) :
    (EligibleLinks InCluster To = [] →
      NextLink M InCluster ProjectedPositions From To = ⟨-1, -1⟩) ∧
    (EligibleLinks InCluster To ≠ [] →
      NextLink M InCluster ProjectedPositions From To ∈ (InCluster.GetNode To.Node).Links ∧
      (NextLink M InCluster ProjectedPositions From To).Edge ≠
        LockedEdgeOf (InCluster.GetNode To.Node) To ∧
      ∃ pre post, EligibleLinks InCluster To =
          pre ++ NextLink M InCluster ProjectedPositions From To :: post ∧
        (∀ x ∈ pre, StepAngle M InCluster ProjectedPositions From To
            (NextLink M InCluster ProjectedPositions From To) <
          StepAngle M InCluster ProjectedPositions From To x) ∧
        (∀ x ∈ post, StepAngle M InCluster ProjectedPositions From To
            (NextLink M InCluster ProjectedPositions From To) ≤
          StepAngle M InCluster ProjectedPositions From To x)) ∧
    ((InCluster.GetNode To.Node).IsLeaf = false →
      LockedEdgeOf (InCluster.GetNode To.Node) To = To.Edge) ∧
    (∀ l, (InCluster.GetNode To.Node).Links = [l] → l.Edge ≠ -1 →
      NextLink M InCluster ProjectedPositions From To = l) := by
  have key := foldl_first_min (StepAngle M InCluster ProjectedPositions From To)
    (LockedEdgeOf (InCluster.GetNode To.Node) To) (InCluster.GetNode To.Node).Links
    (MAX_dbl, (⟨-1, -1⟩ : FLink))
  rw [← NextLink_eq_fold] at key
  have hE : EligibleLinks InCluster To = (InCluster.GetNode To.Node).Links.filter
    (fun Lk => decide (Lk.Edge ≠ LockedEdgeOf (InCluster.GetNode To.Node) To)) := rfl
  rw [← hE] at key
  have part2 : EligibleLinks InCluster To ≠ [] →
      NextLink M InCluster ProjectedPositions From To ∈ (InCluster.GetNode To.Node).Links ∧
      (NextLink M InCluster ProjectedPositions From To).Edge ≠
        LockedEdgeOf (InCluster.GetNode To.Node) To ∧
      ∃ pre post, EligibleLinks InCluster To =
          pre ++ NextLink M InCluster ProjectedPositions From To :: post ∧
        (∀ x ∈ pre, StepAngle M InCluster ProjectedPositions From To
            (NextLink M InCluster ProjectedPositions From To) <
          StepAngle M InCluster ProjectedPositions From To x) ∧
        (∀ x ∈ post, StepAngle M InCluster ProjectedPositions From To
            (NextLink M InCluster ProjectedPositions From To) ≤
          StepAngle M InCluster ProjectedPositions From To x) := by
    intro hne
    rcases key with ⟨_, hall⟩ | ⟨pre, post, hsplit, _, _, h3, h4⟩
    · exfalso
      cases hl : EligibleLinks InCluster To with
      | nil => exact hne hl
      | cons a t =>
        have ha : a ∈ EligibleLinks InCluster To := by rw [hl]; exact List.mem_cons_self _ _
        have := hall a ha
        have := hA a ha
        simp only at *
        linarith
    · have hmem : NextLink M InCluster ProjectedPositions From To ∈ EligibleLinks InCluster To := by
        rw [hsplit]; simp
      rw [hE, List.mem_filter] at hmem
      exact ⟨hmem.1, by simpa using hmem.2, pre, post, hsplit, h3, h4⟩
  refine ⟨?_, part2, ?_, ?_⟩
  · intro hnil
    rcases key with ⟨he, _⟩ | ⟨pre, post, hsplit, _⟩
    · have := congrArg Prod.snd he
      rw [NextLink_eq_fold]
      exact this
    · rw [hnil] at hsplit
      cases pre <;> cases hsplit
  · intro hleaf
    unfold LockedEdgeOf
    simp [hleaf]
  · intro l hl hne
    have hleaf : (InCluster.GetNode To.Node).IsLeaf = true := by
      unfold FNode.IsLeaf; simp [hl]
    have hlock : LockedEdgeOf (InCluster.GetNode To.Node) To = -1 := by
      unfold LockedEdgeOf; simp [hleaf]
    have hel : EligibleLinks InCluster To = [l] := by
      rw [hE, hl, hlock]
      simp [List.filter_cons, hne]
    obtain ⟨_, _, pre, post, hsplit, _, _⟩ := part2 (by rw [hel]; simp)
    rw [hel] at hsplit
    cases pre with
    | nil =>
      simp only [List.nil_append, List.cons.injEq] at hsplit
      exact hsplit.1.symm
    | cons a t =>
      simp only [List.cons_append, List.cons.injEq] at hsplit
      have := hsplit.2
      cases t <;> simp at this

/-- C20 witness: the unit square at node 1, arrived at from node 0: the link to node 2 is chosen. -/
theorem C20_next_link_choice_witness :
    (∀ Lk ∈ EligibleLinks SquareCluster ⟨1, 0⟩,
      StepAngle RefMath SquareCluster SquarePositions ⟨0, 0⟩ ⟨1, 0⟩ Lk < MAX_dbl) ∧
    EligibleLinks SquareCluster ⟨1, 0⟩ ≠ [] ∧
    NextLink RefMath SquareCluster SquarePositions ⟨0, 0⟩ ⟨1, 0⟩ = ⟨2, 1⟩ ∧
    NextLink RefMath SquareCluster SquarePositions ⟨0, 0⟩ ⟨1, 0⟩ ∈ (SquareCluster.GetNode 1).Links :=
  ⟨by decide!, by decide!, by decide!,
    ((C20_next_link_choice RefMath SquareCluster SquarePositions ⟨0, 0⟩ ⟨1, 0⟩ (by decide!)).2.1
      (by decide!)).1⟩

/-! ## Termination of the walk -/

/-- The fail-safe of one iteration (source line 257): once the per-trace set holds more than
`2 * Edges.Num()` keys the iteration returns `MalformedCluster`. -/
theorem LoopBody_failsafe (M : FMathKernel) (con : FCellConstraints) (seed : FLink)
    (cl : FCluster) (pp : List FVector2D) (w : FWalk)
    (h : (w.SignedEdges.card : Int) > (cl.Edges.length : Int) * 2) :
    LoopBody M con seed cl pp w = .Return .MalformedCluster w.Cell := by
  unfold LoopBody
  simp only
  rw [if_pos h]

/-- A completed iteration adds exactly one new key to the per-trace set. -/
theorem LoopBody_continue_card (M : FMathKernel) (con : FCellConstraints) (seed : FLink)
    (cl : FCluster) (pp : List FVector2D) (w w1 : FWalk)
    (h : LoopBody M con seed cl pp w = .Continue w1) :
    H64 w.From.Node w.To.Node ∉ w.SignedEdges ∧
    w1.SignedEdges = insert (H64 w.From.Node w.To.Node) w.SignedEdges ∧
    w1.SignedEdges.card = w.SignedEdges.card + 1 ∧
    w.SignedEdges.card ≤ 2 * cl.Edges.length := by
  have hc := LoopBody_continue M con seed cl pp w w1 h
  refine ⟨hc.1, hc.2.2.2.2.2.2.2.2.1, ?_, ?_⟩
  · rw [hc.2.2.2.2.2.2.2.2.1, Finset.card_insert_of_not_mem hc.1]
  · have := hc.2.1
    omega

/-- The walk loop returns within its fuel: with at most `2 * Edges.Num() + 1` keys in the set and
at least `2 * Edges.Num() + 2 - card` iterations of fuel the result is not `none`. -/
theorem WalkLoop_total (M : FMathKernel) (con : FCellConstraints) (seed : FLink)
    (cl : FCluster) (pp : List FVector2D) :
    ∀ (fuel : ℕ) (w : FWalk), w.SignedEdges.card ≤ 2 * cl.Edges.length + 1 →
      2 * cl.Edges.length + 2 ≤ fuel + w.SignedEdges.card →
      ∃ f, WalkLoop M con seed cl pp fuel w = some f := by
  intro fuel
  induction fuel with
  | zero => intro w h1 h2; omega
  | succ n ih =>
    intro w h1 h2
    rw [WalkLoop]
    by_cases h0 : w.To.Node = -1
    · rw [if_pos h0]; exact ⟨_, rfl⟩
    · rw [if_neg h0]
      cases hb : LoopBody M con seed cl pp w with
      | Continue w1 =>
        simp only
        have hc := LoopBody_continue_card M con seed cl pp w w1 hb
        exact ih w1 (by omega) (by omega)
      | Exit w1 => exact ⟨_, rfl⟩
      | Return r c => exact ⟨_, rfl⟩

/-- `BuildFromCluster` returns. -/
theorem BuildFromCluster_total (M : FMathKernel) (con : FCellConstraints) (cell : FCell)
    (s : FLink) (cl : FCluster) (pp : List FVector2D) :
    ∃ r c con1, BuildFromCluster M con cell s cl pp = some (r, c, con1) := by
  by_cases hk : H64 s.Node (SeedTo cl s).Node ∈ con.UniqueStartHalfEdgesHash
  · rw [BuildFromCluster_start_duplicate _ _ _ _ _ _ hk]
    exact ⟨_, _, _, rfl⟩
  · rw [BuildFromCluster_start_unique _ _ _ _ _ _ hk]
    obtain ⟨f, hf⟩ := WalkLoop_total M con s cl pp (2 * cl.Edges.length + 2)
      (BeginWalk con (ResetCell cell s) s cl)
      (by rw [(BeginWalk_fields con cell s cl).2.2.2]; simp)
      (by omega)
    rw [hf]
    cases f with
    | Continue w => exact ⟨_, _, _, rfl⟩
    | Exit w => exact ⟨_, _, _, rfl⟩
    | Return r c => exact ⟨_, _, _, rfl⟩

/-- C21: for every cluster, every constraints object, every seed and every position table, the
walk loop of `BuildFromCluster` starts at most `2 * Edges.Num() + 2` iterations before the call
returns.  Each completed iteration adds one key that was not yet in the per-trace set of signed
half-edges; an iteration entered with more than `2 * Edges.Num()` keys in the set returns
`MalformedCluster`; the loop run from the start of the walk with `2 * Edges.Num() + 2` iterations
at its disposal ends within them; and the call returns a result for every cell it is run on. -/
theorem C21_walk_terminates (M : FMathKernel) (con : FCellConstraints) (s : FLink)
    (cl : FCluster) (pp : List FVector2D) :
    (∀ w w1 : FWalk, LoopBody M con s cl pp w = .Continue w1 →
      H64 w.From.Node w.To.Node ∉ w.SignedEdges ∧
      w1.SignedEdges = insert (H64 w.From.Node w.To.Node) w.SignedEdges ∧
      w1.SignedEdges.card = w.SignedEdges.card + 1) ∧
    (∀ w : FWalk, (w.SignedEdges.card : Int) > (cl.Edges.length : Int) * 2 →
      LoopBody M con s cl pp w = .Return .MalformedCluster w.Cell) ∧
    (∀ cell : FCell, ∃ f,
      WalkLoop M con s cl pp (2 * cl.Edges.length + 2) (BeginWalk con (ResetCell cell s) s cl) =
        some f) ∧
    (∀ cell : FCell, ∃ r c con1, BuildFromCluster M con cell s cl pp = some (r, c, con1)) := by
  refine ⟨?_, fun w h => LoopBody_failsafe M con s cl pp w h, ?_,
    fun cell => BuildFromCluster_total M con cell s cl pp⟩
  · intro w w1 h
    have hc := LoopBody_continue_card M con s cl pp w w1 h
    exact ⟨hc.1, hc.2.1, hc.2.2.1⟩
  · intro cell
    exact WalkLoop_total M con s cl pp (2 * cl.Edges.length + 2)
      (BeginWalk con (ResetCell cell s) s cl)
      (by rw [(BeginWalk_fields con cell s cl).2.2.2]; simp)
      (by omega)

/-! ## The safety counter on well-formed clusters -/

/-- There are `2 * Edges.Num()` half-edge keys, counted with repetition. -/
theorem HalfEdgeKeys_length (cl : FCluster) : (HalfEdgeKeys cl).length = 2 * cl.Edges.length := by
  unfold HalfEdgeKeys
  induction cl.Edges with
  | nil => rfl
  | cons e t ih => simp [List.flatMap_cons, ih]; omega

/-- A set of half-edge keys of the cluster holds at most `2 * Edges.Num()` keys. -/
theorem subset_keys_card (cl : FCluster) (S : Finset ℕ) (h : ∀ k ∈ S, k ∈ HalfEdgeKeys cl) :
    S.card ≤ 2 * cl.Edges.length := by
  have h1 : S ⊆ (HalfEdgeKeys cl).toFinset := by
    intro k hk; exact List.mem_toFinset.mpr (h k hk)
  calc S.card ≤ (HalfEdgeKeys cl).toFinset.card := Finset.card_le_card h1
    _ ≤ (HalfEdgeKeys cl).length := List.toFinset_card_le _
    _ = 2 * cl.Edges.length := HalfEdgeKeys_length cl

/-- In a cluster whose nodes are stored at their index, `GetNode` at a valid index is a node of
the cluster with that index. -/
theorem GetNode_valid (cl : FCluster) (hi : cl.IndexConsistent) (i : Int) (h0 : 0 ≤ i)
    (h1 : i < (cl.Nodes.length : Int)) :
    cl.GetNode i ∈ cl.Nodes ∧ (cl.GetNode i).Index = i := by
  have hlt : i.toNat < cl.Nodes.length := by omega
  have e : cl.GetNode i = cl.Nodes[i.toNat] := Get_of_bounds cl.Nodes i h0 hlt
  refine ⟨by rw [e]; exact List.getElem_mem _, ?_⟩
  have := hi (i.toNat, cl.Nodes[i.toNat]) (by
    rw [List.mem_iff_getElem]
    exact ⟨i.toNat, by simpa using hlt, by simp⟩)
  rw [e]
  simp only at this
  rw [this]
  omega

/-- Both directions of an edge of the cluster are half-edge keys. -/
theorem Edge_keys (cl : FCluster) (e : FEdge) (he : e ∈ cl.Edges) :
    H64 (Get cl.NodeIndexLookup e.Start) (Get cl.NodeIndexLookup e.End) ∈ HalfEdgeKeys cl ∧
    H64 (Get cl.NodeIndexLookup e.End) (Get cl.NodeIndexLookup e.Start) ∈ HalfEdgeKeys cl := by
  unfold HalfEdgeKeys
  constructor <;>
  · rw [List.mem_flatMap]
    exact ⟨e, he, by simp⟩

/-- The method `GetEdge` at a valid index is an edge of the cluster. -/
theorem GetEdge_mem (cl : FCluster) (i : Int) (h0 : 0 ≤ i) (h1 : i < (cl.Edges.length : Int)) :
    cl.GetEdge i ∈ cl.Edges := by
  have hlt : i.toNat < cl.Edges.length := by omega
  have e : cl.GetEdge i = cl.Edges[i.toNat] := Get_of_bounds cl.Edges i h0 hlt
  rw [e]; exact List.getElem_mem _

/-- The key of a link followed from a node of a well-formed cluster is a half-edge key. -/
theorem Link_key (cl : FCluster) (hw : cl.WellFormed) (i : Int) (Lk : FLink)
    (h : Lk ∈ (cl.GetNode i).Links) : H64 i Lk.Node ∈ HalfEdgeKeys cl := by
  obtain ⟨hi, ha, hl, hr⟩ := hw
  have hne : (cl.GetNode i).Links ≠ [] := List.ne_nil_of_mem h
  obtain ⟨hm, hidx⟩ := GetNode_of_links cl i hne
  have hidx := hidx hi
  obtain ⟨e0, e1, hcase⟩ := ha _ hm Lk h
  obtain ⟨r0, r1⟩ := hr _ hm Lk h
  obtain ⟨tm, tidx⟩ := GetNode_valid cl hi Lk.Node r0 r1
  have k1 : Get cl.NodeIndexLookup (cl.GetNode i).PointIndex = i := by rw [hl _ hm, hidx]
  have k2 : Get cl.NodeIndexLookup (cl.GetNode Lk.Node).PointIndex = Lk.Node := by rw [hl _ tm, tidx]
  have ke := Edge_keys cl (cl.GetEdge Lk.Edge) (GetEdge_mem cl Lk.Edge e0 e1)
  rcases hcase with ⟨a, b⟩ | ⟨a, b⟩
  · rw [a, b, k1, k2] at ke; exact ke.1
  · rw [a, b, k1, k2] at ke; exact ke.2

/-- The key of the seed half-edge is a half-edge key when the walk loop is entered. -/
theorem Seed_key (cl : FCluster) (hw : cl.WellFormed) (s : FLink) (hs : SeedOnEdge cl s)
    (hto : (SeedTo cl s).Node ≠ -1) : H64 s.Node (SeedTo cl s).Node ∈ HalfEdgeKeys cl := by
  obtain ⟨hi, ha, hl, hr⟩ := hw
  obtain ⟨n0, n1, e0, e1, hend⟩ := hs
  obtain ⟨sm, sidx⟩ := GetNode_valid cl hi s.Node n0 n1
  have k1 : Get cl.NodeIndexLookup (cl.GetNode s.Node).PointIndex = s.Node := by rw [hl _ sm, sidx]
  have ke := Edge_keys cl (cl.GetEdge s.Edge) (GetEdge_mem cl s.Edge e0 e1)
  have hT : ∀ x : Int, (cl.GetNode x).Index ≠ -1 → (cl.GetNode x).Index = x := by
    intro x hx
    rcases Get_eq_default_or_mem cl.Nodes x with hd | ⟨h0, hlt, _⟩
    · exfalso; apply hx
      unfold FCluster.GetNode; rw [hd]; rfl
    · exact (GetNode_valid cl hi x h0 (by omega)).2
  unfold SeedTo FCluster.GetEdgeOtherNode at hto ⊢
  simp only at hto ⊢
  rw [hT _ hto]
  unfold FEdge.Other
  by_cases hst : (cl.GetNode s.Node).PointIndex = (cl.GetEdge s.Edge).Start
  · rw [if_pos hst]
    have := ke.1
    rw [← hst, k1] at this
    exact this
  · rw [if_neg hst]
    rcases hend with h | h
    · exact absurd h.symm hst
    · have := ke.2
      rw [h, k1] at this
      exact this

/-- A result code returned from inside the walk loop is returned by an iteration entered in a
state that satisfies every invariant of the completed iterations. -/
theorem WalkLoop_return_inv (M : FMathKernel) (con : FCellConstraints) (seed : FLink)
    (cl : FCluster) (pp : List FVector2D) (Inv : FWalk → Prop)
    (hstep : ∀ w w1, Inv w → LoopBody M con seed cl pp w = .Continue w1 → Inv w1) :
    ∀ (fuel : ℕ) (w : FWalk) (r : ECellResult) (c : FCell), Inv w →
      WalkLoop M con seed cl pp fuel w = some (.Return r c) →
      ∃ w1, Inv w1 ∧ LoopBody M con seed cl pp w1 = .Return r c := by
  intro fuel
  induction fuel with
  | zero => intro w r c _ h; simp [WalkLoop] at h
  | succ n ih =>
    intro w r c hinv h
    rw [WalkLoop] at h
    by_cases h0 : w.To.Node = -1
    · rw [if_pos h0] at h; injection h with h; cases h
    · rw [if_neg h0] at h
      cases hb : LoopBody M con seed cl pp w with
      | Continue w1 => rw [hb] at h; exact ih w1 r c (hstep w w1 hinv hb) h
      | Exit w1 => rw [hb] at h; simp only at h; injection h with h; cases h
      | Return r1 c1 =>
        rw [hb] at h; simp only at h
        injection h with h; injection h with h1 h2
        subst h1; subst h2
        exact ⟨w, hinv, hb⟩

/-- `MalformedCluster` is returned by an iteration only through the fail-safe. -/
theorem LoopBody_malformed (M : FMathKernel) (con : FCellConstraints) (seed : FLink)
    (cl : FCluster) (pp : List FVector2D) (w : FWalk) (c : FCell)
    (h : LoopBody M con seed cl pp w = .Return .MalformedCluster c) :
    (w.SignedEdges.card : Int) > (cl.Edges.length : Int) * 2 := by
  by_contra h1
  unfold LoopBody at h
  simp only at h
  rw [if_neg h1] at h
  by_cases h2 : H64 w.From.Node w.To.Node ∈ w.SignedEdges
  · rw [if_pos h2] at h
    by_cases h3 : w.To.Edge = seed.Edge ∨ w.To.Node = seed.Node
    · rw [if_pos h3] at h; cases h
    · rw [if_neg h3] at h; injection h with hr _; cases hr
  rw [if_neg h2] at h
  by_cases h4 : (FPathMetrics.Add M w.Metrics (cl.GetPos (cl.GetNode w.To.Node))).2.Length > con.MaxPerimeter
  · rw [if_pos h4] at h; injection h with hr _; cases hr
  rw [if_neg h4] at h
  by_cases h5 : (FPathMetrics.Add M w.Metrics (cl.GetPos (cl.GetNode w.To.Node))).1 < con.MinSegmentLength ∨
      (FPathMetrics.Add M w.Metrics (cl.GetPos (cl.GetNode w.To.Node))).1 > con.MaxSegmentLength
  · rw [if_pos h5] at h; injection h with hr _; cases hr
  rw [if_neg h5] at h
  by_cases h6 : w.NumUniqueNodes + 1 > con.MaxPointCount
  · rw [if_pos h6] at h; injection h with hr _; cases hr
  rw [if_neg h6] at h
  by_cases h7 : FVector.Length M
      ((w.Cell.AddNode (cl.GetNode w.To.Node).Index (cl.GetPos (cl.GetNode w.To.Node))).AddBounds
        (cl.GetPos (cl.GetNode w.To.Node))).Data.Bounds.GetSize > con.MaxBoundsSize
  · rw [if_pos h7] at h; injection h with hr _; cases hr
  rw [if_neg h7] at h
  by_cases h8 : (NextLink M cl pp w.From w.To).Node = -1
  · rw [if_pos h8] at h; injection h with hr _; cases hr
  rw [if_neg h8] at h
  by_cases h9 : (cl.GetNode (NextLink M cl pp w.From w.To).Node).Num = 1 ∧ ¬ con.bKeepCellsWithLeaves = true
  · rw [if_pos h9] at h; injection h with hr _; cases hr
  rw [if_neg h9, if_neg h6] at h
  by_cases h10 : w.NumUniqueNodes + 1 > 2
  · rw [if_pos h10] at h
    by_cases h11 : con.bConvexOnly = true ∧ ¬ ((((w.Cell.AddNode (cl.GetNode w.To.Node).Index
        (cl.GetPos (cl.GetNode w.To.Node))).AddBounds (cl.GetPos (cl.GetNode w.To.Node))).DuplicateLeaf con
        (cl.GetNode w.To.Node)).CheckConvexLast cl).Data.bIsConvex = true
    · rw [if_pos h11] at h; injection h with hr _; cases hr
    · rw [if_neg h11] at h; cases h
  · rw [if_neg h10] at h; cases h

/-- The completion checks never answer `MalformedCluster`. -/
theorem FinishCell_ne_malformed (M : FMathKernel) (con : FCellConstraints) (cl : FCluster)
    (pp : List FVector2D) (n : Int) (m : FPathMetrics) (c : FCell) :
    (FinishCell M con cl pp n m c).1 ≠ .MalformedCluster := by
  unfold FinishCell
  simp only
  split_ifs
  all_goals first
    | (intro h; cases h)
    | skip
  all_goals split
  all_goals first
    | (intro h; cases h)
    | skip
  all_goals split_ifs
  all_goals (intro h; cases h)

/-- The code after the walk loop never answers `MalformedCluster`. -/
theorem CompleteCell_ne_malformed (M : FMathKernel) (con : FCellConstraints) (cl : FCluster)
    (pp : List FVector2D) (w : FWalk) : (CompleteCell M con cl pp w).1 ≠ .MalformedCluster := by
  unfold CompleteCell
  simp only
  split_ifs
  all_goals first
    | exact FinishCell_ne_malformed _ _ _ _ _ _ _
    | (intro h; cases h)

/-- C22: on a cluster with consistent adjacency (the nodes are stored at their index, the table
from point index to node index agrees with them, and every link of a node names an existing node
and an existing edge that joins the node to it) and a seed that names an existing node and an
existing edge of which the node is an endpoint, `BuildFromCluster` returns, and its result is never
`MalformedCluster`, whatever the constraints, the cell and the positions: every key in the
per-trace set is one of the `2 * Edges.Num()` signed half-edge keys of the cluster, so the safety
counter cannot be exceeded.  Parallel edges and self-loops need not be excluded. -/
theorem C22_never_malformed (M : FMathKernel) (con : FCellConstraints) (cell : FCell) (s : FLink)
    (cl : FCluster) (pp : List FVector2D) (hw : cl.WellFormed) (hs : SeedOnEdge cl s) :
    ∃ r c con1, BuildFromCluster M con cell s cl pp = some (r, c, con1) ∧
      r ≠ .MalformedCluster := by
  obtain ⟨r, c, con1, hb⟩ := BuildFromCluster_total M con cell s cl pp
  refine ⟨r, c, con1, hb, ?_⟩
  intro hr
  subst hr
  by_cases hk : H64 s.Node (SeedTo cl s).Node ∈ con.UniqueStartHalfEdgesHash
  · rw [BuildFromCluster_start_duplicate _ _ _ _ _ _ hk] at hb
    injection hb with hb; injection hb with hb _; cases hb
  rw [BuildFromCluster_start_unique _ _ _ _ _ _ hk] at hb
  cases hwl : WalkLoop M con s cl pp (2 * cl.Edges.length + 2) (BeginWalk con (ResetCell cell s) s cl) with
  | none => rw [hwl] at hb; cases hb
  | some f =>
    rw [hwl] at hb
    cases f with
    | Continue w =>
      simp only at hb
      injection hb with hb
      exact CompleteCell_ne_malformed M _ cl pp w (congrArg Prod.fst hb)
    | Exit w =>
      simp only at hb
      injection hb with hb
      exact CompleteCell_ne_malformed M _ cl pp w (congrArg Prod.fst hb)
    | Return r1 c1 =>
      simp only at hb
      injection hb with hb; injection hb with hr _
      subst hr
      by_cases hto : (SeedTo cl s).Node = -1
      · have h0 : (BeginWalk con (ResetCell cell s) s cl).To.Node = -1 := by
          rw [(BeginWalk_fields con cell s cl).2.1]; exact hto
        have : WalkLoop M con s cl pp (2 * cl.Edges.length + 1 + 1)
            (BeginWalk con (ResetCell cell s) s cl) =
            some (.Exit (BeginWalk con (ResetCell cell s) s cl)) := by
          rw [WalkLoop, if_pos h0]
        rw [this] at hwl
        cases hwl
      · have hinv0 : (fun w : FWalk => w.To.Node ≠ -1 ∧
            H64 w.From.Node w.To.Node ∈ HalfEdgeKeys cl ∧
            ∀ k ∈ w.SignedEdges, k ∈ HalfEdgeKeys cl) (BeginWalk con (ResetCell cell s) s cl) := by
          have hf := BeginWalk_fields con cell s cl
          refine ⟨by rw [hf.2.1]; exact hto, by rw [hf.1, hf.2.1]; exact Seed_key cl hw s hs hto, ?_⟩
          intro k hkk
          rw [hf.2.2.2] at hkk
          simp at hkk
        obtain ⟨w1, ⟨_, _, hsub⟩, hbody⟩ := WalkLoop_return_inv M con s cl pp
          (fun w : FWalk => w.To.Node ≠ -1 ∧ H64 w.From.Node w.To.Node ∈ HalfEdgeKeys cl ∧
            ∀ k ∈ w.SignedEdges, k ∈ HalfEdgeKeys cl)
          (by
            intro w w1 ⟨_, hkey, hsub⟩ hb1
            have hc := LoopBody_continue M con s cl pp w w1 hb1
            obtain ⟨_, _, _, hfrom, hnext, hne, _, _, hset, _⟩ := hc
            refine ⟨hne, ?_, ?_⟩
            · rw [hfrom]
              apply Link_key cl hw
              rw [hnext]
              apply NextLink_mem
              rw [← hnext]; exact hne
            · intro k hk1
              rw [hset, Finset.mem_insert] at hk1
              rcases hk1 with e | e
              · rw [e]; exact hkey
              · exact hsub k e)
          _ _ _ c1 hinv0 hwl
        have hcard := LoopBody_malformed M con s cl pp w1 c1 hbody
        have := subset_keys_card cl w1.SignedEdges hsub
        omega

/-- Witness of C22: the degenerate cluster is well formed, its seed node 0 -> edge 0 lies on its
edge, and the build from it returns a result other than `MalformedCluster`. -/
theorem C22_never_malformed_witness :
    DegenerateCluster.WellFormed ∧ SeedOnEdge DegenerateCluster ⟨0, 0⟩ ∧
    ∃ r c con1, BuildFromCluster RefMath {} {} ⟨0, 0⟩ DegenerateCluster DegeneratePositions =
        some (r, c, con1) ∧ r ≠ .MalformedCluster :=
  ⟨by decide, by decide,
    C22_never_malformed RefMath {} {} ⟨0, 0⟩ DegenerateCluster DegeneratePositions
      (by decide) (by decide)⟩

/-! ## Orientation in lock-step -/

/-- A cell given by `SuccessCell` is the cell of a build that returned `Success`. -/
theorem SuccessCell_some (M : FMathKernel) (con : FCellConstraints) (cell : FCell) (s : FLink)
    (cl : FCluster) (pp : List FVector2D) (c : FCell)
    (h : SuccessCell M con cell s cl pp = some c) :
    ∃ con1, BuildFromCluster M con cell s cl pp = some (.Success, c, con1) := by
  unfold SuccessCell at h
  split at h
  · rename_i c1 con1 heq
    injection h with h
    subst h
    exact ⟨con1, heq⟩
  · cases h

/-- The orientation step of the completion checks, when they end in `Success` or `WrapperCell`:
`Nodes` and the polygon vertices are the canonical ones, both reversed when the polygon of the
canonical order is not wound as asked. -/
theorem FinishCell_oriented (M : FMathKernel) (con : FCellConstraints) (cl : FCluster)
    (pp : List FVector2D) (n : Int) (m : FPathMetrics) (c : FCell)
    (hr : (FinishCell M con cl pp n m c).1 = .Success ∨ (FinishCell M con cl pp n m c).1 = .WrapperCell) :
    (FinishCell M con cl pp n m c).2.1.Nodes =
      (if (FPolygonInfos.Make M (c.Nodes.map (ProjectedVertex cl pp))).IsWinded con.Winding = true
        then c.Nodes else c.Nodes.reverse) ∧
    (FinishCell M con cl pp n m c).2.1.Polygon =
      (if (FPolygonInfos.Make M (c.Nodes.map (ProjectedVertex cl pp))).IsWinded con.Winding = true
        then c.Nodes.map (ProjectedVertex cl pp) else (c.Nodes.map (ProjectedVertex cl pp)).reverse) := by
  have hV : (c.Finalize n m).Vertices cl pp = c.Nodes.map (ProjectedVertex cl pp) := rfl
  have hO : ∀ (P : FPolygonInfos),
      (((c.Finalize n m).Orient con.Winding (c.Nodes.map (ProjectedVertex cl pp)) P).ScaleArea.Nodes =
        (if P.IsWinded con.Winding = true then c.Nodes else c.Nodes.reverse)) ∧
      (((c.Finalize n m).Orient con.Winding (c.Nodes.map (ProjectedVertex cl pp)) P).ScaleArea.Polygon =
        (if P.IsWinded con.Winding = true then c.Nodes.map (ProjectedVertex cl pp)
          else (c.Nodes.map (ProjectedVertex cl pp)).reverse)) := by
    intro P
    unfold FCell.ScaleArea FCell.Orient FCell.Finalize
    cases P.IsWinded con.Winding <;> simp
  unfold FinishCell at hr ⊢
  simp only [hV] at hr ⊢
  by_cases h1 : con.MinSegmentLength > FVector.Dist M
      (cl.GetPos (cl.GetNode (Get (c.Finalize n m).Nodes 0)))
      (cl.GetPos (cl.GetNode (LastN (c.Finalize n m).Nodes 0))) ∨
      FVector.Dist M
      (cl.GetPos (cl.GetNode (Get (c.Finalize n m).Nodes 0)))
      (cl.GetPos (cl.GetNode (LastN (c.Finalize n m).Nodes 0))) > con.MaxSegmentLength
  · rw [if_pos h1] at hr; simp at hr
  rw [if_neg h1] at hr ⊢
  by_cases h2 : (c.Finalize n m).Data.Perimeter < con.MinPerimeter ∨
      (c.Finalize n m).Data.Perimeter > con.MaxPerimeter
  · rw [if_pos h2] at hr; simp at hr
  rw [if_neg h2] at hr ⊢
  by_cases h3 : con.bConcaveOnly = true ∧ (c.Finalize n m).Data.bIsConvex = true
  · rw [if_pos h3] at hr; simp at hr
  rw [if_neg h3] at hr ⊢
  by_cases h4 : n < con.MinPointCount
  · rw [if_pos h4] at hr; simp at hr
  rw [if_neg h4] at hr ⊢
  by_cases h5 : FVector.Length M (c.Finalize n m).Data.Bounds.GetSize < con.MinBoundsSize
  · rw [if_pos h5] at hr; simp at hr
  rw [if_neg h5] at hr ⊢
  by_cases h6 : (CheckHoles M con.Holes (((c.Finalize n m).Orient con.Winding
      (c.Nodes.map (ProjectedVertex cl pp))
      (FPolygonInfos.Make M (c.Nodes.map (ProjectedVertex cl pp)))).Polygon)).1 = true
  · rw [if_pos h6] at hr; simp at hr
  rw [if_neg h6] at hr ⊢
  by_cases h7 : con.MinCompactness > ((c.Finalize n m).Orient con.Winding
      (c.Nodes.map (ProjectedVertex cl pp))
      (FPolygonInfos.Make M (c.Nodes.map (ProjectedVertex cl pp)))).Data.Compactness ∨
      ((c.Finalize n m).Orient con.Winding
      (c.Nodes.map (ProjectedVertex cl pp))
      (FPolygonInfos.Make M (c.Nodes.map (ProjectedVertex cl pp)))).Data.Compactness > con.MaxCompactness
  · rw [if_pos h7] at hr; simp at hr
  rw [if_neg h7] at hr ⊢
  by_cases h8 : con.MinArea > ((c.Finalize n m).Orient con.Winding
      (c.Nodes.map (ProjectedVertex cl pp))
      (FPolygonInfos.Make M (c.Nodes.map (ProjectedVertex cl pp)))).ScaleArea.Data.Area ∨
      ((c.Finalize n m).Orient con.Winding
      (c.Nodes.map (ProjectedVertex cl pp))
      (FPolygonInfos.Make M (c.Nodes.map (ProjectedVertex cl pp)))).ScaleArea.Data.Area > con.MaxArea
  · rw [if_pos h8] at hr; simp at hr
  rw [if_neg h8] at hr ⊢
  obtain ⟨a, b⟩ := hO (FPolygonInfos.Make M (c.Nodes.map (ProjectedVertex cl pp)))
  rw [← a, ← b]
  cases hW : con.WrapperCell with
  | none => exact ⟨rfl, rfl⟩
  | some W =>
    simp only
    split_ifs <;> exact ⟨rfl, rfl⟩

/-- C23: on `Success` the node array and the polygon vertices are oriented in lock-step.  With
`Canon` the canonical node array of the walk, `Nodes` is `Canon` and the vertices are the projected
positions of `Canon` when the polygon of the canonical order is wound as `Constraints.Winding`
asks, and both are reversed otherwise; hence the vertices are the projected positions of `Nodes`,
entry by entry, and the two arrays have the same length. -/
theorem C23_oriented_in_lockstep (M : FMathKernel) (con : FCellConstraints) (cell : FCell)
    (s : FLink) (cl : FCluster) (pp : List FVector2D) (c : FCell)
    (h : SuccessCell M con cell s cl pp = some c) :
    (∃ Canon, WalkCanon M con cell s cl pp = some Canon ∧
      c.Nodes = (if (FPolygonInfos.Make M (Canon.map (ProjectedVertex cl pp))).IsWinded con.Winding = true
        then Canon else Canon.reverse) ∧
      c.Polygon = (if (FPolygonInfos.Make M (Canon.map (ProjectedVertex cl pp))).IsWinded con.Winding = true
        then Canon.map (ProjectedVertex cl pp) else (Canon.map (ProjectedVertex cl pp)).reverse)) ∧
    c.Polygon = c.Nodes.map (ProjectedVertex cl pp) ∧
    c.Polygon.length = c.Nodes.length ∧
    ∀ i : Nat, c.Polygon[i]? = (c.Nodes[i]?).map (ProjectedVertex cl pp) := by
  obtain ⟨con1, hb⟩ := SuccessCell_some M con cell s cl pp c h
  obtain ⟨w, hw, _, _, hF, hC⟩ := BuildFromCluster_finished M con cell s cl pp _ c con1 hb (Or.inl rfl)
  obtain ⟨hN, hP⟩ := FinishCell_oriented M con cl pp w.NumUniqueNodes w.Metrics
    { (HashedCell w).2 with bBuiltSuccessfully := true } (Or.inl hF)
  rw [hC] at hN hP
  simp only [HashedCell_Nodes] at hN hP
  have hmap : c.Polygon = c.Nodes.map (ProjectedVertex cl pp) := by
    rw [hN, hP]
    split_ifs
    · rfl
    · rw [List.map_reverse]
  refine ⟨⟨ShiftArrayToSmallest w.Cell.Nodes, ?_, hN, hP⟩, hmap, ?_, ?_⟩
  · unfold WalkCanon
    rw [hw]
  · rw [hmap, List.length_map]
  · intro i
    rw [hmap, List.getElem?_map]

/-- Witness of C23: the concave quadrilateral traced from node 1 -> node 0 has the canonical order
0, 3, 2, 1 and is stored reversed, nodes 1, 2, 3, 0 with their four projected positions in the
same order. -/
theorem C23_oriented_in_lockstep_witness :
    SuccessCell RefMath {} {} ⟨1, 0⟩ ConcaveCluster ConcavePositions = some ConcaveCellReversed ∧
    WalkCanon RefMath {} {} ⟨1, 0⟩ ConcaveCluster ConcavePositions = some [0, 3, 2, 1] ∧
    ConcaveCellReversed.Nodes = [1, 2, 3, 0] ∧
    ConcaveCellReversed.Polygon = [⟨4, 0⟩, ⟨1, 1⟩, ⟨0, 4⟩, ⟨0, 0⟩] ∧
    ConcaveCellReversed.Polygon = ConcaveCellReversed.Nodes.map
      (ProjectedVertex ConcaveCluster ConcavePositions) :=
  ⟨by decide!, by decide!, by decide!, by decide!,
    (C23_oriented_in_lockstep RefMath {} {} ⟨1, 0⟩ ConcaveCluster ConcavePositions
      ConcaveCellReversed (by decide!)).2.1⟩

/-! ## Which triangles the ear clipping emits -/

/-- The triangles that the ear-clipping loop appends are those of its emissions: at every
emission the triangle of `Nodes[0]`, `Nodes[i]`, `Nodes[i + 1]` with `i` the scan counter. -/
theorem EarLoop_trace (F : FVector → FVector → FVector → FVector → Bool) (b : Bool) (Cell : FCell)
    (pos : List FVector) (cl : FCluster) :
    ∀ (fuel : Nat) (q : List Int) (k : FEarCursor) (st : List FTriangle × FCluster)
      (r : ETriangulationResult) (out : List FTriangle) (cl1 : FCluster),
      (∀ n, (st.2.GetNode n).PointIndex = (cl.GetNode n).PointIndex) →
      EarLoop F b Cell pos fuel q k st = some (r, out, cl1) →
      out = st.1 ++ (EarTrace F b Cell pos fuel q k st).map
        (fun t => FanTriangle Cell pos cl t.Counter) := by
  intro fuel
  induction fuel with
  | zero =>
    intro q k st r out cl1 _ h
    rw [EarLoop] at h
    split_ifs at h
    injection h with h; injection h with _ h; injection h with h _
    rw [EarTrace, ← h]; simp
  | succ n ih =>
    intro q k st r out cl1 hinv h
    rw [EarLoop] at h
    rw [EarTrace]
    by_cases h2 : q.length > 2
    · rw [if_pos h2] at h ⊢
      cases hs : ScanForEar F Cell pos st.2 q q.length 0 k with
      | none =>
        rw [hs] at h
        simp only at h ⊢
        injection h with h; injection h with _ h; injection h with h _
        rw [← h]; simp
      | some ie =>
        obtain ⟨i, ke⟩ := ie
        rw [hs] at h
        simp only at h ⊢
        have e := EmitTriangle_eq b Cell pos cl st i hinv
        have := ih _ _ _ r out cl1 e.2 h
        rw [this, e.1]
        simp
    · rw [if_neg h2] at h ⊢
      injection h with h; injection h with _ h; injection h with h _
      rw [← h]; simp

/-- C24, failing input: the built concave quadrilateral 0, 1, 2, 3.  On the flat position table
the ears tested are the corners (3, 0, 1) and (2, 3, 1), yet the triangles appended are (0, 0, 1)
twice; on the tilted table the ears tested are (0, 1, 2) and (0, 3, 2), yet the triangles appended
are (0, 1, 2) and (0, 0, 1).  The appended triangle is the one of `Nodes[0]`, `Nodes[i]`,
`Nodes[i + 1]` with `i` the scan counter, not the ear at the cursor. -/
theorem C24_emitted_triangle_is_not_the_ear :
    (ConcaveCell.Nodes, ConcaveCell.bBuiltSuccessfully, ConcaveCell.Data.bIsConvex) =
      ([0, 1, 2, 3], true, false) ∧
    (ConcaveCell.Triangulate RefIsPointInTriangle false (Flat ConcavePositions) []
        (some ConcaveCluster)).map (fun r => (r.1, r.2.1)) =
      some (ETriangulationResult.Success, [⟨0, 0, 1⟩, ⟨0, 0, 1⟩]) ∧
    (ConcaveCell.EarClippingTrace RefIsPointInTriangle false (Flat ConcavePositions) []
        ConcaveCluster).map (EarCorner ConcaveCell ConcaveCluster) = [⟨3, 0, 1⟩, ⟨2, 3, 1⟩] ∧
    (ConcaveCell.Triangulate RefIsPointInTriangle false (Tilted ConcavePositions) []
        (some ConcaveCluster)).map (fun r => (r.1, r.2.1)) =
      some (ETriangulationResult.Success, [⟨0, 1, 2⟩, ⟨0, 0, 1⟩]) ∧
    (ConcaveCell.EarClippingTrace RefIsPointInTriangle false (Tilted ConcavePositions) []
        ConcaveCluster).map (EarCorner ConcaveCell ConcaveCluster) = [⟨0, 1, 2⟩, ⟨0, 3, 2⟩] := by
  decide!

/-- C25, failing input: a built cell with the three nodes of the triangle whose convexity flag is
false, set by hand or left over in the cell object on which `BuildFromCluster` then returns
`Success` (the build never resets the flag).  `Triangulate` sends it to the fan strategy, whose
guard answers `UnsupportedAspect` and appends no triangle; with the flag true the same cell gives
`Success` and one triangle. -/
theorem C25_triangle_cell_unsupported :
    (SuccessCell RefMath {} { Data := { bIsConvex := false } } ⟨0, 0⟩ TriangleCluster
        TrianglePositions).map (fun c => (c.Nodes, c.bBuiltSuccessfully, c.Data.bIsConvex)) =
      some ([0, 1, 2], true, false) ∧
    ((SuccessCell RefMath {} { Data := { bIsConvex := false } } ⟨0, 0⟩ TriangleCluster
        TrianglePositions).bind
      (fun c => c.Triangulate RefIsPointInTriangle false (Flat TrianglePositions) []
        (some TriangleCluster))).map
      (fun r => (r.1, r.2.1)) = some (ETriangulationResult.UnsupportedAspect, []) ∧
    (({ Nodes := [0, 1, 2], bBuiltSuccessfully := true, Data := { bIsConvex := false } } : FCell).Triangulate
        RefIsPointInTriangle false (Flat TrianglePositions) [] (some TriangleCluster)).map
      (fun r => (r.1, r.2.1)) = some (ETriangulationResult.UnsupportedAspect, []) ∧
    (({ Nodes := [0, 1, 2], bBuiltSuccessfully := true, Data := { bIsConvex := true } } : FCell).Triangulate
        RefIsPointInTriangle false (Flat TrianglePositions) [] (some TriangleCluster)).map
      (fun r => (r.1, r.2.1)) = some (ETriangulationResult.Success, [⟨0, 1, 2⟩]) := by
  decide!

/-- C26, failing input: the cluster whose nodes 0, 1, 2, 3 are the points 3, 1, 2, 0, and the cell
of its triangle of nodes 0, 1, 2.  With marking enabled `Triangulate` returns `Success` with the
triangle of the point indices 3, 1, 2 and flags the nodes 1, 2 and 3: node 0, a vertex of the
cell, is not flagged and node 3, which is not in the cell, is. -/
theorem C26_marking_uses_point_indices :
    (SuccessCell RefMath {} {} ⟨0, 0⟩ ShiftedCluster ShiftedPositions).map (fun c => c.Nodes) =
      some [0, 1, 2] ∧
    ((SuccessCell RefMath {} {} ⟨0, 0⟩ ShiftedCluster ShiftedPositions).bind
        (fun c => c.Triangulate RefIsPointInTriangle true (Flat ShiftedPositions) []
          (some ShiftedCluster))).map
      (fun r => (r.1, r.2.1, r.2.2.map (fun cl => cl.Nodes.map (fun n => n.bValid)))) =
      some (ETriangulationResult.Success, [⟨3, 1, 2⟩], some [0, 1, 1, 1]) := by
  decide!

/-- Outside the plane `Z = 0` the box test can let queue vertices through and a scan can go on
past its first step: on the cell of the six-node cycle drawn with crossing sides, with positions
in the tilted plane `Z = X` (which no projection produces), the first ear is found at scan counter
5 while the queue holds 6 entries, and the emission reads `Nodes[5 + 1]` of a cell with 6 nodes. -/
theorem EarClipping_counter_outside_the_plane :
    (CrossedCell.Nodes, CrossedCell.bBuiltSuccessfully, CrossedCell.Data.bIsConvex) =
      ([0, 1, 2, 3, 4, 5], true, false) ∧
    (CrossedCell.EarClippingTrace RefIsPointInTriangle false (Tilted CrossedPositions) []
        CrossedCluster).map (fun t => (t.Counter, t.Counter + 1, t.Queue.length)) =
      [(5, 6, 6), (0, 1, 5), (0, 1, 4), (0, 1, 3)] ∧
    (CrossedCell.Triangulate RefIsPointInTriangle false (Tilted CrossedPositions) []
        (some CrossedCluster)).map (fun r => r.1) = some ETriangulationResult.Success := by
  decide!

/-! ## The built flag after a build -/

/-- Appending a node, growing the bounds and duplicating a leaf do not touch the built flag. -/
theorem Cell3_built (c : FCell) (con : FCellConstraints) (n : FNode) (i : Int) (RP : FVector) :
    (((c.AddNode i RP).AddBounds RP).DuplicateLeaf con n).bBuiltSuccessfully = c.bBuiltSuccessfully := by
  unfold FCell.DuplicateLeaf FCell.AddBounds FCell.AddNode
  split_ifs <;> rfl

/-- An iteration of the walk loop does not touch the built flag. -/
theorem LoopBody_built (M : FMathKernel) (con : FCellConstraints) (seed : FLink)
    (cl : FCluster) (pp : List FVector2D) (w : FWalk) :
    (LoopBody M con seed cl pp w).Cell.bBuiltSuccessfully = w.Cell.bBuiltSuccessfully := by
  unfold LoopBody
  simp only
  by_cases h1 : (w.SignedEdges.card : Int) > (cl.Edges.length : Int) * 2
  · rw [if_pos h1]; rfl
  rw [if_neg h1]
  by_cases h2 : H64 w.From.Node w.To.Node ∈ w.SignedEdges
  · rw [if_pos h2]
    by_cases h3 : w.To.Edge = seed.Edge ∨ w.To.Node = seed.Node
    · rw [if_pos h3]; rfl
    · rw [if_neg h3]; rfl
  rw [if_neg h2]
  by_cases h4 : (FPathMetrics.Add M w.Metrics (cl.GetPos (cl.GetNode w.To.Node))).2.Length > con.MaxPerimeter
  · rw [if_pos h4]; rfl
  rw [if_neg h4]
  by_cases h5 : (FPathMetrics.Add M w.Metrics (cl.GetPos (cl.GetNode w.To.Node))).1 < con.MinSegmentLength ∨
      (FPathMetrics.Add M w.Metrics (cl.GetPos (cl.GetNode w.To.Node))).1 > con.MaxSegmentLength
  · rw [if_pos h5]; rfl
  rw [if_neg h5]
  by_cases h6 : w.NumUniqueNodes + 1 > con.MaxPointCount
  · rw [if_pos h6]; rfl
  rw [if_neg h6]
  by_cases h7 : FVector.Length M
      ((w.Cell.AddNode (cl.GetNode w.To.Node).Index (cl.GetPos (cl.GetNode w.To.Node))).AddBounds
        (cl.GetPos (cl.GetNode w.To.Node))).Data.Bounds.GetSize > con.MaxBoundsSize
  · rw [if_pos h7]; rfl
  rw [if_neg h7]
  by_cases h8 : (NextLink M cl pp w.From w.To).Node = -1
  · rw [if_pos h8]; exact Cell3_built _ _ _ _ _
  rw [if_neg h8]
  by_cases h9 : (cl.GetNode (NextLink M cl pp w.From w.To).Node).Num = 1 ∧ ¬ con.bKeepCellsWithLeaves = true
  · rw [if_pos h9]; exact Cell3_built _ _ _ _ _
  rw [if_neg h9, if_neg h6]
  by_cases h10 : w.NumUniqueNodes + 1 > 2
  · rw [if_pos h10]
    by_cases h11 : con.bConvexOnly = true ∧ ¬ ((((w.Cell.AddNode (cl.GetNode w.To.Node).Index
        (cl.GetPos (cl.GetNode w.To.Node))).AddBounds (cl.GetPos (cl.GetNode w.To.Node))).DuplicateLeaf con
        (cl.GetNode w.To.Node)).CheckConvexLast cl).Data.bIsConvex = true
    · rw [if_pos h11]; exact Cell3_built _ _ _ _ _
    · rw [if_neg h11]; exact Cell3_built _ _ _ _ _
  · rw [if_neg h10]; exact Cell3_built _ _ _ _ _

/-- The walk loop does not touch the built flag. -/
theorem WalkLoop_built (M : FMathKernel) (con : FCellConstraints) (seed : FLink)
    (cl : FCluster) (pp : List FVector2D) :
    ∀ (fuel : ℕ) (w : FWalk) (f : FFlow), WalkLoop M con seed cl pp fuel w = some f →
      f.Cell.bBuiltSuccessfully = w.Cell.bBuiltSuccessfully := by
  intro fuel
  induction fuel with
  | zero => intro w f h; simp [WalkLoop] at h
  | succ n ih =>
    intro w f h
    rw [WalkLoop] at h
    by_cases h0 : w.To.Node = -1
    · rw [if_pos h0] at h; injection h with h; rw [← h]; rfl
    · rw [if_neg h0] at h
      have hb := LoopBody_built M con seed cl pp w
      cases hl : LoopBody M con seed cl pp w with
      | Continue w1 =>
        rw [hl] at h hb
        rw [ih w1 f h]; exact hb
      | Exit w1 => rw [hl] at h hb; simp only at h; injection h with h; rw [← h]; exact hb
      | Return r c => rw [hl] at h hb; simp only at h; injection h with h; rw [← h]; exact hb

/-- The completion checks do not touch the built flag. -/
theorem FinishCell_built (M : FMathKernel) (con : FCellConstraints) (cl : FCluster)
    (pp : List FVector2D) (n : Int) (m : FPathMetrics) (c : FCell) :
    (FinishCell M con cl pp n m c).2.1.bBuiltSuccessfully = c.bBuiltSuccessfully := by
  unfold FinishCell
  simp only
  split_ifs
  all_goals first
    | rfl
    | skip
  all_goals split
  all_goals first
    | rfl
    | skip
  all_goals split_ifs
  all_goals rfl

/-- The canonical cell keeps the built flag of the walk. -/
theorem HashedCell_built (w : FWalk) :
    (HashedCell w).2.bBuiltSuccessfully = w.Cell.bBuiltSuccessfully := by
  unfold HashedCell FCell.GetCellHash
  split_ifs <;> rfl

/-- The built flag after the completion of a walk whose cell is not built: set exactly when the
walk counted more than two nodes, closed, and the hash is new. -/
theorem CompleteCell_built (M : FMathKernel) (con : FCellConstraints) (cl : FCluster)
    (pp : List FVector2D) (w : FWalk) (hw : w.Cell.bBuiltSuccessfully = false) :
    (CompleteCell M con cl pp w).2.1.bBuiltSuccessfully =
      (!decide (w.NumUniqueNodes ≤ 2) && w.Cell.Data.bIsClosedLoop &&
        decide ((HashedCell w).1 ∉ con.UniquePathsHashSet)) ∧
    ((CompleteCell M con cl pp w).1 = .Success →
      (CompleteCell M con cl pp w).2.1.bBuiltSuccessfully = true) := by
  by_cases h1 : w.NumUniqueNodes ≤ 2
  · have e : CompleteCell M con cl pp w = (.Leaf, w.Cell, con) := by
      simp [CompleteCell, h1]
    rw [e]
    simp [h1, hw]
  by_cases h2 : w.Cell.Data.bIsClosedLoop = true
  swap
  · have e : CompleteCell M con cl pp w = (.OpenCell, w.Cell, con) := by
      simp [CompleteCell, h1, h2]
    rw [e]
    simp [h2, hw]
  by_cases hP : (HashedCell w).1 ∈ con.UniquePathsHashSet
  · rw [CompleteCell_duplicate M con cl pp w h1 h2 hP]
    simp [hP, HashedCell_built, hw]
  · rw [CompleteCell_unique M con cl pp w h1 h2 hP]
    simp only [FinishCell_built]
    simp [h1, h2, hP]

/-- C28, counterexample: the unit square with `MinPointCount = 10` is rejected with
`OutsidePointsLimit`, and with a wrapper cell of its area it is classified `WrapperCell`; in both
cases the cell is left with the built flag set. -/
theorem C28_built_flag_counterexample :
    (BuildFromCluster RefMath { MinPointCount := 10 } {} ⟨0, 0⟩ SquareCluster SquarePositions).map
      (fun x => (x.1, x.2.1.bBuiltSuccessfully)) = some (ECellResult.OutsidePointsLimit, true) ∧
    (BuildFromCluster RefMath
        { WrapperCell := some { Data := { Area := 1 / 100 } }, WrapperClassificationTolerance := 1 / 1000 }
        {} ⟨0, 0⟩ SquareCluster SquarePositions).map
      (fun x => (x.1, x.2.1.bBuiltSuccessfully)) = some (ECellResult.WrapperCell, true) := by
  decide!

/-- C28, amended: after `BuildFromCluster` returns, the built flag is true exactly when the build
got past the uniqueness check (the seed half-edge was new, the walk loop was left closed with more
than two counted nodes, and the hash of the canonical cell was new); in particular it is true
whenever the result is `Success`. -/
theorem C28_built_flag (M : FMathKernel) (con : FCellConstraints) (cell : FCell) (s : FLink)
    (cl : FCluster) (pp : List FVector2D) (r : ECellResult) (b : Bool)
    (h : (BuildFromCluster M con cell s cl pp).map (fun x => (x.1, x.2.1.bBuiltSuccessfully)) =
      some (r, b)) :
    b = ReachesCompletion M con cell s cl pp ∧ (r = .Success → b = true) := by
  obtain ⟨⟨r1, c, con1⟩, hb, hx⟩ := Option.map_eq_some'.mp h
  simp only [Prod.mk.injEq] at hx
  obtain ⟨hr, hcb⟩ := hx
  subst hr; subst hcb
  have h0 : (BeginWalk con (ResetCell cell s) s cl).Cell.bBuiltSuccessfully = false := rfl
  by_cases hk : H64 s.Node (SeedTo cl s).Node ∈ con.UniqueStartHalfEdgesHash
  · rw [BuildFromCluster_start_duplicate _ _ _ _ _ _ hk] at hb
    injection hb with hb; injection hb with hr hb; injection hb with hc _
    subst hr; subst hc
    refine ⟨?_, fun e => by cases e⟩
    unfold ReachesCompletion
    split
    · simp [hk, ResetCell]
    · rfl
  · rw [BuildFromCluster_start_unique _ _ _ _ _ _ hk] at hb
    cases hw : WalkLoop M con s cl pp (2 * cl.Edges.length + 2) (BeginWalk con (ResetCell cell s) s cl) with
    | none => rw [hw] at hb; cases hb
    | some f =>
      have hbuilt := WalkLoop_built M con s cl pp _ _ f hw
      rw [h0] at hbuilt
      cases f with
      | Continue w => exact absurd hw (WalkLoop_not_continue M con s cl pp _ _ w)
      | Return r2 c2 =>
        rw [hw] at hb; simp only at hb
        injection hb with hb; injection hb with hr hb; injection hb with hc _
        subst hr; subst hc
        refine ⟨?_, fun e => absurd e (WalkLoop_return_ne_success M con s cl pp _ _ _ _ hw)⟩
        unfold ReachesCompletion
        rw [hw]
        exact hbuilt
      | Exit w =>
        rw [hw] at hb; simp only at hb
        injection hb with hb
        have hc := CompleteCell_built M (con.WithSets
            (insert (H64 s.Node (SeedTo cl s).Node) con.UniqueStartHalfEdgesHash)
            con.UniquePathsHashSet) cl pp w hbuilt
        rw [hb] at hc
        refine ⟨?_, hc.2⟩
        unfold ReachesCompletion
        rw [hw]
        simp only at hc ⊢
        rw [hc.1]
        simp [hk, FCellConstraints.WithSets]

/-- Witness of C28: the unit square with `MinPointCount = 10` gets past the uniqueness check and
is left built, although the result is `OutsidePointsLimit`. -/
theorem C28_built_flag_witness :
    (BuildFromCluster RefMath { MinPointCount := 10 } {} ⟨0, 0⟩ SquareCluster SquarePositions).map
      (fun x => (x.1, x.2.1.bBuiltSuccessfully)) = some (ECellResult.OutsidePointsLimit, true) ∧
    ReachesCompletion RefMath { MinPointCount := 10 } {} ⟨0, 0⟩ SquareCluster SquarePositions = true :=
  ⟨by decide!,
    ((C28_built_flag RefMath { MinPointCount := 10 } {} ⟨0, 0⟩ SquareCluster SquarePositions
      .OutsidePointsLimit true (by decide!)).1).symm⟩

/-- C29, failing input: the concave quadrilateral on fresh default constraints.  Traced from node
2 -> node 1 the build returns `Success` with nodes 1, 2, 3, 0 and the convexity flag true, although
the turns at node 1 and at node 2 have opposite orientation signs; traced from node 1 -> node 0 it
returns the same nodes with the flag false. -/
theorem C29_seed_turn_not_checked :
    (BuildFromCluster RefMath {} {} ⟨2, 1⟩ ConcaveCluster ConcavePositions).map
        (fun x => (x.1, x.2.1.Nodes, x.2.1.Data.bIsConvex)) =
      some (ECellResult.Success, [1, 2, 3, 0], true) ∧
    (BuildFromCluster RefMath {} {} ⟨1, 0⟩ ConcaveCluster ConcavePositions).map
        (fun x => (x.1, x.2.1.Nodes, x.2.1.Data.bIsConvex)) =
      some (ECellResult.Success, [1, 2, 3, 0], false) ∧
    (CheckConvex (ConcaveCluster.GetPos (ConcaveCluster.GetNode 0))
        (ConcaveCluster.GetPos (ConcaveCluster.GetNode 1))
        (ConcaveCluster.GetPos (ConcaveCluster.GetNode 2)) true 0).2 = 1 ∧
    (CheckConvex (ConcaveCluster.GetPos (ConcaveCluster.GetNode 1))
        (ConcaveCluster.GetPos (ConcaveCluster.GetNode 2))
        (ConcaveCluster.GetPos (ConcaveCluster.GetNode 3)) true 0).2 = -1 := by
  decide!

/-! ## The wrapper cell and the uniqueness check -/

/-- What `BuildWrapperCell` leaves behind when its trace succeeds: the traced cell is stored as the
wrapper cell and its hash is in the set of the constraints the function was called on, whether the
trace ran on temporary constraints or on constraints passed in. -/
theorem BuildWrapperCell_records (M : FMathKernel) (This : FCellConstraints) (cl : FCluster)
    (pp : List FVector2D) (InConstraints : Option FCellConstraints) (Link : FLink) (c : FCell)
    (t : FCellConstraints) (hs : WrapperSeed M cl pp = some Link)
    (hb : BuildFromCluster M (TempConstraintsOf This InConstraints) {} Link cl pp =
      some (.Success, c, t)) :
    ∃ T1 W, This.BuildWrapperCell M cl pp InConstraints = some (T1, t) ∧
      T1.WrapperCell = some W ∧ W.Nodes = c.Nodes ∧
      W.GetCellHash.1 ∈ T1.UniquePathsHashSet ∧ c.GetCellHash.1 ∈ T1.UniquePathsHashSet := by
  have hidem : (c.GetCellHash.2).GetCellHash.1 = c.GetCellHash.1 := by
    unfold FCell.GetCellHash
    by_cases h0 : c.CellHash ≠ 0
    · simp [h0]
    · simp only [h0, if_false]
      by_cases h1 : c.Nodes.foldl (fun acc n => HashCombineFast acc (ToUInt32 n)) c.CellHash ≠ 0
      · simp [h1]
      · have e0 : c.CellHash = 0 := by simpa using h0
        simp only [ne_eq, not_not] at h1
        rw [e0] at h1
        simp [h1, e0]
  have hnodes : (c.GetCellHash.2).Nodes = c.Nodes := by
    unfold FCell.GetCellHash
    split_ifs <;> rfl
  have hmem : c.GetCellHash.1 ∈ (This.IsUniqueCellHash c).2.2.UniquePathsHashSet := by
    unfold FCellConstraints.IsUniqueCellHash
    simp only
    split_ifs with h
    · exact h
    · simp
  have hcell : (This.IsUniqueCellHash c).2.1 = c.GetCellHash.2 := by
    unfold FCellConstraints.IsUniqueCellHash
    simp only
    split_ifs <;> rfl
  refine ⟨{ (This.IsUniqueCellHash c).2.2 with WrapperCell := some (This.IsUniqueCellHash c).2.1 },
    (This.IsUniqueCellHash c).2.1, ?_, rfl, ?_, ?_, hmem⟩
  · unfold FCellConstraints.BuildWrapperCell
    rw [hs]
    simp only
    rw [hb]
  · rw [hcell, hnodes]
  · rw [hcell, hidem]
    exact hmem

/-- C30, failing input: the kite (a triangle with a leaf on node 0) with a wrapper tolerance of
1/1000.  `BuildWrapperCell` seeds at node 2 -> edge 1, stores the outer boundary 1, 2, 0, 3, 0 as
the wrapper cell and records its hash in the constraints it was called on.  A later build on those
constraints from node 0 -> edge 2 walks the same boundary in the same direction (its canonical
array is a rotation of the wrapper one that also begins with the minimum index 0), is not a
`Duplicate`, and returns `WrapperCell`, or `Success` when the tolerance is 0; the build from the
wrapper seed itself returns `Duplicate`. -/
theorem C30_wrapper_retraced_not_duplicate :
    WrapperSeed RefMath KiteCentred KitePositions = some ⟨2, 1⟩ ∧
    (({ WrapperClassificationTolerance := 1 / 1000 } : FCellConstraints).BuildWrapperCell RefMath
        KiteCentred KitePositions none).map
      (fun r => (r.1.WrapperCell.map (fun c => (c.Nodes, c.CellHash)), r.1.UniquePathsHashSet)) =
      some (some ([1, 2, 0, 3, 0], 2347967147), {2347967147}) ∧
    WalkCanon RefMath {} {} ⟨2, 1⟩ KiteCentred KitePositions = some [0, 3, 0, 2, 1] ∧
    WalkCanon RefMath {} {} ⟨0, 2⟩ KiteCentred KitePositions = some [0, 2, 1, 0, 3] ∧
    ((({ WrapperClassificationTolerance := 1 / 1000 } : FCellConstraints).BuildWrapperCell RefMath
        KiteCentred KitePositions none).bind
      (fun r => BuildFromCluster RefMath r.1 {} ⟨0, 2⟩ KiteCentred KitePositions)).map
      (fun x => (x.1, x.2.1.Nodes)) = some (ECellResult.WrapperCell, [3, 0, 1, 2, 0]) ∧
    ((({} : FCellConstraints).BuildWrapperCell RefMath KiteCentred KitePositions none).bind
      (fun r => BuildFromCluster RefMath r.1 {} ⟨0, 2⟩ KiteCentred KitePositions)).map
      (fun x => (x.1, x.2.1.Nodes)) = some (ECellResult.Success, [3, 0, 1, 2, 0]) ∧
    ((({ WrapperClassificationTolerance := 1 / 1000 } : FCellConstraints).BuildWrapperCell RefMath
        KiteCentred KitePositions none).bind
      (fun r => BuildFromCluster RefMath r.1 {} ⟨2, 1⟩ KiteCentred KitePositions)).map
      (fun x => x.1) = some ECellResult.Duplicate := by
  decide!

/-! ## Deduplication by cell hash (C1) -/

/-- Without a holes object the completion checks return none. -/
theorem FinishCell_holes (M : FMathKernel) (con : FCellConstraints) (cl : FCluster)
    (pp : List FVector2D) (n : Int) (m : FPathMetrics) (c : FCell) (hH : con.Holes = none) :
    (FinishCell M con cl pp n m c).2.2 = none := by
  unfold FinishCell
  simp only [hH, CheckHoles]
  split_ifs
  all_goals first
    | rfl
    | skip
  all_goals split
  all_goals first
    | rfl
    | skip
  all_goals split_ifs
  all_goals rfl

/-- One call on constraints without holes, whatever the two sets hold, for a seed whose trace on
empty sets returns `Success`: the seed half-edge is recorded, and the result is `Duplicate` when
the hash of the traced cell is in the set of cell hashes, `Success` with the hash recorded
otherwise. -/
theorem Seed_build (M : FMathKernel) (con : FCellConstraints) (cl : FCluster) (pp : List FVector2D)
    (s : FLink) (hH : con.Holes = none)
    (hsucc : (BuildFromCluster M (con.WithSets ∅ ∅) {} s cl pp).map (fun r => r.1) =
      some ECellResult.Success)
    (S P : Finset ℕ) (hk : SeedKey cl s ∉ S) :
    ∃ cell, BuildFromCluster M (con.WithSets S P) {} s cl pp = some (
      (if TracedHash M con cl pp s ∈ P then ECellResult.Duplicate else .Success),
      cell,
      con.WithSets (insert (SeedKey cl s) S)
        (if TracedHash M con cl pp s ∈ P then P else insert (TracedHash M con cl pp s) P)) := by
  obtain ⟨⟨r, c, c1⟩, hb, hr⟩ := Option.map_eq_some'.mp hsucc
  simp only at hr
  subst hr
  obtain ⟨w, hw, h1, h2, hF, _⟩ :=
    BuildFromCluster_finished M (con.WithSets ∅ ∅) {} s cl pp _ c c1 hb (Or.inl rfl)
  rw [BeginWalk_WithSets, WalkLoop_WithSets] at hw
  rw [FinishCell_WithSets] at hF
  have hT : TracedHash M con cl pp s = (HashedCell w).1 := by
    unfold TracedHash
    rw [hw]
  have hbuild : BuildFromCluster M (con.WithSets S P) {} s cl pp =
      some (CompleteCell M (con.WithSets (insert (SeedKey cl s) S) P) cl pp w) := by
    rw [BuildFromCluster_start_unique _ _ _ _ _ _ hk, BeginWalk_WithSets, WalkLoop_WithSets, hw]
    rfl
  rw [hbuild, hT]
  by_cases hp : (HashedCell w).1 ∈ P
  · rw [CompleteCell_duplicate M _ cl pp w h1 h2 hp]
    simp only [hp, if_true]
    exact ⟨_, rfl⟩
  · rw [CompleteCell_unique M _ cl pp w h1 h2 hp, FinishCell_WithSets, hF,
      FinishCell_holes M con cl pp _ _ _ hH]
    simp only [hp, if_false]
    refine ⟨(FinishCell M con cl pp w.NumUniqueNodes w.Metrics
      { (HashedCell w).2 with bBuiltSuccessfully := true }).2.1, ?_⟩
    congr 2
    cases con
    simp only [FCellConstraints.WithSets] at hH ⊢
    subst hH
    rfl

/-- The calls of a list of seeds with distinct half-edges, each of whose traces on empty sets
returns `Success`, on one shared constraints object: every result is `Success` or `Duplicate`, and
for every hash of a traced cell that is not yet recorded exactly one seed of that hash gets
`Success`. -/
theorem Seeds_trace (M : FMathKernel) (con : FCellConstraints) (cl : FCluster) (pp : List FVector2D)
    (hH : con.Holes = none) (l : List FLink) :
    ∀ (S P : Finset ℕ), l.Nodup →
    (∀ s ∈ l, ∀ t ∈ l, SeedKey cl s = SeedKey cl t → s = t) →
    (∀ s ∈ l, (BuildFromCluster M (con.WithSets ∅ ∅) {} s cl pp).map (fun r => r.1) =
      some ECellResult.Success) →
    (∀ s ∈ l, SeedKey cl s ∉ S) →
    ∃ rs, TraceSeeds M cl pp (con.WithSets S P) l = some rs ∧
      rs.length = l.length ∧ (∀ r ∈ rs, r = ECellResult.Success ∨ r = ECellResult.Duplicate) ∧
      rs.count ECellResult.Success = ((l.map (TracedHash M con cl pp)).toFinset \ P).card ∧
      (∀ c, (l.zip rs).countP
          (fun p => decide (TracedHash M con cl pp p.1 = c ∧ p.2 = ECellResult.Success)) =
        if c ∈ (l.map (TracedHash M con cl pp)).toFinset ∧ c ∉ P then 1 else 0) := by
  induction l with
  | nil => intro S P _ _ _ _; exact ⟨[], rfl, rfl, by simp, by simp, by simp⟩
  | cons s t ih =>
    intro S P hnd hinj hsucc hkey
    have hk : SeedKey cl s ∉ S := hkey s (List.mem_cons_self _ _)
    obtain ⟨cell, hb⟩ := Seed_build M con cl pp s hH (hsucc s (List.mem_cons_self _ _)) S P hk
    have hnd1 := (List.nodup_cons.mp hnd)
    have hkey1 : ∀ u ∈ t, SeedKey cl u ∉ insert (SeedKey cl s) S := by
      intro u hu hin
      rcases Finset.mem_insert.mp hin with h | h
      · have := hinj u (List.mem_cons_of_mem _ hu) s (List.mem_cons_self _ _) h
        exact hnd1.1 (this ▸ hu)
      · exact hkey u (List.mem_cons_of_mem _ hu) h
    have hinj1 : ∀ a ∈ t, ∀ b ∈ t, SeedKey cl a = SeedKey cl b → a = b :=
      fun a ha b hb1 => hinj a (List.mem_cons_of_mem _ ha) b (List.mem_cons_of_mem _ hb1)
    have hsucc1 : ∀ u ∈ t, (BuildFromCluster M (con.WithSets ∅ ∅) {} u cl pp).map (fun r => r.1) =
        some ECellResult.Success := fun u hu => hsucc u (List.mem_cons_of_mem _ hu)
    by_cases hp : TracedHash M con cl pp s ∈ P
    · simp only [hp, if_true] at hb
      obtain ⟨rs, h1, h2, h3, h4, h5⟩ := ih (insert (SeedKey cl s) S) P hnd1.2 hinj1 hsucc1 hkey1
      refine ⟨ECellResult.Duplicate :: rs, ?_, ?_, ?_, ?_, ?_⟩
      · simp only [TraceSeeds, hb, h1]; rfl
      · simp [h2]
      · intro r hr
        rcases List.mem_cons.mp hr with h | h
        · exact Or.inr h
        · exact h3 r h
      · rw [List.count_cons_of_ne (by decide), h4]
        congr 1
        ext x; simp only [List.map_cons, List.toFinset_cons, Finset.mem_sdiff, Finset.mem_insert]
        constructor
        · rintro ⟨a, b⟩; exact ⟨Or.inr a, b⟩
        · rintro ⟨a | a, b⟩
          · exact absurd (a ▸ hp) b
          · exact ⟨a, b⟩
      · intro c
        rw [List.zip_cons_cons, List.countP_cons_of_neg _ _ (by simp), h5 c]
        simp only [List.map_cons, List.toFinset_cons, Finset.mem_insert]
        by_cases hcs : c = TracedHash M con cl pp s
        · subst hcs; simp [hp]
        · simp [hcs]
    · simp only [hp, if_false] at hb
      obtain ⟨rs, h1, h2, h3, h4, h5⟩ :=
        ih (insert (SeedKey cl s) S) (insert (TracedHash M con cl pp s) P) hnd1.2 hinj1 hsucc1 hkey1
      refine ⟨ECellResult.Success :: rs, ?_, ?_, ?_, ?_, ?_⟩
      · simp only [TraceSeeds, hb, h1]; rfl
      · simp [h2]
      · intro r hr
        rcases List.mem_cons.mp hr with h | h
        · exact Or.inl h
        · exact h3 r h
      · rw [List.count_cons_self, h4, List.map_cons, List.toFinset_cons, card_insert_sdiff _ _ _ hp]
      · intro c
        rw [List.zip_cons_cons, List.countP_cons, h5 c]
        simp only [List.map_cons, List.toFinset_cons, Finset.mem_insert]
        by_cases hcs : c = TracedHash M con cl pp s
        · subst hcs; simp [hp]
        · have hcs1 : ¬ TracedHash M con cl pp s = c := fun h => hcs h.symm
          simp [hcs, hcs1]

/-- A list of results that are all `Success` or `Duplicate` is counted by the two. -/
theorem count_success_duplicate (rs : List ECellResult)
    (h : ∀ r ∈ rs, r = ECellResult.Success ∨ r = ECellResult.Duplicate) :
    rs.count ECellResult.Success + rs.count ECellResult.Duplicate = rs.length := by
  induction rs with
  | nil => rfl
  | cons r t ih =>
    have := ih (fun x hx => h x (List.mem_cons_of_mem _ hx))
    rcases h r (List.mem_cons_self _ _) with e | e <;> subst e <;>
      simp [List.count_cons] <;> omega

/-- A seed that passes `SeedCheck` returns `Success` when traced alone on empty sets, and the hash
of the cell it traces is the one checked. -/
theorem SeedCheck_spec (M : FMathKernel) (con : FCellConstraints) (cl : FCluster)
    (pp : List FVector2D) (h : ℕ) (s : FLink) (hc : SeedCheck M con cl pp h s = true) :
    (BuildFromCluster M (con.WithSets ∅ ∅) {} s cl pp).map (fun r => r.1) =
      some ECellResult.Success ∧
    TracedHash M con cl pp s = h := by
  unfold SeedCheck at hc
  split at hc
  · rename_i w hw
    simp only [Bool.and_eq_true, decide_eq_true_eq] at hc
    obtain ⟨⟨⟨h1, h2⟩, h3⟩, h4⟩ := hc
    have hk : H64 s.Node (SeedTo cl s).Node ∉ (con.WithSets ∅ ∅).UniqueStartHalfEdgesHash := by
      simp [FCellConstraints.WithSets]
    have hp : (HashedCell w).1 ∉ ((con.WithSets ∅ ∅).WithSets
        (insert (H64 s.Node (SeedTo cl s).Node) (con.WithSets ∅ ∅).UniqueStartHalfEdgesHash)
        (con.WithSets ∅ ∅).UniquePathsHashSet).UniquePathsHashSet := by
      simp [FCellConstraints.WithSets]
    refine ⟨?_, ?_⟩
    · rw [BuildFromCluster_start_unique _ _ _ _ _ _ hk, BeginWalk_WithSets, WalkLoop_WithSets, hw]
      simp only [Option.map_some']
      rw [CompleteCell_unique M _ cl pp w h1 h2 hp, FinishCell_WithSets, FinishCell_WithSets, h4]
    · unfold TracedHash
      rw [hw]
      exact h3
  · cases hc

/-- A list of calls returns a result for every seed. -/
theorem TraceSeeds_total (M : FMathKernel) (cl : FCluster) (pp : List FVector2D) :
    ∀ (l : List FLink) (con : FCellConstraints),
      ∃ rs, TraceSeeds M cl pp con l = some rs ∧ rs.length = l.length := by
  intro l
  induction l with
  | nil => intro con; exact ⟨[], rfl, rfl⟩
  | cons s t ih =>
    intro con
    obtain ⟨r, c, con1, hb⟩ := BuildFromCluster_total M con {} s cl pp
    obtain ⟨rs, h1, h2⟩ := ih con1
    refine ⟨r :: rs, ?_, by simp [h2]⟩
    simp only [TraceSeeds, hb, h1]
    rfl

/-- One call, whatever the two sets hold, for a seed that passes `WalkCheck` with a hash that is
already recorded: the seed half-edge is recorded and the result is `Duplicate`; the completion
checks are not reached. -/
theorem WalkCheck_duplicate (M : FMathKernel) (con : FCellConstraints) (cl : FCluster)
    (pp : List FVector2D) (h : ℕ) (s : FLink) (hc : WalkCheck M con cl pp h s = true)
    (S P : Finset ℕ) (hk : SeedKey cl s ∉ S) (hP : h ∈ P) :
    TracedHash M con cl pp s = h ∧
    ∃ cell, BuildFromCluster M (con.WithSets S P) {} s cl pp =
      some (ECellResult.Duplicate, cell, con.WithSets (insert (SeedKey cl s) S) P) := by
  unfold WalkCheck at hc
  split at hc
  · rename_i w hw
    simp only [Bool.and_eq_true, decide_eq_true_eq] at hc
    obtain ⟨⟨h1, h2⟩, h3⟩ := hc
    refine ⟨?_, ?_⟩
    · unfold TracedHash
      rw [hw]
      exact h3
    · have hbuild : BuildFromCluster M (con.WithSets S P) {} s cl pp =
          some (CompleteCell M (con.WithSets (insert (SeedKey cl s) S) P) cl pp w) := by
        rw [BuildFromCluster_start_unique _ _ _ _ _ _ hk, BeginWalk_WithSets, WalkLoop_WithSets, hw]
        rfl
      have hp : (HashedCell w).1 ∈ (con.WithSets (insert (SeedKey cl s) S) P).UniquePathsHashSet := by
        rw [h3]; exact hP
      rw [hbuild, CompleteCell_duplicate M _ cl pp w h1 h2 hp]
      exact ⟨_, rfl⟩
  · cases hc

/-- Seeds with distinct new half-edges that pass `WalkCheck` with a recorded hash return
`Duplicate` one after the other, and leave the set of cell hashes as it was. -/
theorem Seeds_duplicates (M : FMathKernel) (con : FCellConstraints) (cl : FCluster)
    (pp : List FVector2D) (h : ℕ) (l rest : List FLink) :
    ∀ (S P : Finset ℕ), l.Nodup →
    (∀ s ∈ l, ∀ t ∈ l, SeedKey cl s = SeedKey cl t → s = t) →
    (∀ s ∈ l, WalkCheck M con cl pp h s = true) →
    (∀ s ∈ l, SeedKey cl s ∉ S) → h ∈ P →
    ∃ S1, TraceSeeds M cl pp (con.WithSets S P) (l ++ rest) =
      (TraceSeeds M cl pp (con.WithSets S1 P) rest).map
        (fun rs => List.replicate l.length ECellResult.Duplicate ++ rs) := by
  induction l with
  | nil =>
    intro S P _ _ _ _ _
    refine ⟨S, ?_⟩
    simp
  | cons s t ih =>
    intro S P hnd hinj hchk hkey hP
    have hk : SeedKey cl s ∉ S := hkey s (List.mem_cons_self _ _)
    obtain ⟨_, cell, hb⟩ := WalkCheck_duplicate M con cl pp h s (hchk s (List.mem_cons_self _ _))
      S P hk hP
    have hnd1 := (List.nodup_cons.mp hnd)
    have hkey1 : ∀ u ∈ t, SeedKey cl u ∉ insert (SeedKey cl s) S := by
      intro u hu hin
      rcases Finset.mem_insert.mp hin with e | e
      · have := hinj u (List.mem_cons_of_mem _ hu) s (List.mem_cons_self _ _) e
        exact hnd1.1 (this ▸ hu)
      · exact hkey u (List.mem_cons_of_mem _ hu) e
    obtain ⟨S1, h1⟩ := ih (insert (SeedKey cl s) S) P hnd1.2
      (fun a ha b hb1 => hinj a (List.mem_cons_of_mem _ ha) b (List.mem_cons_of_mem _ hb1))
      (fun u hu => hchk u (List.mem_cons_of_mem _ hu)) hkey1 hP
    refine ⟨S1, ?_⟩
    rw [List.cons_append]
    simp only [TraceSeeds, hb, h1, Option.map_map]
    congr 1

/-- The eight seeds of the square pass the check, each with the hash of its direction. -/
theorem Square_checks : ∀ s ∈ SquareSeeds,
    SeedCheck RefMath {} SquareCluster SquarePositions (SquareClass s) s = true := by decide!

/-- The eight seeds of the square have pairwise distinct half-edge keys. -/
theorem Square_keys : ∀ s ∈ SquareSeeds, ∀ t ∈ SquareSeeds,
    SeedKey SquareCluster s = SeedKey SquareCluster t → s = t := by
  decide

/-- On the unit square, with one fresh default constraints object shared by all calls, calling
`BuildFromCluster` once from each of the 8 directed half-edges, in any order, gives 8 results of
which exactly two are `Success`, one for a seed of each traversal direction, and the six others
are `Duplicate`. -/
theorem Square_dedup (order : List FLink) (h : order.Perm SquareSeeds) :
    ∃ rs, TraceSeeds RefMath SquareCluster SquarePositions {} order = some rs ∧
      rs.length = 8 ∧
      rs.count ECellResult.Success = 2 ∧
      rs.count ECellResult.Duplicate = 6 ∧
      (∀ r ∈ rs, r = ECellResult.Success ∨ r = ECellResult.Duplicate) ∧
      (order.zip rs).countP (fun p => decide (p.1 ∈ SquareSeeds.take 4 ∧ p.2 = ECellResult.Success)) = 1 ∧
      (order.zip rs).countP (fun p => decide (p.1 ∉ SquareSeeds.take 4 ∧ p.2 = ECellResult.Success)) = 1 := by
  have hnd : order.Nodup := h.nodup_iff.mpr (by decide)
  have hmem : ∀ s ∈ order, s ∈ SquareSeeds := fun s hs => h.mem_iff.mp hs
  have hspec : ∀ s ∈ order,
      (BuildFromCluster RefMath (({} : FCellConstraints).WithSets ∅ ∅) {} s SquareCluster
        SquarePositions).map (fun r => r.1) = some ECellResult.Success ∧
      TracedHash RefMath {} SquareCluster SquarePositions s = SquareClass s := fun s hs =>
    SeedCheck_spec RefMath {} SquareCluster SquarePositions (SquareClass s) s
      (Square_checks s (hmem s hs))
  obtain ⟨rs, h1, h2, h3, h4, h5⟩ := Seeds_trace RefMath {} SquareCluster SquarePositions rfl order
    ∅ ∅ hnd (fun s hs t ht => Square_keys s (hmem s hs) t (hmem t ht))
    (fun s hs => (hspec s hs).1) (by simp)
  have hmap : order.map (TracedHash RefMath {} SquareCluster SquarePositions) =
      order.map SquareClass := List.map_congr_left (fun s hs => (hspec s hs).2)
  rw [hmap] at h4 h5
  have hcls : (order.map SquareClass).toFinset = {1213084661, 1213059221} := by
    rw [List.toFinset_eq_of_perm _ _ (h.map SquareClass)]; decide
  have hlen : rs.length = 8 := by rw [h2, h.length_eq]; rfl
  have hsucc : rs.count ECellResult.Success = 2 := by rw [h4, hcls]; decide
  refine ⟨rs, h1, hlen, hsucc, ?_, h3, ?_, ?_⟩
  · have := count_success_duplicate rs h3
    omega
  · have := h5 1213084661
    rw [hcls] at this
    simp only [Finset.mem_insert, Finset.mem_singleton, true_or, Finset.not_mem_empty,
      not_false_eq_true, and_self, if_true] at this
    rw [← this]
    apply List.countP_congr
    intro p hp
    have hp0 : p.1 ∈ order := (List.of_mem_zip hp).1
    have hp1 : p.1 ∈ SquareSeeds := hmem _ hp0
    have : ∀ s ∈ SquareSeeds, (s ∈ SquareSeeds.take 4 ↔ SquareClass s = 1213084661) := by decide
    simp [this p.1 hp1, (hspec p.1 hp0).2]
  · have := h5 1213059221
    rw [hcls] at this
    simp only [Finset.mem_insert, Finset.mem_singleton, or_true, Finset.not_mem_empty,
      not_false_eq_true, and_self, if_true] at this
    rw [← this]
    apply List.countP_congr
    intro p hp
    have hp0 : p.1 ∈ order := (List.of_mem_zip hp).1
    have hp1 : p.1 ∈ SquareSeeds := hmem _ hp0
    have : ∀ s ∈ SquareSeeds, (s ∉ SquareSeeds.take 4 ↔ SquareClass s = 1213059221) := by decide
    simp [this p.1 hp1, (hspec p.1 hp0).2]

/-- The seed 0 -> 6 of the 14-gon passes the check with the hash 1558519443. -/
theorem CollidingCheck_forward :
    SeedCheck RefMath {} CollidingCluster CollidingPositions 1558519443 ⟨0, 0⟩ = true := by
  decide!

/-- The seed 6 -> 0 of the 14-gon, of the opposite direction, passes the check with the same hash
1558519443. -/
theorem CollidingCheck_opposite :
    SeedCheck RefMath {} CollidingCluster CollidingPositions 1558519443 ⟨6, 0⟩ = true := by
  decide!

/-- The walks of the seeds 1 to 2 of the opposite direction end with the same hash. -/
theorem CollidingCheck_backward_1 : ∀ s ∈ CollidingBackward.take 2,
    WalkCheck RefMath {} CollidingCluster CollidingPositions 1558519443 s = true := by decide!

/-- The walks of the seeds 3 to 4 of the opposite direction end with the same hash. -/
theorem CollidingCheck_backward_2 : ∀ s ∈ (CollidingBackward.drop 2).take 2,
    WalkCheck RefMath {} CollidingCluster CollidingPositions 1558519443 s = true := by decide!

/-- The walks of the seeds 5 to 6 of the opposite direction end with the same hash. -/
theorem CollidingCheck_backward_3 : ∀ s ∈ (CollidingBackward.drop 4).take 2,
    WalkCheck RefMath {} CollidingCluster CollidingPositions 1558519443 s = true := by decide!

/-- The walks of the seeds 7 to 8 of the opposite direction end with the same hash. -/
theorem CollidingCheck_backward_4 : ∀ s ∈ (CollidingBackward.drop 6).take 2,
    WalkCheck RefMath {} CollidingCluster CollidingPositions 1558519443 s = true := by decide!

/-- The walks of the seeds 9 to 10 of the opposite direction end with the same hash. -/
theorem CollidingCheck_backward_5 : ∀ s ∈ (CollidingBackward.drop 8).take 2,
    WalkCheck RefMath {} CollidingCluster CollidingPositions 1558519443 s = true := by decide!

/-- The walks of the seeds 11 to 12 of the opposite direction end with the same hash. -/
theorem CollidingCheck_backward_6 : ∀ s ∈ (CollidingBackward.drop 10).take 2,
    WalkCheck RefMath {} CollidingCluster CollidingPositions 1558519443 s = true := by decide!

/-- The walks of the seeds 13 to 14 of the opposite direction end with the same hash. -/
theorem CollidingCheck_backward_7 : ∀ s ∈ CollidingBackward.drop 12,
    WalkCheck RefMath {} CollidingCluster CollidingPositions 1558519443 s = true := by decide!

/-- The walks of all 14 seeds of the opposite direction end with the hash of the seed 0 -> 6. -/
theorem CollidingCheck_backward : ∀ s ∈ CollidingBackward,
    WalkCheck RefMath {} CollidingCluster CollidingPositions 1558519443 s = true := by
  intro s hs
  have e : CollidingBackward = CollidingBackward.take 2 ++
      ((CollidingBackward.drop 2).take 2 ++
      ((CollidingBackward.drop 4).take 2 ++
      ((CollidingBackward.drop 6).take 2 ++
      ((CollidingBackward.drop 8).take 2 ++
      ((CollidingBackward.drop 10).take 2 ++
      (CollidingBackward.drop 12)))))) := by
    decide
  rw [e] at hs
  simp only [List.mem_append] at hs
  rcases hs with h | h | h | h | h | h | h
  · exact CollidingCheck_backward_1 s h
  · exact CollidingCheck_backward_2 s h
  · exact CollidingCheck_backward_3 s h
  · exact CollidingCheck_backward_4 s h
  · exact CollidingCheck_backward_5 s h
  · exact CollidingCheck_backward_6 s h
  · exact CollidingCheck_backward_7 s h

/-- C11, counterexample: `MaxPointCount = 3`, every other limit at its default, on the cycle of
five nodes whose nodes 2 and 3 coincide.  The walk from node 0 -> node 1 appends a fourth node,
node 3, but the segment to it has length 0, below the default `MinSegmentLength`, and the
segment-length test comes first: the build returns `OutsideSegmentsLimit`, not
`OutsidePointsLimit`.  On default limits the same seed returns the same code. -/
theorem C11_coincident_nodes_counterexample :
    (BuildFromCluster RefMath { MaxPointCount := 3 } {} ⟨0, 0⟩ PinchedCluster PinchedPositions).map
      (fun r => (r.1, r.2.1.Nodes)) = some (ECellResult.OutsideSegmentsLimit, [0, 1, 2, 3]) ∧
    (({ MaxPointCount := 3 } : FCellConstraints).MinSegmentLength = MIN_dbl ∧ (0 : ℚ) < MIN_dbl) ∧
    (BuildFromCluster RefMath {} {} ⟨0, 0⟩ PinchedCluster PinchedPositions).map
      (fun r => (r.1, r.2.1.Nodes)) = some (ECellResult.OutsideSegmentsLimit, [0, 1, 2, 3]) := by
  decide!

/-! ## Indices of the ear clipping (C27) -/

/-- A scan step that finds no ear moves the cursor to valid positions, and the scan ends at valid
positions with a counter below the number of steps it was given. -/
theorem ScanForEar_in_range (F : FVector → FVector → FVector → FVector → Bool) (Cell : FCell)
    (pos : List FVector) (cl : FCluster) (q : List Int) :
    ∀ (n : Nat) (i : Int) (k : FEarCursor) (j : Int) (ke : FEarCursor),
      k.InRange (q.length : Int) → ScanForEar F Cell pos cl q n i k = some (j, ke) →
      ke.InRange (q.length : Int) ∧ i ≤ j ∧ j < i + n := by
  intro n
  induction n with
  | zero => intro i k j ke _ h; simp [ScanForEar] at h
  | succ n ih =>
    intro i k j ke hk h
    rw [ScanForEar] at h
    by_cases he : IsEar F Cell pos cl q k = true
    · rw [if_pos he] at h
      injection h with h; injection h with h1 h2
      subst h1; subst h2
      exact ⟨hk, le_refl _, by push_cast; omega⟩
    · rw [if_neg he] at h
      obtain ⟨h1, h2, h3, h4, h5, h6⟩ := hk
      have hpos : (0 : Int) < (q.length : Int) := by omega
      have hk1 : (⟨k.CurrIndex, k.NextIndex, (k.NextIndex + 1) % (q.length : Int)⟩ : FEarCursor).InRange
          (q.length : Int) :=
        ⟨h3, h4, h5, h6, Int.emod_nonneg _ (by omega), Int.emod_lt_of_pos _ hpos⟩
      obtain ⟨a, b, c⟩ := ih (i + 1) _ j ke hk1 h
      exact ⟨a, by omega, by push_cast; omega⟩

/-- After a removal that leaves at least one entry, the cursor is at valid positions. -/
theorem AfterRemoval_in_range (k : FEarCursor) (Num : Int) (h : 0 < Num) :
    (k.AfterRemoval Num).InRange Num := by
  unfold FEarCursor.AfterRemoval FEarCursor.InRange
  have hne : Num ≠ 0 := by omega
  exact ⟨Int.emod_nonneg _ hne, Int.emod_lt_of_pos _ h, Int.emod_nonneg _ hne, Int.emod_lt_of_pos _ h,
    Int.emod_nonneg _ hne, Int.emod_lt_of_pos _ h⟩

/-- Every emission of the ear-clipping loop is made at valid cursor positions of a queue of three
entries or more, with a scan counter below the length of the queue, and the cursor after the
removal is at valid positions of the shortened queue. -/
theorem EarTrace_in_range (F : FVector → FVector → FVector → FVector → Bool) (b : Bool) (Cell : FCell)
    (pos : List FVector) :
    ∀ (fuel : Nat) (q : List Int) (k : FEarCursor) (st : List FTriangle × FCluster),
      k.InRange (q.length : Int) →
      ∀ t ∈ EarTrace F b Cell pos fuel q k st,
        t.Cursor.InRange (t.Queue.length : Int) ∧
        (t.Cursor.AfterRemoval ((RemoveAtSwap t.Queue t.Cursor.CurrIndex).length : Int)).InRange
          ((RemoveAtSwap t.Queue t.Cursor.CurrIndex).length : Int) ∧
        0 ≤ t.Counter ∧ t.Counter < (t.Queue.length : Int) ∧
        3 ≤ t.Queue.length ∧ t.Queue.length ≤ q.length := by
  intro fuel
  induction fuel with
  | zero => intro q k st _ t ht; simp [EarTrace] at ht
  | succ n ih =>
    intro q k st hk t ht
    rw [EarTrace] at ht
    by_cases h2 : q.length > 2
    · rw [if_pos h2] at ht
      cases hs : ScanForEar F Cell pos st.2 q q.length 0 k with
      | none => rw [hs] at ht; simp at ht
      | some ie =>
        obtain ⟨i, ke⟩ := ie
        rw [hs] at ht
        simp only [List.mem_cons] at ht
        obtain ⟨hke, hi0, hi1⟩ := ScanForEar_in_range F Cell pos st.2 q q.length 0 k i ke hk hs
        have hlen : (RemoveAtSwap q ke.CurrIndex).length = q.length - 1 := RemoveAtSwap_length q _
        have hpos : (0 : Int) < ((RemoveAtSwap q ke.CurrIndex).length : Int) := by
          rw [hlen]; omega
        have hafter := AfterRemoval_in_range ke _ hpos
        rcases ht with ht | ht
        · subst ht
          exact ⟨hke, hafter, hi0, by simpa using hi1, h2, le_refl _⟩
        · obtain ⟨a, b1, c, d, e, f⟩ := ih _ _ _ hafter t ht
          exact ⟨a, b1, c, d, e, by rw [hlen] at f; omega⟩
    · rw [if_neg h2] at ht; simp at ht

/-- On positions that lie in the plane every scan ends at its first step: every emission is made
with the scan counter at 0, and a loop with enough iterations makes one emission per queue entry
beyond two. -/
theorem EarTrace_flat (F : FVector → FVector → FVector → FVector → Bool) (b : Bool) (Cell : FCell)
    (pos : List FVector) (hz : ∀ p ∈ pos, p.Z = 0) :
    ∀ (fuel : Nat) (q : List Int) (k : FEarCursor) (st : List FTriangle × FCluster),
      q.length ≤ fuel + 2 →
      (EarTrace F b Cell pos fuel q k st).length = q.length - 2 ∧
      ∀ t ∈ EarTrace F b Cell pos fuel q k st, t.Counter = 0 := by
  intro fuel
  induction fuel with
  | zero =>
    intro q k st hq
    rw [EarTrace]
    exact ⟨by simp; omega, by simp⟩
  | succ n ih =>
    intro q k st hq
    rw [EarTrace]
    by_cases h2 : q.length > 2
    · rw [if_pos h2]
      obtain ⟨m, hm⟩ : ∃ m, q.length = m + 1 := ⟨q.length - 1, by omega⟩
      have hs : ScanForEar F Cell pos st.2 q q.length 0 k = some (0, k) := by
        rw [hm]; exact ScanForEar_flat F Cell pos st.2 q m 0 k hz
      rw [hs]
      simp only
      have hlen : (RemoveAtSwap q k.CurrIndex).length = q.length - 1 := RemoveAtSwap_length q _
      obtain ⟨a, b1⟩ := ih (RemoveAtSwap q k.CurrIndex)
        (k.AfterRemoval ((RemoveAtSwap q k.CurrIndex).length : Int))
        (EmitTriangle b Cell pos st 0) (by rw [hlen]; omega)
      refine ⟨?_, ?_⟩
      · rw [List.length_cons, a, hlen]; omega
      · intro t ht
        rcases List.mem_cons.mp ht with ht | ht
        · subst ht; rfl
        · exact b1 t ht
    · rw [if_neg h2]
      exact ⟨by simp; omega, by simp⟩

end PCGExTopology
